import Mathlib

/-!
Verification development for the bughouse chess engine of this repository.

The single-board rules engine is embedded from src/shared/chess.ts (the
revision whose line numbers the claims cite) and the multi-board
orchestrator from the first (current) revision of src/shared/room.ts.

Modelling conventions, chosen to stay faithful to the JavaScript runtime
semantics of the source:
  * Color is the numeric enum WHITE = 1 / BLACK = 0, used by the source in
    truthiness position (color ? a : b), so it is embedded as Bool with
    true = WHITE and false = BLACK.
  * A board cell at runtime holds a Piece, or the empty markers undefined
    (written by createEmptyBoard and by every move) or null (present in
    boards that went through Chess.deserialize, whose serialized form maps
    empty squares to null).  The source tests emptiness sometimes by
    truthiness (piece ? ... ) and sometimes by strict comparison with null
    (board[r][c] !== null); these disagree on undefined cells, so cells are
    embedded three-valued: undef, nul, occ piece.
  * A pocket is a JavaScript Map from piece type to count; Map iteration
    order is insertion order, so a pocket is embedded as an association
    list and set/delete mirror Map.set / Map.delete.
  * Stateful methods that tentatively mutate the board and restore it are
    embedded in explicit state-passing style, returning the result
    together with the state as it is after the call.
  * A JavaScript TypeError (member access on undefined, as happens for an
    out-of-range match index) is embedded as an Option-returning function
    yielding none.
-/

namespace Bughouse

/-- Color enum from src/shared/chess.ts: WHITE = 1, BLACK = 0, embedded as
Bool (true = WHITE) because the source uses colors in truthiness tests. -/
abbrev Color := Bool

def Color.WHITE : Color := true

def Color.BLACK : Color := false

/-- invertColor from src/shared/chess.ts. -/
def invertColor (color : Color) : Color :=
  if color then Color.BLACK else Color.WHITE

/-- PieceType enum from src/shared/chess.ts. -/
inductive PieceType where
  | KING
  | QUEEN
  | ROOK
  | BISHOP
  | KNIGHT
  | PAWN
  | PROMOTED_QUEEN
deriving DecidableEq

/-- Piece record from src/shared/chess.ts. -/
structure Piece where
  type : PieceType
  color : Color
deriving DecidableEq

/-- A board cell as it exists at runtime: a piece, or one of the two
JavaScript empty markers (undefined or null).  createEmptyBoard and all
move execution write undefined; Chess.deserialize can install null. -/
inductive Cell where
  | undef
  | nul
  | occ (p : Piece)
deriving DecidableEq

/-- JavaScript truthiness of a cell value (used by tests like
(piece ? ... : ...) and (!piece)). -/
def Cell.truthy : Cell → Bool
  | Cell.occ _ => true
  | _ => false

/-- JavaScript strict comparison (cell !== null), which is true for both a
piece and undefined. -/
def Cell.neNull : Cell → Bool
  | Cell.nul => false
  | _ => true

/-- The piece held by a cell, if any. -/
def Cell.piece : Cell → Option Piece
  | Cell.occ p => some p
  | _ => none

/-- A board square: row and column in 0..7 (row 0 is Black's back rank). -/
abbrev Sq := Fin 8 × Fin 8

/-- The 8 x 8 board of cells. -/
abbrev BoardT := Sq → Cell

/-- Writing one board cell (board[r][c] = v in the source). -/
def setCell (b : BoardT) (s : Sq) (v : Cell) : BoardT :=
  fun x => if x = s then v else b x

/-- All 64 squares in the row-major order in which every loop of the
source scans the board (for row ... for col ...). -/
def allSquares : List Sq :=
  (List.finRange 8).flatMap fun r => (List.finRange 8).map fun c => (r, c)

/-- Position union type from src/shared/chess.ts: a board square or a
pocket slot. -/
inductive Position where
  | board (sq : Sq)
  | pocket (color : Color) (type : PieceType)
deriving DecidableEq

/-- Move record from src/shared/chess.ts ({from, to}; from is a reserved
word in Lean, hence fromPos/toPos). -/
structure Move where
  fromPos : Position
  toPos : Position
deriving DecidableEq

/-- MoveResult from src/shared/chess.ts.  The chess revision under src/
names the piece field capturedPiece; the room.ts revision the claims cite
consumes the same record under the name captured (the rename happened in
the missing chess revision that matches room.ts), so the field is called
captured here.  The JavaScript distinction between a null and an undefined
captured piece is not observable in the orchestrator (it is only used in
truthiness position), so both are embedded as none. -/
structure MoveResult where
  success : Bool
  captured : Option Piece
deriving DecidableEq

/-- CastleMove enum from src/shared/chess.ts. -/
inductive CastleMove where
  | LONG
  | SHORT
deriving DecidableEq

/-- A pocket: the JavaScript Map from PieceType to count, embedded as an
association list in insertion order (Map iteration order). -/
abbrev Pocket := List (PieceType × Nat)

/-- Map.get with the source's (pocket.get(t) || 0) / (pocket.get(t) ?? 0)
reading of a missing key. -/
def pocketGet (p : Pocket) (t : PieceType) : Nat :=
  match p.find? (fun e => e.1 = t) with
  | some e => e.2
  | none => 0

/-- Map.set: replace the value of an existing key in place, else append. -/
def pocketSet (p : Pocket) (t : PieceType) (n : Nat) : Pocket :=
  match p with
  | [] => [(t, n)]
  | e :: rest => if e.1 = t then (t, n) :: rest else e :: pocketSet rest t n

/-- Map.delete. -/
def pocketDelete (p : Pocket) (t : PieceType) : Pocket :=
  match p with
  | [] => []
  | e :: rest => if e.1 = t then rest else e :: pocketDelete rest t

/-- The Chess board state from src/shared/chess.ts: board, the two
pockets, turn, the four castling-right flags and the en-passant target.
The en-passant target is only ever assigned a board position by the
engine, so it is embedded as an optional square. -/
structure Chess where
  board : BoardT
  whitePocket : Pocket
  blackPocket : Pocket
  turn : Color
  whiteCastleShort : Bool
  whiteCastleLong : Bool
  blackCastleShort : Bool
  blackCastleLong : Bool
  enPassantTarget : Option Sq
deriving DecidableEq

/-- The back rank layout used by Chess.reset. -/
def backRank (i : Fin 8) : PieceType :=
  match i.val with
  | 0 => PieceType.ROOK
  | 1 => PieceType.KNIGHT
  | 2 => PieceType.BISHOP
  | 3 => PieceType.QUEEN
  | 4 => PieceType.KING
  | 5 => PieceType.BISHOP
  | 6 => PieceType.KNIGHT
  | _ => PieceType.ROOK

/-- createEmptyBoard from src/shared/chess.ts: every cell is set to
undefined. -/
def createEmptyBoard : BoardT := fun _ => Cell.undef

/-- The board produced by Chess.reset: the empty (undefined) board with
rows 0, 1, 6, 7 filled in. -/
def resetBoard : BoardT := fun s =>
  if s.1 = (0 : Fin 8) then Cell.occ ⟨backRank s.2, Color.BLACK⟩
  else if s.1 = (1 : Fin 8) then Cell.occ ⟨PieceType.PAWN, Color.BLACK⟩
  else if s.1 = (6 : Fin 8) then Cell.occ ⟨PieceType.PAWN, Color.WHITE⟩
  else if s.1 = (7 : Fin 8) then Cell.occ ⟨backRank s.2, Color.WHITE⟩
  else Cell.undef

/-- The Chess state after reset (also the state built by the Chess
constructor). -/
def resetChess : Chess where
  board := resetBoard
  whitePocket := []
  blackPocket := []
  turn := Color.WHITE
  whiteCastleShort := true
  whiteCastleLong := true
  blackCastleShort := true
  blackCastleLong := true
  enPassantTarget := none

/-- Chess.getPocket. -/
def getPocket (c : Chess) (color : Color) : Pocket :=
  if color then c.whitePocket else c.blackPocket

/-- Helper for writing back the pocket that getPocket selected (the source
mutates the returned Map in place). -/
def setPocket (c : Chess) (color : Color) (p : Pocket) : Chess :=
  if color then { c with whitePocket := p } else { c with blackPocket := p }

/-- Chess.addToPocket: a PROMOTED_QUEEN arrives as a PAWN; the count of
the stored type is bumped by one. -/
def addToPocket (c : Chess) (piece : Piece) : Chess :=
  let pocket := getPocket c piece.color
  let typeToAdd :=
    if piece.type = PieceType.PROMOTED_QUEEN then PieceType.PAWN else piece.type
  setPocket c piece.color (pocketSet pocket typeToAdd (pocketGet pocket typeToAdd + 1))

/-- Chess.removeFromPocket: decrement if present, deleting a key that
reaches zero; reports whether a unit was removed. -/
def removeFromPocket (c : Chess) (pieceType : PieceType) (color : Color) :
    Bool × Chess :=
  let pocket := getPocket c color
  let count := pocketGet pocket pieceType
  if count > 0 then
    let p1 := pocketSet pocket pieceType (count - 1)
    let p2 := if count - 1 = 0 then pocketDelete p1 pieceType else p1
    (true, setPocket c color p2)
  else (false, c)

/-- The test Chess.findKing applies to each square: it holds a piece that
is a king of the given color. -/
def kingCell (b : BoardT) (color : Color) (s : Sq) : Bool :=
  match b s with
  | Cell.occ p => p.type = PieceType.KING && p.color = color
  | _ => false

/-- Chess.findKing: the first square in row-major scan order holding a
king of the given color. -/
def findKing (b : BoardT) (color : Color) : Option Sq :=
  allSquares.find? (kingCell b color)

/-- Interior of the while loop of Chess.isPathClear, stepping from the
square after the start until the destination is reached; a cell that is
not strictly equal to null (so a piece or the undefined empty marker)
blocks the path.  The fuel bounds the loop; every call site first checks
that from and to are aligned, which makes at most seven steps necessary. -/
def isPathClearAux (b : BoardT) (toR toC rowStep colStep : Int) :
    Nat → Int → Int → Bool
  | 0, _, _ => true
  | fuel + 1, curR, curC =>
    if curR = toR ∧ curC = toC then true
    else
      let cell :=
        if h : 0 ≤ curR ∧ curR < 8 ∧ 0 ≤ curC ∧ curC < 8 then
          b (⟨curR.toNat, by omega⟩, ⟨curC.toNat, by omega⟩)
        else Cell.undef
      if cell.neNull then false
      else isPathClearAux b toR toC rowStep colStep fuel (curR + rowStep) (curC + colStep)

/-- Chess.isPathClear on board squares. -/
def isPathClear (b : BoardT) (f t : Sq) : Bool :=
  let rowStep : Int :=
    if (t.1 : Int) > (f.1 : Int) then 1 else if (t.1 : Int) < (f.1 : Int) then -1 else 0
  let colStep : Int :=
    if (t.2 : Int) > (f.2 : Int) then 1 else if (t.2 : Int) < (f.2 : Int) then -1 else 0
  isPathClearAux b (t.1 : Int) (t.2 : Int) rowStep colStep 8
    ((f.1 : Int) + rowStep) ((f.2 : Int) + colStep)

/-- Chess.isDiagonalPath. -/
def isDiagonalPath (b : BoardT) (f t : Sq) : Bool :=
  if ((f.1 : Int) - (t.1 : Int)).natAbs ≠ ((f.2 : Int) - (t.2 : Int)).natAbs then false
  else isPathClear b f t

/-- Chess.isStraightPath. -/
def isStraightPath (b : BoardT) (f t : Sq) : Bool :=
  if f.1 ≠ t.1 ∧ f.2 ≠ t.2 then false
  else isPathClear b f t

/-- Chess.canPieceAttack on board squares. -/
def canPieceAttack (b : BoardT) (f t : Sq) : Bool :=
  match b f with
  | Cell.occ piece =>
    match piece.type with
    | PieceType.PAWN =>
      let direction : Int := if piece.color then -1 else 1
      ((f.2 : Int) - (t.2 : Int)).natAbs = 1 && (t.1 : Int) - (f.1 : Int) = direction
    | PieceType.KNIGHT =>
      let dr := ((f.1 : Int) - (t.1 : Int)).natAbs
      let dc := ((f.2 : Int) - (t.2 : Int)).natAbs
      (dr = 2 && dc = 1) || (dr = 1 && dc = 2)
    | PieceType.BISHOP => isDiagonalPath b f t
    | PieceType.ROOK => isStraightPath b f t
    | PieceType.PROMOTED_QUEEN => isDiagonalPath b f t || isStraightPath b f t
    | PieceType.QUEEN => isDiagonalPath b f t || isStraightPath b f t
    | PieceType.KING =>
      ((f.1 : Int) - (t.1 : Int)).natAbs ≤ 1 && ((f.2 : Int) - (t.2 : Int)).natAbs ≤ 1
  | _ => false

/-- Chess.isSquareAttacked: some piece of the given color attacks pos. -/
def isSquareAttacked (b : BoardT) (pos : Sq) (color : Color) : Bool :=
  allSquares.any fun s =>
    match b s with
    | Cell.occ p => p.color = color && canPieceAttack b s pos
    | _ => false

/-- Chess.isInCheck: the first-found king of the color is attacked by the
opposite color; a board without such a king is reported as not in check. -/
def isInCheck (b : BoardT) (color : Color) : Bool :=
  match findKing b color with
  | none => false
  | some kingPos =>
    isSquareAttacked b kingPos (if color then Color.BLACK else Color.WHITE)

/-- Chess.canCastle: rights flag, king and rook on the canonical home
squares, not currently in check, the squares strictly between king and
rook all strictly equal to null, and no square the king transits attacked
by the enemy.  The loops with constant bounds are written as the concrete
column lists they scan. -/
def canCastle (c : Chess) (color : Color) (side : CastleMove) : Bool :=
  let row : Fin 8 := if color then 7 else 0
  let kingCol : Fin 8 := 4
  let rookCol : Fin 8 := if side = CastleMove.SHORT then 7 else 0
  if color = true ∧ side = CastleMove.SHORT ∧ c.whiteCastleShort = false then false
  else if color = true ∧ side = CastleMove.LONG ∧ c.whiteCastleLong = false then false
  else if color = false ∧ side = CastleMove.SHORT ∧ c.blackCastleShort = false then false
  else if color = false ∧ side = CastleMove.LONG ∧ c.blackCastleLong = false then false
  else
    match c.board (row, kingCol), c.board (row, rookCol) with
    | Cell.occ king, Cell.occ rook =>
      if king.type ≠ PieceType.KING ∨ king.color ≠ color then false
      else if rook.type ≠ PieceType.ROOK ∨ rook.color ≠ color then false
      else if isInCheck c.board color then false
      else
        let betweenCols : List (Fin 8) :=
          if side = CastleMove.SHORT then [5, 6] else [1, 2, 3]
        if betweenCols.any (fun col => (c.board (row, col)).neNull) then false
        else
          let enemyColor := invertColor color
          let transitCols : List (Fin 8) :=
            if side = CastleMove.SHORT then [4, 5, 6] else [4, 3, 2]
          if transitCols.any
              (fun col => isSquareAttacked c.board (row, col) enemyColor) then false
          else true
    | _, _ => false

/-- Chess.isCastlingMove: a king moving two columns within one row. -/
def isCastlingMove (c : Chess) (f t : Sq) : Bool :=
  match c.board f with
  | Cell.occ piece =>
    piece.type = PieceType.KING
      && ((f.2 : Int) - (t.2 : Int)).natAbs = 2 && f.1 = t.1
  | _ => false

/-- Chess.isEnPassantMove: a pawn moving onto the current en-passant
target square.  The source also guards that the stored target is a board
position; the engine only ever stores board positions, which the Option Sq
embedding makes structural. -/
def isEnPassantMove (c : Chess) (f t : Sq) : Bool :=
  match c.enPassantTarget with
  | none => false
  | some ep =>
    match c.board f with
    | Cell.occ piece =>
      piece.type = PieceType.PAWN && t.1 = ep.1 && t.2 = ep.2
    | _ => false

/-- Chess.isLegalMove in state-passing style: the Bool result together
with the state after the call (the method tentatively mutates the board,
tests the mover's own check and restores, so the returned state is the
restored one). -/
def isLegalMoveS (c : Chess) (f t : Sq) : Bool × Chess :=
  match c.board f with
  | Cell.undef => (false, c)
  | Cell.nul => (false, c)
  | Cell.occ piece =>
    if c.turn ≠ piece.color then (false, c)
    else
      let targetPiece := c.board t
      let sameColorTarget : Bool :=
        match targetPiece with
        | Cell.occ q => q.color = piece.color
        | _ => false
      if sameColorTarget then (false, c)
      else
        let direction : Int := if piece.color then -1 else 1
        if piece.type = PieceType.KING ∧ isCastlingMove c f t then
          let side :=
            if (t.2 : Int) > (f.2 : Int) then CastleMove.SHORT else CastleMove.LONG
          (canCastle c piece.color side, c)
        else
          let isValid : Bool :=
            match piece.type with
            | PieceType.PAWN =>
              if f.2 = t.2 then
                if (t.1 : Int) - (f.1 : Int) = direction ∧ targetPiece.truthy = false then
                  true
                else if (t.1 : Int) - (f.1 : Int) = 2 * direction
                    ∧ targetPiece.truthy = false then
                  let startRow : Fin 8 := if piece.color then 6 else 1
                  f.1 = startRow && isPathClear c.board f t
                else false
              else if ((f.2 : Int) - (t.2 : Int)).natAbs = 1
                  ∧ (t.1 : Int) - (f.1 : Int) = direction then
                if targetPiece.truthy then true else isEnPassantMove c f t
              else false
            | PieceType.KNIGHT =>
              let dr := ((f.1 : Int) - (t.1 : Int)).natAbs
              let dc := ((f.2 : Int) - (t.2 : Int)).natAbs
              (dr = 2 && dc = 1) || (dr = 1 && dc = 2)
            | PieceType.BISHOP => isDiagonalPath c.board f t
            | PieceType.ROOK => isStraightPath c.board f t
            | PieceType.PROMOTED_QUEEN =>
              isDiagonalPath c.board f t || isStraightPath c.board f t
            | PieceType.QUEEN =>
              isDiagonalPath c.board f t || isStraightPath c.board f t
            | PieceType.KING =>
              ((f.1 : Int) - (t.1 : Int)).natAbs ≤ 1
                && ((f.2 : Int) - (t.2 : Int)).natAbs ≤ 1
          if isValid = false then (false, c)
          else
            let originalPiece := c.board t
            let isEP : Bool := piece.type = PieceType.PAWN && isEnPassantMove c f t
            let capturedEnPassantPiece :=
              if isEP then c.board (f.1, t.2) else Cell.undef
            let b1 := if isEP then setCell c.board (f.1, t.2) Cell.undef else c.board
            let b2 := setCell (setCell b1 t (Cell.occ piece)) f Cell.undef
            let inCheck := isInCheck b2 piece.color
            let b3 := setCell (setCell b2 f (Cell.occ piece)) t originalPiece
            let b4 :=
              if capturedEnPassantPiece.truthy then
                setCell b3 (f.1, t.2) capturedEnPassantPiece
              else b3
            (!inCheck, { c with board := b4 })

/-- The Bool value of Chess.isLegalMove. -/
def isLegalMove (c : Chess) (f t : Sq) : Bool :=
  (isLegalMoveS c f t).1

/-- Chess.isLegalDrop in state-passing style (tentatively places the
piece, tests check, clears the square again). -/
def isLegalDropS (c : Chess) (pos : Sq) (pieceType : PieceType) (color : Color) :
    Bool × Chess :=
  if (c.board pos).neNull then (false, c)
  else if c.turn ≠ color then (false, c)
  else if pocketGet (getPocket c color) pieceType ≤ 0 then (false, c)
  else if pieceType = PieceType.PAWN ∧ (pos.1 = (0 : Fin 8) ∨ pos.1 = (7 : Fin 8)) then
    (false, c)
  else
    let b1 := setCell c.board pos (Cell.occ ⟨pieceType, color⟩)
    let inCheck := isInCheck b1 color
    let b2 := setCell b1 pos Cell.undef
    (!inCheck, { c with board := b2 })

/-- The Bool value of Chess.isLegalDrop. -/
def isLegalDrop (c : Chess) (pos : Sq) (pieceType : PieceType) (color : Color) : Bool :=
  (isLegalDropS c pos pieceType color).1

/-- Chess.isLegalPremove: relaxed geometric legality used for queued
premoves (pure, no tentative mutation). -/
def isLegalPremove (c : Chess) (f t : Sq) : Bool :=
  match c.board f with
  | Cell.occ piece =>
    let direction : Int := if piece.color then -1 else 1
    match piece.type with
    | PieceType.PAWN =>
      if f.2 = t.2 then
        if (t.1 : Int) - (f.1 : Int) = direction then true
        else if (t.1 : Int) - (f.1 : Int) = 2 * direction then
          let startRow : Fin 8 := if piece.color then 6 else 1
          f.1 = startRow
        else false
      else if ((f.2 : Int) - (t.2 : Int)).natAbs = 1
          ∧ (t.1 : Int) - (f.1 : Int) = direction then true
      else false
    | PieceType.KNIGHT =>
      let dr := ((f.1 : Int) - (t.1 : Int)).natAbs
      let dc := ((f.2 : Int) - (t.2 : Int)).natAbs
      (dr = 2 && dc = 1) || (dr = 1 && dc = 2)
    | PieceType.BISHOP =>
      ((f.1 : Int) - (t.1 : Int)).natAbs = ((f.2 : Int) - (t.2 : Int)).natAbs
        && f.1 ≠ t.1
    | PieceType.ROOK =>
      (f.1 = t.1 ∨ f.2 = t.2) && ¬(f.1 = t.1 ∧ f.2 = t.2)
    | PieceType.PROMOTED_QUEEN =>
      (((f.1 : Int) - (t.1 : Int)).natAbs = ((f.2 : Int) - (t.2 : Int)).natAbs
          ∨ f.1 = t.1 ∨ f.2 = t.2)
        && ¬(f.1 = t.1 ∧ f.2 = t.2)
    | PieceType.QUEEN =>
      (((f.1 : Int) - (t.1 : Int)).natAbs = ((f.2 : Int) - (t.2 : Int)).natAbs
          ∨ f.1 = t.1 ∨ f.2 = t.2)
        && ¬(f.1 = t.1 ∧ f.2 = t.2)
    | PieceType.KING =>
      let rowDiff := ((f.1 : Int) - (t.1 : Int)).natAbs
      let colDiff := ((f.2 : Int) - (t.2 : Int)).natAbs
      if rowDiff ≤ 1 ∧ colDiff ≤ 1 ∧ rowDiff + colDiff > 0 then true
      else if f.1 = t.1 ∧ ((f.2 : Int) - (t.2 : Int)).natAbs = 2 then
        let homeRank : Fin 8 := if piece.color then 7 else 0
        if f.1 ≠ homeRank ∨ f.2 ≠ (4 : Fin 8) then false
        else
          let side :=
            if (t.2 : Int) > (f.2 : Int) then CastleMove.SHORT else CastleMove.LONG
          if piece.color then
            if side = CastleMove.SHORT ∧ c.whiteCastleShort = false
                ∧ (t.2 : Int) > (f.2 : Int) then false
            else if side = CastleMove.LONG ∧ c.whiteCastleLong = false
                ∧ (t.2 : Int) < (f.2 : Int) then false
            else true
          else
            if side = CastleMove.SHORT ∧ c.blackCastleShort = false
                ∧ (t.2 : Int) < (f.2 : Int) then false
            else if side = CastleMove.LONG ∧ c.blackCastleLong = false
                ∧ (t.2 : Int) > (f.2 : Int) then false
            else true
      else false
  | _ => false

/-- Chess.isLegalPredrop: relaxed drop legality for queued predrops
(pure). -/
def isLegalPredrop (c : Chess) (fromColor : Color) (fromType : PieceType)
    (dst : Position) : Bool :=
  match dst with
  | Position.pocket _ _ => false
  | Position.board pos =>
    if (c.board pos).neNull then false
    else if pocketGet (getPocket c fromColor) fromType ≤ 0 then false
    else if fromType = PieceType.PAWN ∧ (pos.1 = (0 : Fin 8) ∨ pos.1 = (7 : Fin 8)) then
      false
    else true

/-- Chess.dropPiece: execute a drop from the pocket, with the premove flag
selecting the relaxed legality test and suppressing the turn flip. -/
def dropPieceS (c : Chess) (fromColor : Color) (fromType : PieceType) (dst : Sq)
    (premove : Bool) : MoveResult × Chess :=
  let legal :=
    if premove then (isLegalPredrop c fromColor fromType (Position.board dst), c)
    else isLegalDropS c dst fromType fromColor
  if legal.1 = false then ({ success := false, captured := none }, legal.2)
  else
    let c1 := legal.2
    let b := setCell c1.board dst (Cell.occ ⟨fromType, fromColor⟩)
    let c2 := (removeFromPocket { c1 with board := b } fromType fromColor).2
    let c3 := { c2 with enPassantTarget := none }
    let c4 := if premove = false then { c3 with turn := invertColor c3.turn } else c3
    ({ success := true, captured := none }, c4)

/-- Chess.movePiece: execute a board move.  Notable details embedded
exactly from the source: a captured PROMOTED_QUEEN is reported as a PAWN
with the MOVING piece's color; the en-passant capture overwrites the
captured value with whatever occupies the passed square; castling uses
from.row as its row and relocates whatever the rook-from square holds;
a pawn reaching the last rank becomes a PROMOTED_QUEEN; castling rights
are cleared for king moves, rook moves off the four corner squares and
rook captures on them; the turn flips unless premove is set. -/
def movePieceS (c : Chess) (f t : Sq) (premove : Bool) : MoveResult × Chess :=
  let legal := if premove then (isLegalPremove c f t, c) else isLegalMoveS c f t
  if legal.1 = false then ({ success := false, captured := none }, legal.2)
  else
    let c1 := legal.2
    match c1.board f with
    | Cell.undef => ({ success := false, captured := none }, c1)
    | Cell.nul => ({ success := false, captured := none }, c1)
    | Cell.occ piece =>
      let captured0 : Option Piece :=
        match c1.board t with
        | Cell.occ q =>
          if q.type = PieceType.PROMOTED_QUEEN then some ⟨PieceType.PAWN, piece.color⟩
          else some q
        | _ => none
      let isEP : Bool := piece.type = PieceType.PAWN && isEnPassantMove c1 f t
      let captured := if isEP then (c1.board (f.1, t.2)).piece else captured0
      let b0 := if isEP then setCell c1.board (f.1, t.2) Cell.undef else c1.board
      let b1 :=
        if piece.type = PieceType.KING ∧ isCastlingMove c1 f t then
          let row := f.1
          let side :=
            if (t.2 : Int) > (f.2 : Int) then CastleMove.SHORT else CastleMove.LONG
          let rookFromCol : Fin 8 := if side = CastleMove.SHORT then 7 else 0
          let rookToCol : Fin 8 := if side = CastleMove.SHORT then 5 else 3
          let bk := setCell (setCell b0 t (Cell.occ piece)) f Cell.undef
          let rook := bk (row, rookFromCol)
          setCell (setCell bk (row, rookToCol) rook) (row, rookFromCol) Cell.undef
        else setCell (setCell b0 t (Cell.occ piece)) f Cell.undef
      let ep1 : Option Sq :=
        if piece.type = PieceType.PAWN ∧ ((t.1 : Int) - (f.1 : Int)).natAbs = 2 then
          some (⟨(f.1.val + t.1.val) / 2, by
            have h1 := f.1.isLt
            have h2 := t.1.isLt
            omega⟩, t.2)
        else none
      let b2 :=
        if piece.type = PieceType.PAWN ∧ (t.1 = (0 : Fin 8) ∨ t.1 = (7 : Fin 8)) then
          setCell b1 t (Cell.occ ⟨PieceType.PROMOTED_QUEEN, piece.color⟩)
        else b1
      let c2 := { c1 with board := b2, enPassantTarget := ep1 }
      let c3 :=
        if piece.type = PieceType.KING then
          if piece.color then
            { c2 with whiteCastleShort := false, whiteCastleLong := false }
          else { c2 with blackCastleShort := false, blackCastleLong := false }
        else c2
      let c4 :=
        if piece.type = PieceType.ROOK then
          if piece.color then
            if f = ((7 : Fin 8), (7 : Fin 8)) then { c3 with whiteCastleShort := false }
            else if f = ((7 : Fin 8), (0 : Fin 8)) then { c3 with whiteCastleLong := false }
            else c3
          else
            if f = ((0 : Fin 8), (7 : Fin 8)) then { c3 with blackCastleShort := false }
            else if f = ((0 : Fin 8), (0 : Fin 8)) then { c3 with blackCastleLong := false }
            else c3
        else c3
      let c5 :=
        match captured with
        | some q =>
          if q.type = PieceType.ROOK then
            if q.color = Color.WHITE then
              if t = ((7 : Fin 8), (7 : Fin 8)) then { c4 with whiteCastleShort := false }
              else if t = ((7 : Fin 8), (0 : Fin 8)) then { c4 with whiteCastleLong := false }
              else c4
            else
              if t = ((0 : Fin 8), (7 : Fin 8)) then { c4 with blackCastleShort := false }
              else if t = ((0 : Fin 8), (0 : Fin 8)) then { c4 with blackCastleLong := false }
              else c4
          else c4
        | none => c4
      let c6 := if premove = false then { c5 with turn := invertColor c5.turn } else c5
      ({ success := true, captured := captured }, c6)

/-- The castling-rights clearing movePiece performs for a king move. -/
def clearKingFlags (c2 : Chess) (piece : Piece) : Chess :=
  if piece.type = PieceType.KING then
    if piece.color then
      { c2 with whiteCastleShort := false, whiteCastleLong := false }
    else { c2 with blackCastleShort := false, blackCastleLong := false }
  else c2

/-- The castling-rights clearing movePiece performs for a rook moving off
one of the four corner squares. -/
def clearRookFromFlags (c3 : Chess) (piece : Piece) (f : Sq) : Chess :=
  if piece.type = PieceType.ROOK then
    if piece.color then
      if f = ((7 : Fin 8), (7 : Fin 8)) then { c3 with whiteCastleShort := false }
      else if f = ((7 : Fin 8), (0 : Fin 8)) then { c3 with whiteCastleLong := false }
      else c3
    else
      if f = ((0 : Fin 8), (7 : Fin 8)) then { c3 with blackCastleShort := false }
      else if f = ((0 : Fin 8), (0 : Fin 8)) then { c3 with blackCastleLong := false }
      else c3
  else c3

/-- The castling-rights clearing movePiece performs for a reported
capture of a rook on a corner square (keyed by the move's destination). -/
def clearCapturedRookFlags (c4 : Chess) (captured : Option Piece) (t : Sq) : Chess :=
  match captured with
  | some q =>
    if q.type = PieceType.ROOK then
      if q.color = Color.WHITE then
        if t = ((7 : Fin 8), (7 : Fin 8)) then { c4 with whiteCastleShort := false }
        else if t = ((7 : Fin 8), (0 : Fin 8)) then { c4 with whiteCastleLong := false }
        else c4
      else
        if t = ((0 : Fin 8), (7 : Fin 8)) then { c4 with blackCastleShort := false }
        else if t = ((0 : Fin 8), (0 : Fin 8)) then { c4 with blackCastleLong := false }
        else c4
    else c4
  | none => c4

/-- The captured piece movePiece reports: the en-passant victim when the
move reads as en passant, otherwise the destination's occupant, with a
PROMOTED_QUEEN reported as a PAWN of the MOVING piece's color. -/
def capturedPiece (c1 : Chess) (piece : Piece) (f t : Sq) : Option Piece :=
  let captured0 : Option Piece :=
    match c1.board t with
    | Cell.occ q =>
      if q.type = PieceType.PROMOTED_QUEEN then some ⟨PieceType.PAWN, piece.color⟩
      else some q
    | _ => none
  let isEP : Bool := piece.type = PieceType.PAWN && isEnPassantMove c1 f t
  if isEP then (c1.board (f.1, t.2)).piece else captured0

/-- The board rebuilding movePiece performs: optional en-passant removal,
king/rook relocation for castling or the plain move, and promotion. -/
def buildMoveBoard (c1 : Chess) (piece : Piece) (f t : Sq) (isEP : Bool) : BoardT :=
  let b0 := if isEP then setCell c1.board (f.1, t.2) Cell.undef else c1.board
  let b1 :=
    if piece.type = PieceType.KING ∧ isCastlingMove c1 f t then
      let row := f.1
      let side :=
        if (t.2 : Int) > (f.2 : Int) then CastleMove.SHORT else CastleMove.LONG
      let rookFromCol : Fin 8 := if side = CastleMove.SHORT then 7 else 0
      let rookToCol : Fin 8 := if side = CastleMove.SHORT then 5 else 3
      let bk := setCell (setCell b0 t (Cell.occ piece)) f Cell.undef
      let rook := bk (row, rookFromCol)
      setCell (setCell bk (row, rookToCol) rook) (row, rookFromCol) Cell.undef
    else setCell (setCell b0 t (Cell.occ piece)) f Cell.undef
  if piece.type = PieceType.PAWN ∧ (t.1 = (0 : Fin 8) ∨ t.1 = (7 : Fin 8)) then
    setCell b1 t (Cell.occ ⟨PieceType.PROMOTED_QUEEN, piece.color⟩)
  else b1

/-- The state updates movePiece performs after the board has been
rebuilt: write board and en-passant target, run the three castling-flag
clearers and flip the turn (strict mode). -/
def applyFlagUpdates (c1 : Chess) (piece : Piece) (f t : Sq) (b2 : BoardT)
    (ep1 : Option Sq) (captured : Option Piece) : Chess :=
  let c2 := { c1 with board := b2, enPassantTarget := ep1 }
  let c3 := clearKingFlags c2 piece
  let c4 := clearRookFromFlags c3 piece f
  let c5 := clearCapturedRookFlags c4 captured t
  { c5 with turn := invertColor c5.turn }

/-- The execution tail of Chess.movePiece in strict (non-premove) mode,
once the legality gate has passed, acting on the probe-restored state c1;
the body is the source's lines after the legality check with the premove
flag already false (so the turn always flips).  movePieceS_eq_core below
proves that movePieceS factors through it. -/
def movePieceCore (c1 : Chess) (f t : Sq) : MoveResult × Chess :=
  match c1.board f with
  | Cell.undef => ({ success := false, captured := none }, c1)
  | Cell.nul => ({ success := false, captured := none }, c1)
  | Cell.occ piece =>
    let captured := capturedPiece c1 piece f t
    let b2 := buildMoveBoard c1 piece f t
      (piece.type = PieceType.PAWN && isEnPassantMove c1 f t)
    let ep1 : Option Sq :=
      if piece.type = PieceType.PAWN ∧ ((t.1 : Int) - (f.1 : Int)).natAbs = 2 then
        some (⟨(f.1.val + t.1.val) / 2, by
          have h1 := f.1.isLt
          have h2 := t.1.isLt
          omega⟩, t.2)
      else none
    ({ success := true, captured := captured },
     applyFlagUpdates c1 piece f t b2 ep1 captured)

/-- Chess.move: dispatch on the from/to position kinds (a move to a
pocket position fails outright). -/
def moveS (c : Chess) (action : Move) (premove : Bool) : MoveResult × Chess :=
  match action.toPos with
  | Position.pocket _ _ => ({ success := false, captured := none }, c)
  | Position.board t =>
    match action.fromPos with
    | Position.pocket color ty => dropPieceS c color ty t premove
    | Position.board f => movePieceS c f t premove

/-- One probe of the move search in Chess.isCheckmate.  The source skips
squares not holding a piece of the side to move and otherwise calls
isLegalMove; probing never changes which squares are occupied (legality
testing restores every occupied cell exactly), so re-reading the board per
candidate pair is the source's behaviour. -/
def checkmateMoveStep (st : Bool × Chess) (pr : Sq × Sq) : Bool × Chess :=
  if st.1 then st
  else
    match (st.2).board pr.1 with
    | Cell.occ piece =>
      if piece.color ≠ (st.2).turn then st
      else isLegalMoveS st.2 pr.1 pr.2
    | _ => st

/-- One probe of the drop search in Chess.isCheckmate. -/
def checkmateDropStep (st : Bool × Chess) (pr : PieceType × Sq) : Bool × Chess :=
  if st.1 then st
  else isLegalDropS st.2 pr.2 pr.1 (st.2).turn

/-- The from/to pairs probed by the move loops of Chess.isCheckmate, in
scan order. -/
def checkmateMovePairs : List (Sq × Sq) :=
  allSquares.flatMap fun f => allSquares.map fun t => (f, t)

/-- The type/square pairs probed by the drop loops of Chess.isCheckmate:
pocket entries in Map iteration order, each guarded by a positive count,
against every square. -/
def checkmateDropPairs (pocket : Pocket) : List (PieceType × Sq) :=
  pocket.flatMap fun e =>
    if e.2 > 0 then allSquares.map fun s => (e.1, s) else []

/-- The tail of Chess.isCheckmate after the drop search: a found drop
means no checkmate, otherwise the side to move is mated. -/
def checkmateAfterDrops (afterDrops : Bool × Chess) : Option Color × Chess :=
  if afterDrops.1 then (none, afterDrops.2)
  else (some (afterDrops.2).turn, afterDrops.2)

/-- The tail of Chess.isCheckmate after the move search: a found move
means no checkmate, otherwise the pocket drops of the side to move are
probed. -/
def checkmateAfterMoves (afterMoves : Bool × Chess) : Option Color × Chess :=
  if afterMoves.1 then (none, afterMoves.2)
  else
    let c1 := afterMoves.2
    checkmateAfterDrops
      ((checkmateDropPairs (getPocket c1 c1.turn)).foldl checkmateDropStep (false, c1))

/-- Chess.isCheckmate in state-passing style: not in check means no
checkmate; otherwise every board move and then every pocket drop of the
side to move is probed in scan order, stopping at the first legal one. -/
def isCheckmateS (c : Chess) : Option Color × Chess :=
  if isInCheck c.board c.turn = false then (none, c)
  else checkmateAfterMoves (checkmateMovePairs.foldl checkmateMoveStep (false, c))

/-- The value returned by Chess.isCheckmate. -/
def isCheckmate (c : Chess) : Option Color :=
  (isCheckmateS c).1

/-- Collapse the two JavaScript empty markers of a cell into one
canonical representation. -/
def normCell : Cell → Cell
  | Cell.nul => Cell.undef
  | x => x

/-- A board up to the null/undefined representation of empty squares. -/
def normBoard (b : BoardT) : BoardT := fun s => normCell (b s)

/-- A Chess state up to the null/undefined representation of empty
squares; all other fields are kept exactly. -/
def normChess (c : Chess) : Chess := { c with board := normBoard c.board }

/-- Executing a list of moves and drops through Chess.move in strict
(non-premove) mode, starting from a given state; attempts that fail leave
the persistent state of the attempted board unchanged up to legality
probing. -/
def execMoves (c : Chess) (l : List Move) : Chess :=
  l.foldl (fun st a => (moveS st a false).2) c

/-- A player record from src/shared/player.ts; the orchestrator only
stores, compares and returns players (a seated player is a JavaScript
object, hence always truthy), so a player is embedded as an identifier. -/
abbrev Player := Nat

/-- Team enum from src/shared/room.ts. -/
inductive Team where
  | RED
  | BLUE
deriving DecidableEq

/-- Match from src/shared/room.ts (Match is a reserved word in Lean,
hence MatchT): one board with two seats, two clocks, the premove queue,
the clock bookkeeping fields and the fixed flipped orientation. -/
structure MatchT where
  chess : Chess
  whitePlayer : Option Player
  blackPlayer : Option Player
  whiteTime : Int
  blackTime : Int
  premoves : List Move
  playerTimeSinceMove : Int
  lastMoveTime : Option Int
  activeColor : Color
  flipped : Bool
deriving DecidableEq

/-- Match.updateTime: subtract the time elapsed since the last move from
the active color's clock.  The JavaScript guard (!this.lastMoveTime) is
also true for a stored timestamp of 0. -/
def MatchT.updateTime (m : MatchT) (currentTime : Int) : MatchT :=
  match m.lastMoveTime with
  | none => m
  | some lmt =>
    if lmt = 0 then m
    else
      let elapsed := currentTime - lmt
      if m.activeColor then { m with whiteTime := m.playerTimeSinceMove - elapsed }
      else { m with blackTime := m.playerTimeSinceMove - elapsed }

/-- Match.switchTurn: update the clock, adopt the board's turn as the
active color and re-anchor the timestamp. -/
def MatchT.switchTurn (m : MatchT) (currentTime : Int) : MatchT :=
  let m1 := m.updateTime currentTime
  let m2 := { m1 with activeColor := m1.chess.turn }
  { m2 with
    playerTimeSinceMove := if m2.activeColor then m2.whiteTime else m2.blackTime,
    lastMoveTime := some currentTime }

/-- Game from src/shared/room.ts: the ordered list of matches. -/
structure Game where
  matchList : List MatchT
deriving DecidableEq

/-- JavaScript array indexing arr[i] for a possibly out-of-range or
negative index: undefined (none) outside the range. -/
def listGetInt {α : Type} (l : List α) (i : Int) : Option α :=
  if i < 0 then none else l.get? i.toNat

/-- Replacing one match of the game (the source mutates
this.matches[n] in place). -/
def updateMatch (g : Game) (n : Nat) (f : MatchT → MatchT) : Game :=
  { matchList := g.matchList.mapIdx fun j m => if j = n then f m else m }

/-- Modelled from the spec: the Chess method tryMove that
src/shared/room.ts calls is not present in src/shared/chess.ts (the chess
revision matching room.ts is missing from the sources; the revision under
src/ names this entry point move).  Spec section 4.1 describes it as the
execution entry point taking a move and a premove flag and returning the
capture result, which is exactly Chess.move, so tryMove is modelled as
moveS. -/
def tryMoveS (c : Chess) (action : Move) (premove : Bool) : MoveResult × Chess :=
  moveS c action premove

/-- Modelled from the spec: the Chess method isLegal that
src/shared/room.ts calls is likewise absent from src/shared/chess.ts.
Spec section 4.1 says isLegal(move, premove) dispatches to drop or
board-move legality, strict or relaxed per the flag; state-passing
because the strict tests tentatively mutate the board. -/
def isLegalS (c : Chess) (action : Move) (premove : Bool) : Bool × Chess :=
  match action.toPos with
  | Position.pocket _ _ => (false, c)
  | Position.board t =>
    match action.fromPos with
    | Position.pocket color ty =>
      if premove then (isLegalPredrop c color ty (Position.board t), c)
      else isLegalDropS c t ty color
    | Position.board f =>
      if premove then (isLegalPremove c f t, c) else isLegalMoveS c f t

/-- Game.getPremoves: empty for an out-of-range index, else the match's
queue. -/
def getPremoves (g : Game) (i : Int) : List Move :=
  if i < 0 ∨ (g.matchList.length : Int) ≤ i then []
  else
    match listGetInt g.matchList i with
    | some m => m.premoves
    | none => []

/-- Game.getChessPremoved: a clone of the match's board with all queued
premoves replayed in premove mode; none embeds the TypeError thrown when
the index is out of range (this.matches[matchIndex].chess on undefined). -/
def getChessPremoved (g : Game) (i : Int) : Option Chess :=
  match listGetInt g.matchList i with
  | none => none
  | some m =>
    some ((getPremoves g i).foldl (fun ch mv => (tryMoveS ch mv true).2) m.chess)

/-- Game.tryAddPremove: queue the move if it is premove-legal on the
premove-replayed board; none embeds the TypeError for an out-of-range
index (raised inside getChessPremoved before the queue is touched). -/
def tryAddPremove (g : Game) (i : Int) (move : Move) : Option (MoveResult × Game) :=
  match getChessPremoved g i with
  | none => none
  | some ch =>
    if (isLegalS ch move true).1 then
      some ({ success := true, captured := none },
        updateMatch g i.toNat fun m => { m with premoves := m.premoves ++ [move] })
    else some ({ success := false, captured := none }, g)

/-- Game.moveResultEffects: when a piece was captured, every match's
pocket (including the acting match's own) is credited; a match sharing
the acting match's flipped value receives the piece with inverted color,
a match with the other flipped value receives it with its own color. -/
def moveResultEffects (g : Game) (matchID : Nat) (result : MoveResult) : Game :=
  match result.captured with
  | none => g
  | some cap =>
    let actingFlipped :=
      match g.matchList.get? matchID with
      | some m => m.flipped
      | none => false
    { matchList := g.matchList.map fun m =>
        let color :=
          if m.flipped = actingFlipped then invertColor cap.color else cap.color
        { m with chess := addToPocket m.chess ⟨cap.type, color⟩ } }

/-- Game.tryExecutePremoves: fire the head of the match's premove queue
strictly; on success it is consumed and side effects run, on failure the
whole queue is discarded.  none embeds the TypeError for an out-of-range
index (match.premoves on undefined). -/
def tryExecutePremoves (g : Game) (i : Int) (currentTime : Int) :
    Option (MoveResult × Game) :=
  match listGetInt g.matchList i with
  | none => none
  | some m =>
    match m.premoves with
    | [] => some ({ success := false, captured := none }, g)
    | premove :: rest =>
      let n := i.toNat
      let r := tryMoveS m.chess premove false
      if r.1.success then
        let g1 := updateMatch g n fun mm => { mm with chess := r.2, premoves := rest }
        let g2 := moveResultEffects g1 n r.1
        let g3 := updateMatch g2 n fun mm => mm.switchTurn currentTime
        some (r.1, g3)
      else
        some (r.1, updateMatch g n fun mm => { mm with chess := r.2, premoves := [] })

/-- Game.tryApplyMove: guarded against out-of-range indices; applies the
move to the match's board (whose state the attempt mutates even on
failure), then capture effects, turn switch and premove auto-execution.
The inner fallbacks are dead code: after the range guard the index stays
in range through every step. -/
def tryApplyMove (g : Game) (i : Int) (move : Move) (currentTime : Int) :
    MoveResult × Game :=
  if i < 0 ∨ (g.matchList.length : Int) ≤ i then
    ({ success := false, captured := none }, g)
  else
    match listGetInt g.matchList i with
    | none => ({ success := false, captured := none }, g)
    | some m =>
      let n := i.toNat
      let r := tryMoveS m.chess move false
      let g1 := updateMatch g n fun mm => { mm with chess := r.2 }
      if r.1.success then
        let g2 := moveResultEffects g1 n r.1
        let g3 := updateMatch g2 n fun mm => mm.switchTurn currentTime
        let g4 :=
          match tryExecutePremoves g3 (n : Int) currentTime with
          | some pr => pr.2
          | none => g3
        (r.1, g4)
      else (r.1, g1)

/-- Game.tryAddMove: dispatch to the premove queueing path or the strict
application path. -/
def tryAddMove (g : Game) (i : Int) (move : Move) (premove : Bool)
    (currentTime : Int) : Option (MoveResult × Game) :=
  if premove then tryAddPremove g i move
  else some (tryApplyMove g i move currentTime)

/-- Game.clearPremoves; none embeds the TypeError for an out-of-range
index (match.premoves.length on undefined). -/
def clearPremoves (g : Game) (i : Int) : Option Game :=
  match listGetInt g.matchList i with
  | none => none
  | some _ => some (updateMatch g i.toNat fun m => { m with premoves := [] })

/-- Game.updateTime. -/
def gameUpdateTime (g : Game) (currentTime : Int) : Game :=
  { matchList := g.matchList.map fun m => m.updateTime currentTime }

/-- The comparison (x < minTime) against the running minimum initialised
to Infinity. -/
def ltInf (x : Int) (o : Option Int) : Bool :=
  match o with
  | none => true
  | some v => decide (x < v)

/-- One match of the Game.checkTimeout scan.  The source's conditions
read (match.flipped ? match.blackTime : match.whiteTime < minTime): the
ternary binds tighter than nothing, so for a flipped match the branch is
taken when the raw clock value is truthy (nonzero), and only for an
unflipped match is the clock actually compared with the minimum. -/
def checkTimeoutStep (st : Option Int × Option Team × Option Player) (m : MatchT) :
    Option Int × Option Team × Option Player :=
  let st1 :=
    if (if m.flipped then decide (m.blackTime ≠ 0) else ltInf m.whiteTime st.1) then
      (some (if m.flipped then m.blackTime else m.whiteTime), some Team.BLUE,
        if m.flipped then m.blackPlayer else m.whitePlayer)
    else st
  if (if m.flipped then decide (m.whiteTime ≠ 0) else ltInf m.blackTime st1.1) then
    (some (if m.flipped then m.whiteTime else m.blackTime), some Team.RED,
      if m.flipped then m.whitePlayer else m.blackPlayer)
  else st1

/-- Game.checkTimeout: scan all matches accumulating (minTime, minSide,
minPlayer), then return undefined when minTime > 0 (Infinity included) or
no side or player was recorded, else the recorded pair. -/
def checkTimeout (g : Game) : Option (Team × Player) :=
  let fin := g.matchList.foldl checkTimeoutStep (none, none, none)
  if (match fin.1 with | none => true | some v => decide (0 < v)) then none
  else
    match fin.2.1, fin.2.2 with
    | some side, some player => some (side, player)
    | _, _ => none

/-!  Concrete states used to evaluate the engine at specific inputs. -/

/-- The reset board as it looks after a serialize/deserialize round trip:
JSON stringification turns the undefined empty cells into null, and
Chess.deserialize installs the parsed array unchanged. -/
def nullResetBoard : BoardT := fun s =>
  match resetBoard s with
  | Cell.undef => Cell.nul
  | x => x

/-- The reset state with null empty squares (the deserialized form). -/
def nullResetChess : Chess := { resetChess with board := nullResetBoard }

/-- A board with two white kings: the castling validator looks only at
the home squares while the mover sits elsewhere.  White king on (3,7)
about to play the two-column king move to (3,5); white king (7,4), white
rook (7,0) and empty (null) squares (7,1), (7,2), (7,3) satisfy the long
castling checks; a black rook on (3,1) is blocked by the white bishop on
(3,3); squares (3,0), (3,2), (3,4) hold null. -/
def twoKingsBoard : BoardT := fun s =>
  if s = ((3 : Fin 8), (7 : Fin 8)) then Cell.occ ⟨PieceType.KING, Color.WHITE⟩
  else if s = ((7 : Fin 8), (4 : Fin 8)) then Cell.occ ⟨PieceType.KING, Color.WHITE⟩
  else if s = ((7 : Fin 8), (0 : Fin 8)) then Cell.occ ⟨PieceType.ROOK, Color.WHITE⟩
  else if s = ((3 : Fin 8), (3 : Fin 8)) then Cell.occ ⟨PieceType.BISHOP, Color.WHITE⟩
  else if s = ((3 : Fin 8), (1 : Fin 8)) then Cell.occ ⟨PieceType.ROOK, Color.BLACK⟩
  else if s = ((3 : Fin 8), (0 : Fin 8)) ∨ s = ((3 : Fin 8), (2 : Fin 8))
      ∨ s = ((3 : Fin 8), (4 : Fin 8)) ∨ s = ((7 : Fin 8), (1 : Fin 8))
      ∨ s = ((7 : Fin 8), (2 : Fin 8)) ∨ s = ((7 : Fin 8), (3 : Fin 8)) then Cell.nul
  else Cell.undef

/-- The two-white-kings state, White to move. -/
def twoKingsChess : Chess :=
  { board := twoKingsBoard, whitePocket := [], blackPocket := [],
    turn := Color.WHITE, whiteCastleShort := true, whiteCastleLong := true,
    blackCastleShort := true, blackCastleLong := true, enPassantTarget := none }

/-- A position where the white knight on (5,5) can capture the black
promoted queen on (3,4). -/
def capturePQChess : Chess :=
  { board := fun s =>
      if s = ((5 : Fin 8), (5 : Fin 8)) then Cell.occ ⟨PieceType.KNIGHT, Color.WHITE⟩
      else if s = ((3 : Fin 8), (4 : Fin 8)) then
        Cell.occ ⟨PieceType.PROMOTED_QUEEN, Color.BLACK⟩
      else if s = ((7 : Fin 8), (4 : Fin 8)) then Cell.occ ⟨PieceType.KING, Color.WHITE⟩
      else if s = ((0 : Fin 8), (0 : Fin 8)) then Cell.occ ⟨PieceType.KING, Color.BLACK⟩
      else Cell.undef,
    whitePocket := [], blackPocket := [], turn := Color.WHITE,
    whiteCastleShort := true, whiteCastleLong := true,
    blackCastleShort := true, blackCastleLong := true, enPassantTarget := none }

/-- A position where the white knight on (4,4) can capture the black pawn
on (2,5). -/
def capturePawnChess : Chess :=
  { board := fun s =>
      if s = ((4 : Fin 8), (4 : Fin 8)) then Cell.occ ⟨PieceType.KNIGHT, Color.WHITE⟩
      else if s = ((2 : Fin 8), (5 : Fin 8)) then Cell.occ ⟨PieceType.PAWN, Color.BLACK⟩
      else if s = ((7 : Fin 8), (4 : Fin 8)) then Cell.occ ⟨PieceType.KING, Color.WHITE⟩
      else if s = ((0 : Fin 8), (0 : Fin 8)) then Cell.occ ⟨PieceType.KING, Color.BLACK⟩
      else Cell.undef,
    whitePocket := [], blackPocket := [], turn := Color.WHITE,
    whiteCastleShort := true, whiteCastleLong := true,
    blackCastleShort := true, blackCastleLong := true, enPassantTarget := none }

/-- A match seated with two players, fresh clocks and no premoves. -/
def mkMatch (c : Chess) (fl : Bool) (wp bp : Player) : MatchT :=
  { chess := c, whitePlayer := some wp, blackPlayer := some bp,
    whiteTime := 180000, blackTime := 180000, premoves := [],
    playerTimeSinceMove := 180000, lastMoveTime := some 1,
    activeColor := Color.WHITE, flipped := fl }

/-- The knight-takes-pawn move on match 0. -/
def captureMove : Move :=
  { fromPos := Position.board (4, 4), toPos := Position.board (2, 5) }

/-- A two-match game of opposite flipped values (the Room constructor's
layout) with a capture available on match 0. -/
def captureGame : Game :=
  { matchList := [mkMatch capturePawnChess false 1 2, mkMatch resetChess true 3 4] }

/-- A state whose square (4,4) holds null (deserialized empty) so that a
white pawn drop there is accepted. -/
def dropReadyChess : Chess :=
  { board := fun s =>
      if s = ((4 : Fin 8), (4 : Fin 8)) then Cell.nul
      else if s = ((7 : Fin 8), (4 : Fin 8)) then Cell.occ ⟨PieceType.KING, Color.WHITE⟩
      else Cell.undef,
    whitePocket := [(PieceType.PAWN, 1)], blackPocket := [], turn := Color.WHITE,
    whiteCastleShort := true, whiteCastleLong := true,
    blackCastleShort := true, blackCastleLong := true, enPassantTarget := none }

/-- A reset state whose white pocket holds one pawn. -/
def pawnPocketChess : Chess := { resetChess with whitePocket := [(PieceType.PAWN, 1)] }

/-- Two matches of the SAME flipped value, both with one white pawn in the
pocket, a drop ready on match 0. -/
def dropGame : Game :=
  { matchList := [mkMatch dropReadyChess false 1 2, mkMatch pawnPocketChess false 3 4] }

/-- The white pawn drop onto (4,4). -/
def dropMove : Move :=
  { fromPos := Position.pocket Color.WHITE PieceType.PAWN, toPos := Position.board (4, 4) }

/-- A premove that cannot execute: it moves from the empty square (4,0). -/
def badPremove : Move :=
  { fromPos := Position.board (4, 0), toPos := Position.board (3, 0) }

/-- A one-match game whose premove queue starts with the failing premove
followed by two more queued entries. -/
def staleQueueGame : Game :=
  { matchList :=
      [{ mkMatch resetChess false 1 2 with premoves := [badPremove, captureMove, dropMove] }] }

/-- Two matches where the unflipped match 0 has already flagged (white
clock -5) while the flipped match 1 still has positive clocks 50/100. -/
def timeoutGame : Game :=
  { matchList :=
      [{ mkMatch resetChess false 1 2 with whiteTime := -5, blackTime := 100 },
       { mkMatch resetChess true 3 4 with whiteTime := 50, blackTime := 100 }] }

/-- A single unflipped flagged match. -/
def timeoutGame1 : Game :=
  { matchList := [{ mkMatch resetChess false 1 2 with whiteTime := -5, blackTime := 100 }] }

/-- A state with one null empty square and a knight in the white pocket:
probing the drop there changes the stored empty marker. -/
def nulSquareChess : Chess :=
  { board := fun s => if s = ((4 : Fin 8), (4 : Fin 8)) then Cell.nul else Cell.undef,
    whitePocket := [(PieceType.KNIGHT, 1)], blackPocket := [], turn := Color.WHITE,
    whiteCastleShort := true, whiteCastleLong := true,
    blackCastleShort := true, blackCastleLong := true, enPassantTarget := none }

/-- White pawn e2-e3 (rows run downward: (6,4) to (5,4)). -/
def pushE2E3 : Move :=
  { fromPos := Position.board (6, 4), toPos := Position.board (5, 4) }

/-- Black pawn a7-a6. -/
def pushA7A6 : Move :=
  { fromPos := Position.board (1, 0), toPos := Position.board (2, 0) }

/-- White king e1-e2 into the square the pawn vacated. -/
def kingE1E2 : Move :=
  { fromPos := Position.board (7, 4), toPos := Position.board (6, 4) }

/-- Map key uniqueness: a JavaScript Map cannot hold two entries with the
same key, so every pocket the engine builds satisfies this. -/
def pocketWF (p : Pocket) : Prop := (p.map Prod.fst).Nodup

/-- The stored en-passant target square is never occupied.  This holds in
every state the engine reaches from reset: the double push that creates
the target passes legality only when the passed-over square is strictly
null, and the target survives exactly one ply. -/
def epInv (c : Chess) : Prop :=
  ∀ s p, c.enPassantTarget = some s → c.board s ≠ Cell.occ p

/-!  Theorems. -/

/-- C3: the freshly reset state is White to move with full castling
rights, empty pockets and no en-passant target, but the code REJECTS the
double pawn push e2-e4: isPathClear compares the intermediate square,
which reset leaves undefined, against null with a strict !==, so an empty
square counts as a blocker and the move fails (the single push e2-e3,
which has no path check, is accepted).  On the same position with null
empty squares - the representation a deserialized board has and the one
the path check was written for, as the earlier revision in
src/unnamed/part_002 shows - the push succeeds, sets the passed-over
square (5,4) as the en-passant target and hands the turn to Black.  This
evaluates the code at the claim's failing input. -/
theorem reset_double_push_rejected :
    resetChess.turn = Color.WHITE ∧
    resetChess.whiteCastleShort = true ∧ resetChess.whiteCastleLong = true ∧
    resetChess.blackCastleShort = true ∧ resetChess.blackCastleLong = true ∧
    resetChess.whitePocket = [] ∧ resetChess.blackPocket = [] ∧
    resetChess.enPassantTarget = none ∧
    isLegalMove resetChess (6, 4) (4, 4) = false ∧
    (movePieceS resetChess (6, 4) (4, 4) false).1.success = false ∧
    isLegalMove resetChess (6, 4) (5, 4) = true ∧
    isLegalMove nullResetChess (6, 4) (4, 4) = true ∧
    (movePieceS nullResetChess (6, 4) (4, 4) false).2.enPassantTarget = some (5, 4) ∧
    (movePieceS nullResetChess (6, 4) (4, 4) false).2.turn = Color.BLACK := by
  decide

/-- C4: capturing the BLACK promoted queen on (3,4) with the white knight
reports the captured piece as a PAWN of the MOVER's color WHITE (movePiece
builds the substitute pawn from piece.color, the moving piece, instead of
the captured queen's own color), and a pocket credited with that report
receives a white pawn.  The earlier chess revision in
src/unnamed/part_002 used the captured queen's own color here. -/
theorem promoted_queen_capture_reports_mover_color :
    capturePQChess.board (3, 4) = Cell.occ ⟨PieceType.PROMOTED_QUEEN, Color.BLACK⟩ ∧
    (movePieceS capturePQChess (5, 5) (3, 4) false).1 =
      { success := true, captured := some ⟨PieceType.PAWN, Color.WHITE⟩ } ∧
    (addToPocket resetChess ⟨PieceType.PAWN, Color.WHITE⟩).whitePocket
      = [(PieceType.PAWN, 1)] ∧
    (addToPocket resetChess ⟨PieceType.PAWN, Color.WHITE⟩).blackPocket = [] := by
  decide

/-- C1 counterexample: on the two-white-kings board the king on (3,7) is
allowed the two-column "castling" move to (3,5) - canCastle validates only
the home squares of row 7 - and executing that same move leaves White's
first-found king attacked by the black rook (movePiece relocates along
from.row, copying the null from (3,0) over the blocking bishop on (3,3)),
so isLegalMove returned true for a move whose execution leaves the moving
side in check. -/
theorem castle_away_from_home_self_check :
    isLegalMove twoKingsChess (3, 7) (3, 5) = true ∧
    (movePieceS twoKingsChess (3, 7) (3, 5) false).1.success = true ∧
    isInCheck (movePieceS twoKingsChess (3, 7) (3, 5) false).2.board Color.WHITE
      = true := by
  decide

/-- C2 counterexample: a capture of a black pawn on match 0 credits a
WHITE pawn into match 0's own pocket (moveResultEffects loops over every
match and inverts the color for matches sharing the acting flipped value,
the acting match included), while the claim says the acting match's own
pocket receives nothing. -/
theorem capture_credits_acting_pocket :
    (tryApplyMove captureGame 0 captureMove 1000).1 =
      { success := true, captured := some ⟨PieceType.PAWN, Color.BLACK⟩ } ∧
    ((tryApplyMove captureGame 0 captureMove 1000).2.matchList.get? 0).map
      (fun m => m.chess.whitePocket) = some [(PieceType.PAWN, 1)] := by
  decide

/-- C5 counterexample: a successful white pawn drop on match 0 leaves the
pocket of match 1 - which shares match 0's flipped value and should,
per the claim, lose the same unit - completely untouched: no drop
propagation exists anywhere in the orchestrator. -/
theorem drop_not_propagated :
    (tryApplyMove dropGame 0 dropMove 1000).1.success = true ∧
    ((tryApplyMove dropGame 0 dropMove 1000).2.matchList.get? 0).map
      (fun m => m.chess.whitePocket) = some [] ∧
    ((tryApplyMove dropGame 0 dropMove 1000).2.matchList.get? 1).map
      (fun m => m.chess.whitePocket) = some [(PieceType.PAWN, 1)] := by
  decide

/-- C7 counterexample: match 0's white clock is -5 (the globally minimal
clock, and not positive), yet checkTimeout returns nothing: for the
flipped match 1 the scan conditions are the raw clock values in
truthiness position (the ternary parses as flipped ? blackTime :
(whiteTime < minTime)), so match 1's positive clocks overwrite the
recorded minimum and the final minTime is 50 > 0. -/
theorem timeout_missed_on_flipped_scan :
    (timeoutGame.matchList.get? 0).map (fun m => m.whiteTime) = some (-5) ∧
    ((timeoutGame.matchList.get? 1).map (fun m => (m.whiteTime, m.blackTime))
      = some (50, 100)) ∧
    checkTimeout timeoutGame = none := by
  decide

/-- C8 counterexample: for the out-of-range index 5, clearPremoves and
tryAddMove in premove mode dereference this.matches[5] (undefined) and
throw a TypeError - embedded as none - instead of reporting an
unsuccessful or empty result. -/
theorem out_of_range_index_throws :
    clearPremoves timeoutGame1 5 = none ∧
    tryAddMove timeoutGame1 5 captureMove true 0 = none := by
  decide

/-- C9 counterexample: isLegalDrop on a state whose square (4,4) stores
the null empty marker accepts the drop probe, but its restore step writes
undefined back, so the query visibly changes the state (the square can
never accept a drop again). -/
theorem legal_drop_probe_mutates_state :
    (isLegalDropS nulSquareChess (4, 4) PieceType.KNIGHT Color.WHITE).1 = true ∧
    (isLegalDropS nulSquareChess (4, 4) PieceType.KNIGHT Color.WHITE).2
      ≠ nulSquareChess := by
  decide

/-- An out-of-range JavaScript index reads undefined. -/
theorem listGetInt_none {α : Type} (l : List α) (i : Int)
    (h : i < 0 ∨ (l.length : Int) ≤ i) : listGetInt l i = none := by
  unfold listGetInt
  rcases h with h | h
  · simp [h]
  · have h0 : ¬i < 0 := by omega
    simp only [h0, if_false]
    exact List.get?_eq_none.mpr (by omega)

/-- An in-range JavaScript index agrees with list lookup. -/
theorem listGetInt_some {α : Type} {l : List α} {i : Int} {a : α}
    (h : listGetInt l i = some a) : 0 ≤ i ∧ l.get? i.toNat = some a := by
  unfold listGetInt at h
  by_cases h0 : i < 0
  · simp [h0] at h
  · exact ⟨by omega, by simpa [h0] using h⟩

/-- Lookup through mapIdx. -/
theorem get?_mapIdx {α β : Type} (l : List α) (f : ℕ → α → β) (n : ℕ) :
    (l.mapIdx f).get? n = (l.get? n).map (f n) := by
  have hlen : (l.mapIdx f).length = l.length := List.length_mapIdx
  by_cases h : n < l.length
  · rw [List.get?_eq_get h, List.get?_eq_get (show n < (l.mapIdx f).length by omega)]
    simp [List.get_mapIdx]
  · rw [List.get?_eq_none.mpr (by omega), List.get?_eq_none.mpr (by omega)]
    rfl

/-- Lookup after updating one match. -/
theorem updateMatch_get? (g : Game) (n : Nat) (f : MatchT → MatchT) (j : Nat) :
    (updateMatch g n f).matchList.get? j
      = (g.matchList.get? j).map (fun m => if j = n then f m else m) := by
  unfold updateMatch
  exact get?_mapIdx _ _ _

/-- C8 amended: for every out-of-range match index, tryAddMove in strict
mode and getPremoves return the guarded unsuccessful/empty results, while
tryAddMove in premove mode and clearPremoves dereference
this.matches[matchIndex] unguarded and throw a TypeError (none). -/
theorem out_of_range_index_behaviour (g : Game) (i : Int) (move : Move) (t : Int)
    (h : i < 0 ∨ (g.matchList.length : Int) ≤ i) :
    tryAddMove g i move false t = some ({ success := false, captured := none }, g) ∧
    getPremoves g i = [] ∧
    tryAddMove g i move true t = none ∧
    clearPremoves g i = none := by
  have hnone := listGetInt_none g.matchList i h
  refine ⟨?_, ?_, ?_, ?_⟩
  · simp [tryAddMove, tryApplyMove, h]
  · simp [getPremoves, h]
  · simp [tryAddMove, tryAddPremove, getChessPremoved, hnone]
  · simp [clearPremoves, hnone]

/-- C8 amended witness at index 5 of a one-match game. -/
theorem out_of_range_index_behaviour_witness :
    ((5 : Int) < 0 ∨ (timeoutGame1.matchList.length : Int) ≤ 5) ∧
    (tryAddMove timeoutGame1 5 captureMove false 0
        = some ({ success := false, captured := none }, timeoutGame1) ∧
      getPremoves timeoutGame1 5 = [] ∧
      tryAddMove timeoutGame1 5 captureMove true 0 = none ∧
      clearPremoves timeoutGame1 5 = none) :=
  ⟨by decide, out_of_range_index_behaviour timeoutGame1 5 captureMove 0 (by decide)⟩

/-- C6: when the head premove of a match's queue fails to execute,
tryExecutePremoves discards the ENTIRE remaining queue of that match, not
just the failed head. -/
theorem failed_premove_clears_whole_queue (g : Game) (i : Int) (t : Int)
    (m : MatchT) (pm : Move) (rest : List Move)
    (hm : listGetInt g.matchList i = some m)
    (hq : m.premoves = pm :: rest)
    (hfail : (tryMoveS m.chess pm false).1.success = false) :
    ∃ res g' m', tryExecutePremoves g i t = some (res, g')
      ∧ res.success = false
      ∧ g'.matchList.get? i.toNat = some m'
      ∧ m'.premoves = [] := by
  obtain ⟨hi0, hget⟩ := listGetInt_some hm
  refine ⟨(tryMoveS m.chess pm false).1,
    updateMatch g i.toNat fun mm =>
      { mm with chess := (tryMoveS m.chess pm false).2, premoves := [] },
    { m with chess := (tryMoveS m.chess pm false).2, premoves := [] },
    ?_, hfail, ?_, rfl⟩
  · unfold tryExecutePremoves
    rw [hm]
    simp only [hq, hfail]
    simp
  · rw [updateMatch_get?, hget]
    simp

/-- C6 witness: the stale three-entry queue of the one-match game is
emptied when its failing head fires. -/
theorem failed_premove_clears_whole_queue_witness :
    ∃ res g' m', tryExecutePremoves staleQueueGame 0 1000 = some (res, g')
      ∧ res.success = false
      ∧ g'.matchList.get? (0 : Int).toNat = some m'
      ∧ m'.premoves = [] :=
  failed_premove_clears_whole_queue staleQueueGame 0 1000
    { mkMatch resetChess false 1 2 with premoves := [badPremove, captureMove, dropMove] }
    badPremove [captureMove, dropMove] (by decide) (by decide) (by decide)

/-- Map.get on the empty pocket. -/
theorem pocketGet_nil (ty : PieceType) : pocketGet [] ty = 0 := rfl

/-- Map.get walks the association list front to back. -/
theorem pocketGet_cons (e : PieceType × Nat) (rest : Pocket) (ty : PieceType) :
    pocketGet (e :: rest) ty = if e.1 = ty then e.2 else pocketGet rest ty := by
  by_cases h : e.1 = ty <;> simp [pocketGet, List.find?, h]

/-- Reading back the key just written by Map.set. -/
theorem pocketGet_pocketSet_same (p : Pocket) (t : PieceType) (n : Nat) :
    pocketGet (pocketSet p t n) t = n := by
  induction p with
  | nil => simp [pocketSet, pocketGet_cons]
  | cons e rest ih =>
    by_cases h : e.1 = t
    · simp [pocketSet, h, pocketGet_cons]
    · simp [pocketSet, h, pocketGet_cons, ih]

/-- Map.set leaves other keys alone. -/
theorem pocketGet_pocketSet_other (p : Pocket) (t : PieceType) (n : Nat)
    (ty : PieceType) (h : ty ≠ t) :
    pocketGet (pocketSet p t n) ty = pocketGet p ty := by
  induction p with
  | nil => simp [pocketSet, pocketGet_cons, pocketGet_nil, Ne.symm h]
  | cons e rest ih =>
    by_cases he : e.1 = t
    · rw [pocketGet_cons, he]
      simp [pocketSet, he, pocketGet_cons, Ne.symm h]
    · simp [pocketSet, he, pocketGet_cons, ih]

/-- The selected pocket after writing one back. -/
theorem getPocket_setPocket (c : Chess) (color : Color) (p : Pocket) (col : Color) :
    getPocket (setPocket c color p) col = if col = color then p else getPocket c col := by
  cases color <;> cases col <;> simp [getPocket, setPocket]

/-- addToPocket bumps exactly one count: the stored type (a
PROMOTED_QUEEN arrives as PAWN) in the pocket of the piece's color. -/
theorem addToPocket_pocketGet (c : Chess) (p : Piece) (col : Color) (ty : PieceType) :
    pocketGet (getPocket (addToPocket c p) col) ty
      = pocketGet (getPocket c col) ty
        + (if col = p.color
            ∧ ty = (if p.type = PieceType.PROMOTED_QUEEN then PieceType.PAWN else p.type)
          then 1 else 0) := by
  unfold addToPocket
  rw [getPocket_setPocket]
  set T := (if p.type = PieceType.PROMOTED_QUEEN then PieceType.PAWN else p.type) with hT
  by_cases hc : col = p.color
  · subst hc
    rw [if_pos rfl]
    by_cases hty : ty = T
    · subst hty
      simp [pocketGet_pocketSet_same]
    · rw [pocketGet_pocketSet_other _ _ _ _ hty]
      simp [hty]
  · simp [hc]

/-- C2 amended: when a move on match matchID captures a piece, EVERY
match j is credited: with the captured (kind, color) when j's flipped
differs from the acting match's, and with the kind and the INVERTED color
when it is the same (the acting match itself included); precisely one
pocket count rises by one in each match. -/
theorem capture_propagation_amended (g : Game) (matchID : Nat) (res : MoveResult)
    (cap : Piece) (mA : MatchT)
    (hA : g.matchList.get? matchID = some mA)
    (hcap : res.captured = some cap)
    (j : Nat) (mj : MatchT) (hj : g.matchList.get? j = some mj) :
    ∃ mj', (moveResultEffects g matchID res).matchList.get? j = some mj'
      ∧ mj'.chess = addToPocket mj.chess
          ⟨cap.type, if mj.flipped = mA.flipped then invertColor cap.color else cap.color⟩
      ∧ (∀ col ty,
          pocketGet (getPocket mj'.chess col) ty
            = pocketGet (getPocket mj.chess col) ty
              + (if col = (if mj.flipped = mA.flipped then invertColor cap.color
                    else cap.color)
                  ∧ ty = (if cap.type = PieceType.PROMOTED_QUEEN then PieceType.PAWN
                    else cap.type)
                then 1 else 0)) := by
  have hml : (moveResultEffects g matchID res).matchList
      = g.matchList.map (fun m =>
          { m with chess := addToPocket m.chess (Piece.mk cap.type
              (if m.flipped = mA.flipped then invertColor cap.color else cap.color)) }) := by
    unfold moveResultEffects
    rw [hcap]
    simp only [hA]
  refine ⟨{ mj with chess := addToPocket mj.chess (Piece.mk cap.type
      (if mj.flipped = mA.flipped then invertColor cap.color else cap.color)) },
    ?_, rfl, ?_⟩
  · rw [hml, List.get?_map, hj]
    rfl
  · intro col ty
    exact addToPocket_pocketGet mj.chess _ col ty

/-- C2 amended witness: capturing the black pawn on the unflipped match 0
of the two-match game credits a WHITE pawn to match 0's own pocket. -/
theorem capture_propagation_amended_witness :
    ∃ mj', (moveResultEffects captureGame 0
        { success := true, captured := some ⟨PieceType.PAWN, Color.BLACK⟩ }).matchList.get? 0
        = some mj'
      ∧ mj'.chess = addToPocket (mkMatch capturePawnChess false 1 2).chess
          ⟨PieceType.PAWN, Color.WHITE⟩
      ∧ pocketGet (getPocket mj'.chess Color.WHITE) PieceType.PAWN
          = pocketGet (getPocket (mkMatch capturePawnChess false 1 2).chess Color.WHITE)
              PieceType.PAWN + 1 := by
  obtain ⟨mj', h1, h2, h3⟩ := capture_propagation_amended captureGame 0
    { success := true, captured := some ⟨PieceType.PAWN, Color.BLACK⟩ }
    ⟨PieceType.PAWN, Color.BLACK⟩ (mkMatch capturePawnChess false 1 2)
    (by decide) rfl 0 (mkMatch capturePawnChess false 1 2) (by decide)
  refine ⟨mj', h1, ?_, ?_⟩
  · simpa [mkMatch, invertColor, Color.WHITE, Color.BLACK] using h2
  · have h4 := h3 Color.WHITE PieceType.PAWN
    simpa [mkMatch, invertColor, Color.WHITE, Color.BLACK] using h4

/-- Each checkTimeout scan step leaves the recorded minimum alone or
stores one of the match's two clocks. -/
theorem checkTimeoutStep_fst (st : Option Int × Option Team × Option Player)
    (m : MatchT) :
    (checkTimeoutStep st m).1 = st.1 ∨ (checkTimeoutStep st m).1 = some m.whiteTime
      ∨ (checkTimeoutStep st m).1 = some m.blackTime := by
  unfold checkTimeoutStep
  cases hf : m.flipped <;> split_ifs <;> try simp
  all_goals split_ifs <;> simp

/-- The scan of an unflipped match, written with the two conditions
resolved: the first compares the white clock with the minimum, the second
the black clock with the possibly updated minimum. -/
theorem checkTimeoutStep_unflipped (st : Option Int × Option Team × Option Player)
    (m : MatchT) (hm : m.flipped = false) :
    checkTimeoutStep st m
      = if ltInf m.whiteTime st.1 then
          (if m.blackTime < m.whiteTime then
            (some m.blackTime, some Team.RED, m.blackPlayer)
          else (some m.whiteTime, some Team.BLUE, m.whitePlayer))
        else if ltInf m.blackTime st.1 then
          (some m.blackTime, some Team.RED, m.blackPlayer)
        else st := by
  unfold checkTimeoutStep
  rw [hm]
  by_cases h1 : ltInf m.whiteTime st.1
  · simp only [h1, if_true, Bool.false_eq_true, if_false]
    by_cases h2 : m.blackTime < m.whiteTime
    · simp [ltInf, h2]
    · simp [ltInf, h2]
  · simp only [h1, Bool.false_eq_true, if_false, if_true]

/-- The checkTimeout fold over unflipped, fully seated matches computes
the strict global minimum clock together with its owner. -/
theorem checkTimeoutFold_unflipped (l : List MatchT)
    (hl : ∀ m ∈ l, m.flipped = false
      ∧ m.whitePlayer.isSome = true ∧ m.blackPlayer.isSome = true) :
    (l = [] ∧ l.foldl checkTimeoutStep (none, none, none) = (none, none, none))
    ∨ (∃ v side player m,
        l.foldl checkTimeoutStep (none, none, none) = (some v, some side, some player)
        ∧ m ∈ l
        ∧ ((side = Team.BLUE ∧ m.whitePlayer = some player ∧ m.whiteTime = v)
            ∨ (side = Team.RED ∧ m.blackPlayer = some player ∧ m.blackTime = v))
        ∧ (∀ m2 ∈ l, v ≤ m2.whiteTime ∧ v ≤ m2.blackTime)) := by
  induction l using List.reverseRecOn with
  | nil => exact Or.inl ⟨rfl, rfl⟩
  | append_singleton l m ih =>
    have hm := hl m (by simp)
    have hl' : ∀ m2 ∈ l, m2.flipped = false
        ∧ m2.whitePlayer.isSome = true ∧ m2.blackPlayer.isSome = true :=
      fun m2 h2 => hl m2 (by simp [h2])
    obtain ⟨wp, hwp⟩ := Option.isSome_iff_exists.mp hm.2.1
    obtain ⟨bp, hbp⟩ := Option.isSome_iff_exists.mp hm.2.2
    rw [List.foldl_append, List.foldl_cons, List.foldl_nil]
    rcases ih hl' with ⟨hnil, hst⟩ | ⟨v, side, player, mw, hst, hmem, hown, hmin⟩
    · subst hnil
      rw [List.foldl_nil] at hst ⊢
      rw [hst, checkTimeoutStep_unflipped _ _ hm.1]
      simp only [ltInf, if_true]
      by_cases h2 : m.blackTime < m.whiteTime
      · refine Or.inr ⟨m.blackTime, Team.RED, bp, m, by simp [h2, hbp], by simp,
          Or.inr ⟨rfl, hbp, rfl⟩, ?_⟩
        intro m2 h
        simp only [List.nil_append, List.mem_singleton] at h
        subst h
        omega
      · refine Or.inr ⟨m.whiteTime, Team.BLUE, wp, m, by simp [h2, hwp], by simp,
          Or.inl ⟨rfl, hwp, rfl⟩, ?_⟩
        intro m2 h
        simp only [List.nil_append, List.mem_singleton] at h
        subst h
        omega
    · rw [hst, checkTimeoutStep_unflipped _ _ hm.1]
      simp only [ltInf]
      by_cases h1 : m.whiteTime < v
      · rw [if_pos (by simpa using h1)]
        by_cases h2 : m.blackTime < m.whiteTime
        · refine Or.inr ⟨m.blackTime, Team.RED, bp, m, by simp [h2, hbp], by simp,
            Or.inr ⟨rfl, hbp, rfl⟩, ?_⟩
          intro m2 hmm2
          rcases List.mem_append.mp hmm2 with hmm2 | hmm2
          · have := hmin m2 hmm2
            omega
          · simp only [List.mem_singleton] at hmm2
            subst hmm2
            omega
        · refine Or.inr ⟨m.whiteTime, Team.BLUE, wp, m, by simp [h2, hwp], by simp,
            Or.inl ⟨rfl, hwp, rfl⟩, ?_⟩
          intro m2 hmm2
          rcases List.mem_append.mp hmm2 with hmm2 | hmm2
          · have := hmin m2 hmm2
            omega
          · simp only [List.mem_singleton] at hmm2
            subst hmm2
            omega
      · rw [if_neg (by simpa using h1)]
        by_cases h2 : m.blackTime < v
        · rw [if_pos (by simpa using h2)]
          refine Or.inr ⟨m.blackTime, Team.RED, bp, m, by simp [hbp], by simp,
            Or.inr ⟨rfl, hbp, rfl⟩, ?_⟩
          intro m2 hmm2
          rcases List.mem_append.mp hmm2 with hmm2 | hmm2
          · have := hmin m2 hmm2
            omega
          · simp only [List.mem_singleton] at hmm2
            subst hmm2
            omega
        · rw [if_neg (by simpa using h2)]
          refine Or.inr ⟨v, side, player, mw, rfl, by simp [hmem], hown, ?_⟩
          intro m2 hmm2
          rcases List.mem_append.mp hmm2 with hmm2 | hmm2
          · exact hmin m2 hmm2
          · simp only [List.mem_singleton] at hmm2
            subst hmm2
            omega

/-- C7 amended: checkTimeout returns nothing whenever every clock of
every match is positive; and on a game of unflipped, fully seated matches
with some clock not positive it returns team and player owning a globally
minimal clock (BLUE/white player for a white clock, RED/black player for
a black clock).  For flipped matches the scan compares truthiness instead
of magnitude, so no such guarantee exists (see the counterexample). -/
theorem checkTimeout_amended (g : Game) :
    ((∀ m ∈ g.matchList, 0 < m.whiteTime ∧ 0 < m.blackTime) → checkTimeout g = none)
    ∧ ((∀ m ∈ g.matchList, m.flipped = false
          ∧ m.whitePlayer.isSome = true ∧ m.blackPlayer.isSome = true) →
        ¬(∀ m ∈ g.matchList, 0 < m.whiteTime ∧ 0 < m.blackTime) →
        ∃ team player, checkTimeout g = some (team, player)
          ∧ ∃ m, m ∈ g.matchList
            ∧ ((team = Team.BLUE ∧ m.whitePlayer = some player ∧ m.whiteTime ≤ 0
                ∧ ∀ m2 ∈ g.matchList, m.whiteTime ≤ m2.whiteTime
                    ∧ m.whiteTime ≤ m2.blackTime)
              ∨ (team = Team.RED ∧ m.blackPlayer = some player ∧ m.blackTime ≤ 0
                ∧ ∀ m2 ∈ g.matchList, m.blackTime ≤ m2.whiteTime
                    ∧ m.blackTime ≤ m2.blackTime))) := by
  constructor
  · intro hpos
    have key : ∀ (l : List MatchT) (st : Option Int × Option Team × Option Player),
        (∀ m ∈ l, 0 < m.whiteTime ∧ 0 < m.blackTime) →
        (st.1 = none ∨ ∃ v, st.1 = some v ∧ 0 < v) →
        ((l.foldl checkTimeoutStep st).1 = none
          ∨ ∃ v, (l.foldl checkTimeoutStep st).1 = some v ∧ 0 < v) := by
      intro l
      induction l with
      | nil => intro st _ h0; exact h0
      | cons m rest ih =>
        intro st hpos2 h0
        rw [List.foldl_cons]
        refine ih _ (fun m2 h2 => hpos2 m2 (by simp [h2])) ?_
        have hm := hpos2 m (by simp)
        rcases checkTimeoutStep_fst st m with h | h | h
        · rw [h]
          exact h0
        · exact Or.inr ⟨m.whiteTime, h, hm.1⟩
        · exact Or.inr ⟨m.blackTime, h, hm.2⟩
    simp only [checkTimeout]
    rcases key g.matchList (none, none, none) hpos (Or.inl rfl) with h | ⟨v, h, hv⟩
    · rw [h]
      simp
    · rw [h]
      simp [hv]
  · intro hshape hneg
    rcases checkTimeoutFold_unflipped g.matchList hshape with ⟨hnil, _⟩ | h
    · exact absurd (fun m hm => absurd (hnil ▸ hm) (List.not_mem_nil m)) hneg
    · obtain ⟨v, side, player, mw, hst, hmem, hown, hmin⟩ := h
      have hv0 : v ≤ 0 := by
        push_neg at hneg
        obtain ⟨m2, hm2, hbad⟩ := hneg
        have h5 := hmin m2 hm2
        by_cases hw : 0 < m2.whiteTime
        · have h6 := hbad hw
          omega
        · omega
      refine ⟨side, player, ?_, mw, hmem, ?_⟩
      · simp only [checkTimeout]
        rw [hst]
        simp [show ¬(0 < v) by omega]
      · rcases hown with ⟨hs, hp, hv⟩ | ⟨hs, hp, hv⟩
        · exact Or.inl ⟨hs, hp, by omega, fun m2 h2 => hv ▸ hmin m2 h2⟩
        · exact Or.inr ⟨hs, hp, by omega, fun m2 h2 => hv ▸ hmin m2 h2⟩

/-- Reading the cell just written. -/
theorem setCell_same (b : BoardT) (s : Sq) (v : Cell) : setCell b s v s = v := by
  simp [setCell]

/-- Reading another cell. -/
theorem setCell_other (b : BoardT) (s : Sq) (v : Cell) (x : Sq) (h : x ≠ s) :
    setCell b s v x = b x := by
  simp [setCell, h]

/-- The simulate/restore chain of isLegalMove without an en-passant
capture puts every cell back exactly. -/
theorem restore_noEP_exact (b : BoardT) (f t : Sq) (p : Piece)
    (hbf : b f = Cell.occ p) :
    setCell (setCell (setCell (setCell b t (Cell.occ p)) f Cell.undef) f (Cell.occ p))
      t (b t) = b := by
  funext x
  by_cases hxt : x = t
  · subst hxt
    simp [setCell_same]
  · rw [setCell_other _ _ _ _ hxt]
    by_cases hxf : x = f
    · subst hxf
      rw [setCell_same, hbf]
    · rw [setCell_other _ _ _ _ hxf, setCell_other _ _ _ _ hxf,
        setCell_other _ _ _ _ hxt]

/-- The simulate/restore chain with an en-passant capture that is put
back (the captured cell held a piece) restores every cell exactly. -/
theorem restore_EP_exact (b : BoardT) (f t ep : Sq) (p : Piece)
    (hbf : b f = Cell.occ p) :
    setCell (setCell (setCell (setCell (setCell (setCell b ep Cell.undef) t (Cell.occ p))
      f Cell.undef) f (Cell.occ p)) t (b t)) ep (b ep) = b := by
  funext x
  by_cases hxep : x = ep
  · subst hxep
    simp [setCell_same]
  · rw [setCell_other _ _ _ _ hxep]
    by_cases hxt : x = t
    · subst hxt
      simp [setCell_same]
    · rw [setCell_other _ _ _ _ hxt]
      by_cases hxf : x = f
      · subst hxf
        rw [setCell_same, hbf]
      · rw [setCell_other _ _ _ _ hxf, setCell_other _ _ _ _ hxf,
          setCell_other _ _ _ _ hxt, setCell_other _ _ _ _ hxep]

/-- The simulate/restore chain whose en-passant restore is skipped (the
captured cell was empty, so the truthiness guard fails): every cell is
back except that an en-passant cell off the move squares is now
undefined. -/
theorem restore_EP_skip (b : BoardT) (f t ep : Sq) (p : Piece)
    (hbf : b f = Cell.occ p) (x : Sq) :
    setCell (setCell (setCell (setCell (setCell b ep Cell.undef) t (Cell.occ p))
        f Cell.undef) f (Cell.occ p)) t (b t) x
      = if x = ep ∧ x ≠ t ∧ x ≠ f then Cell.undef else b x := by
  by_cases hxt : x = t
  · subst hxt
    rw [setCell_same]
    simp
  · rw [setCell_other _ _ _ _ hxt]
    by_cases hxf : x = f
    · subst hxf
      rw [setCell_same, hbf]
      simp
    · rw [setCell_other _ _ _ _ hxf, setCell_other _ _ _ _ hxf,
        setCell_other _ _ _ _ hxt]
      by_cases hxep : x = ep
      · subst hxep
        rw [setCell_same]
        simp [hxt, hxf]
      · rw [setCell_other _ _ _ _ hxep]
        simp [hxep]

/-- Two states with the same non-board fields and norm-equal boards are
norm-equal. -/
theorem normChess_board_eq (c : Chess) (B : BoardT)
    (h : normBoard B = normBoard c.board) :
    normChess { c with board := B } = normChess c := by
  unfold normChess
  simp only []
  rw [h]

/-- A cell that is not truthy normalizes to undefined. -/
theorem normCell_of_not_truthy (x : Cell) (h : x.truthy = false) :
    normCell x = Cell.undef := by
  cases x <;> simp [Cell.truthy, normCell] at h ⊢

/-- isLegalMove restores the state up to the null/undefined
representation of empty squares (and touches nothing but the board). -/
theorem isLegalMoveS_norm (c : Chess) (f t : Sq) :
    normChess (isLegalMoveS c f t).2 = normChess c := by
  unfold isLegalMoveS
  split
  · rfl
  · rfl
  · rename_i piece hbf
    dsimp only
    repeat' split
    all_goals try rfl
    all_goals
      first
      | (rename_i hcontra
         exact Bool.noConfusion hcontra)
      | (refine normChess_board_eq c _ ?_
         rw [restore_noEP_exact c.board f t piece hbf])
      | (refine normChess_board_eq c _ ?_
         rw [restore_EP_exact c.board f t (f.1, t.2) piece hbf])
      | (rename_i hEP htr
         refine normChess_board_eq c _ ?_
         funext x
         unfold normBoard
         rw [restore_EP_skip c.board f t (f.1, t.2) piece hbf x]
         by_cases hc : x = (f.1, t.2) ∧ x ≠ t ∧ x ≠ f
         · rw [if_pos hc, hc.1,
             show normCell (c.board (f.1, t.2)) = Cell.undef from
               normCell_of_not_truthy _ (by simpa using htr)]
           rfl
         · rw [if_neg hc])

/-- isLegalDrop restores the state up to the null/undefined
representation of the probed square (whose occupancy gate only passes
when it stores null). -/
theorem isLegalDropS_norm (c : Chess) (pos : Sq) (ty : PieceType) (col : Color) :
    normChess (isLegalDropS c pos ty col).2 = normChess c := by
  unfold isLegalDropS
  split
  · rfl
  · split
    · rfl
    · split
      · rfl
      · split
        · rfl
        · rename_i hnn h1 h2 h3
          refine normChess_board_eq c _ ?_
          funext x
          unfold normBoard
          by_cases hx : x = pos
          · subst hx
            rw [setCell_same]
            have : c.board x = Cell.nul := by
              revert hnn
              cases c.board x <;> simp [Cell.neNull]
            rw [this]
            rfl
          · rw [setCell_other _ _ _ _ hx, setCell_other _ _ _ _ hx]

/-- One move probe of the checkmate search preserves the state up to the
empty-square representation. -/
theorem checkmateMoveStep_norm (st : Bool × Chess) (pr : Sq × Sq) :
    normChess (checkmateMoveStep st pr).2 = normChess st.2 := by
  unfold checkmateMoveStep
  split
  · rfl
  · split
    · split
      · rfl
      · exact isLegalMoveS_norm st.2 pr.1 pr.2
    · rfl

/-- One drop probe of the checkmate search preserves the state up to the
empty-square representation. -/
theorem checkmateDropStep_norm (st : Bool × Chess) (pr : PieceType × Sq) :
    normChess (checkmateDropStep st pr).2 = normChess st.2 := by
  unfold checkmateDropStep
  split
  · rfl
  · exact isLegalDropS_norm st.2 pr.2 pr.1 st.2.turn

/-- Folding move probes preserves the state up to the empty-square
representation. -/
theorem foldl_checkmateMoveStep_norm (l : List (Sq × Sq)) (st : Bool × Chess) :
    normChess (l.foldl checkmateMoveStep st).2 = normChess st.2 := by
  induction l generalizing st with
  | nil => rfl
  | cons pr rest ih =>
    rw [List.foldl_cons]
    rw [ih (checkmateMoveStep st pr)]
    exact checkmateMoveStep_norm st pr

/-- Folding drop probes preserves the state up to the empty-square
representation. -/
theorem foldl_checkmateDropStep_norm (l : List (PieceType × Sq)) (st : Bool × Chess) :
    normChess (l.foldl checkmateDropStep st).2 = normChess st.2 := by
  induction l generalizing st with
  | nil => rfl
  | cons pr rest ih =>
    rw [List.foldl_cons]
    rw [ih (checkmateDropStep st pr)]
    exact checkmateDropStep_norm st pr

/-- isCheckmate preserves the state up to the empty-square
representation. -/
theorem checkmateAfterDrops_norm (st : Bool × Chess) :
    normChess (checkmateAfterDrops st).2 = normChess st.2 := by
  unfold checkmateAfterDrops
  split <;> rfl

theorem checkmateAfterMoves_norm (st : Bool × Chess) :
    normChess (checkmateAfterMoves st).2 = normChess st.2 := by
  unfold checkmateAfterMoves
  split
  · rfl
  · rw [checkmateAfterDrops_norm, foldl_checkmateDropStep_norm]

theorem isCheckmateS_norm (c : Chess) : normChess (isCheckmateS c).2 = normChess c := by
  unfold isCheckmateS
  split
  · rfl
  · rw [checkmateAfterMoves_norm, foldl_checkmateMoveStep_norm]

/-- C9 amended: the three query operations return the state with all
pockets, turn, castling flags and the en-passant target exactly as
before, and the board identical up to the null/undefined representation
of empty squares (so occupancy and every piece are preserved); they are
NOT pure on the nose, because a null empty square touched by the
tentative-mutation restore comes back as undefined (see the
counterexample). -/
theorem queries_pure_up_to_empty_marker (c : Chess) :
    (∀ f t, normChess (isLegalMoveS c f t).2 = normChess c)
    ∧ (∀ pos ty col, normChess (isLegalDropS c pos ty col).2 = normChess c)
    ∧ normChess (isCheckmateS c).2 = normChess c :=
  ⟨fun f t => isLegalMoveS_norm c f t,
   fun pos ty col => isLegalDropS_norm c pos ty col,
   isCheckmateS_norm c⟩

/-- A key that is absent counts as zero. -/
theorem pocketGet_eq_zero_of_not_mem (p : Pocket) (ty : PieceType)
    (h : ty ∉ p.map Prod.fst) : pocketGet p ty = 0 := by
  induction p with
  | nil => rfl
  | cons e rest ih =>
    rw [List.map_cons, List.mem_cons] at h
    push_neg at h
    rw [pocketGet_cons, if_neg (fun he => h.1 he.symm)]
    exact ih h.2

/-- Map.delete leaves other keys alone. -/
theorem pocketGet_pocketDelete_other (p : Pocket) (t ty : PieceType) (h : ty ≠ t) :
    pocketGet (pocketDelete p t) ty = pocketGet p ty := by
  induction p with
  | nil => rfl
  | cons e rest ih =>
    unfold pocketDelete
    by_cases he : e.1 = t
    · rw [if_pos he, pocketGet_cons, if_neg (by rw [he]; exact Ne.symm h)]
    · rw [if_neg he, pocketGet_cons, pocketGet_cons, ih]

/-- The keys after Map.set come from the old keys or are the written
key. -/
theorem pocketSet_keys_subset (p : Pocket) (t : PieceType) (n : Nat) :
    ∀ x ∈ (pocketSet p t n).map Prod.fst, x ∈ p.map Prod.fst ∨ x = t := by
  induction p with
  | nil =>
    intro x hx
    simp [pocketSet] at hx
    exact Or.inr hx
  | cons e rest ih =>
    intro x hx
    unfold pocketSet at hx
    by_cases he : e.1 = t
    · rw [if_pos he] at hx
      simp only [List.map_cons, List.mem_cons] at hx ⊢
      rcases hx with hx | hx
      · exact Or.inr hx
      · exact Or.inl (Or.inr hx)
    · rw [if_neg he] at hx
      simp only [List.map_cons, List.mem_cons] at hx ⊢
      rcases hx with hx | hx
      · exact Or.inl (Or.inl hx)
      · rcases ih x hx with hh | hh
        · exact Or.inl (Or.inr hh)
        · exact Or.inr hh

/-- Map.set preserves key uniqueness. -/
theorem pocketWF_pocketSet (p : Pocket) (t : PieceType) (n : Nat) (h : pocketWF p) :
    pocketWF (pocketSet p t n) := by
  induction p with
  | nil => simp [pocketSet, pocketWF]
  | cons e rest ih =>
    unfold pocketWF at h ⊢
    rw [List.map_cons, List.nodup_cons] at h
    unfold pocketSet
    by_cases he : e.1 = t
    · rw [if_pos he, List.map_cons, List.nodup_cons]
      exact ⟨by rw [← he]; exact h.1, h.2⟩
    · rw [if_neg he, List.map_cons, List.nodup_cons]
      refine ⟨fun hmem => ?_, ih h.2⟩
      rcases pocketSet_keys_subset rest t n e.1 hmem with hh | hh
      · exact h.1 hh
      · exact he hh

/-- Map.delete of a unique key makes it absent (count zero). -/
theorem pocketGet_pocketDelete_same_of_wf (p : Pocket) (t : PieceType)
    (h : pocketWF p) : pocketGet (pocketDelete p t) t = 0 := by
  induction p with
  | nil => rfl
  | cons e rest ih =>
    unfold pocketWF at h
    rw [List.map_cons, List.nodup_cons] at h
    unfold pocketDelete
    by_cases he : e.1 = t
    · rw [if_pos he]
      exact pocketGet_eq_zero_of_not_mem rest t (by rw [← he]; exact h.1)
    · rw [if_neg he, pocketGet_cons, if_neg he]
      exact ih h.2

/-- removeFromPocket on a well-formed pocket with a positive count takes
away exactly one unit of exactly that (color, type). -/
theorem removeFromPocket_get (c : Chess) (ty : PieceType) (col : Color)
    (hwf : pocketWF (getPocket c col))
    (hpos : 0 < pocketGet (getPocket c col) ty) :
    ∀ col2 ty2, pocketGet (getPocket (removeFromPocket c ty col).2 col2) ty2
        + (if col2 = col ∧ ty2 = ty then 1 else 0)
      = pocketGet (getPocket c col2) ty2 := by
  intro col2 ty2
  unfold removeFromPocket
  rw [if_pos hpos]
  dsimp only
  rw [getPocket_setPocket]
  by_cases hc : col2 = col
  · subst hc
    rw [if_pos rfl]
    by_cases hty : ty2 = ty
    · subst hty
      by_cases hz : pocketGet (getPocket c col2) ty2 - 1 = 0
      · rw [if_pos hz,
          pocketGet_pocketDelete_same_of_wf _ _ (pocketWF_pocketSet _ _ _ hwf),
          if_pos (And.intro rfl rfl)]
        omega
      · rw [if_neg hz, pocketGet_pocketSet_same, if_pos (And.intro rfl rfl)]
        omega
    · by_cases hz : pocketGet (getPocket c col2) ty - 1 = 0
      · rw [if_pos hz, pocketGet_pocketDelete_other _ _ _ hty,
          pocketGet_pocketSet_other _ _ _ _ hty,
          if_neg (fun hand => hty hand.2)]
        exact Nat.add_zero _
      · rw [if_neg hz, pocketGet_pocketSet_other _ _ _ _ hty,
          if_neg (fun hand => hty hand.2)]
        exact Nat.add_zero _
  · rw [if_neg hc, if_neg (fun hand => hc hand.1)]
    exact Nat.add_zero _

/-- Match.updateTime leaves the premove queue alone. -/
theorem updateTime_premoves (m : MatchT) (t : Int) :
    (m.updateTime t).premoves = m.premoves := by
  unfold MatchT.updateTime
  split
  · rfl
  · split
    · rfl
    · split <;> rfl

/-- Match.switchTurn leaves the premove queue alone. -/
theorem switchTurn_premoves (m : MatchT) (t : Int) :
    (m.switchTurn t).premoves = m.premoves :=
  updateTime_premoves m t

/-- Match.updateTime leaves the board alone. -/
theorem updateTime_chess (m : MatchT) (t : Int) :
    (m.updateTime t).chess = m.chess := by
  unfold MatchT.updateTime
  split
  · rfl
  · split
    · rfl
    · split <;> rfl

/-- Match.switchTurn leaves the board alone. -/
theorem switchTurn_chess (m : MatchT) (t : Int) :
    (m.switchTurn t).chess = m.chess :=
  updateTime_chess m t

/-- A true isLegalDrop requires a positive pocket count of the dropped
type. -/
theorem isLegalDropS_pos (c : Chess) (pos : Sq) (ty : PieceType) (col : Color)
    (h : (isLegalDropS c pos ty col).1 = true) :
    0 < pocketGet (getPocket c col) ty := by
  unfold isLegalDropS at h
  split at h
  · exact Bool.noConfusion h
  · split at h
    · exact Bool.noConfusion h
    · split at h
      · exact Bool.noConfusion h
      · rename_i hcond
        omega

/-- dropPiece in strict mode with the inner premove dispatch reduced. -/
theorem dropPieceS_false_eq (c : Chess) (col : Color) (ty : PieceType) (sq : Sq) :
    dropPieceS c col ty sq false
      = (if (isLegalDropS c sq ty col).1 = false
         then ({ success := false, captured := none }, (isLegalDropS c sq ty col).2)
         else
          ({ success := true, captured := none },
            { (removeFromPocket
                { (isLegalDropS c sq ty col).2 with
                  board := setCell (isLegalDropS c sq ty col).2.board sq
                    (Cell.occ ⟨ty, col⟩) } ty col).2 with
              enPassantTarget := none,
              turn := invertColor
                (removeFromPocket
                  { (isLegalDropS c sq ty col).2 with
                    board := setCell (isLegalDropS c sq ty col).2.board sq
                      (Cell.occ ⟨ty, col⟩) } ty col).2.turn })) := rfl

/-- moveResultEffects without a capture is a no-op. -/
theorem moveResultEffects_none (g : Game) (n : Nat) (result : MoveResult)
    (h : result.captured = none) : moveResultEffects g n result = g := by
  unfold moveResultEffects
  rw [h]

/-- tryApplyMove with an in-range index, unfolded past the range guard
and the match lookup. -/
theorem tryApplyMove_some (g : Game) (i : Int) (move : Move) (t : Int) (m : MatchT)
    (hguard : ¬(i < 0 ∨ (g.matchList.length : Int) ≤ i))
    (hm : listGetInt g.matchList i = some m) :
    tryApplyMove g i move t
      = (let n := i.toNat
         let r := tryMoveS m.chess move false
         let g1 := updateMatch g n fun mm => { mm with chess := r.2 }
         if r.1.success then
           let g2 := moveResultEffects g1 n r.1
           let g3 := updateMatch g2 n fun mm => mm.switchTurn t
           let g4 :=
             match tryExecutePremoves g3 (n : Int) t with
             | some pr => pr.2
             | none => g3
           (r.1, g4)
         else (r.1, g1)) := by
  unfold tryApplyMove
  rw [if_neg hguard, hm]

/-- tryExecutePremoves on an empty queue reports failure and changes
nothing. -/
theorem tryExecutePremoves_of_nil (g : Game) (i : Int) (t : Int) (m : MatchT)
    (hm : listGetInt g.matchList i = some m) (hq : m.premoves = []) :
    tryExecutePremoves g i t = some ({ success := false, captured := none }, g) := by
  obtain ⟨ch, wp, bp, wt, bt, prem, pts, lmt, ac, fl⟩ := m
  have hq2 : prem = [] := hq
  subst hq2
  unfold tryExecutePremoves
  rw [hm]

/-- C5 amended: a successful drop on match A deducts exactly one unit of
the dropped (kind, color) from A's own pocket and touches no other
(color, type) count there, while every other match of the game is left
entirely unchanged: no drop propagation exists. -/
theorem drop_effects_local (g : Game) (i : Int) (move : Move) (tNow : Int)
    (m : MatchT) (col : Color) (ty : PieceType) (sq : Sq)
    (hm : listGetInt g.matchList i = some m)
    (hfrom : move.fromPos = Position.pocket col ty)
    (hto : move.toPos = Position.board sq)
    (hq : m.premoves = [])
    (hwf : pocketWF (getPocket m.chess col))
    (hsucc : (tryApplyMove g i move tNow).1.success = true) :
    (∀ j, j ≠ i.toNat →
      (tryApplyMove g i move tNow).2.matchList.get? j = g.matchList.get? j)
    ∧ ∃ m', (tryApplyMove g i move tNow).2.matchList.get? i.toNat = some m'
        ∧ ∀ col2 ty2,
            pocketGet (getPocket m'.chess col2) ty2
              + (if col2 = col ∧ ty2 = ty then 1 else 0)
            = pocketGet (getPocket m.chess col2) ty2 := by
  obtain ⟨hi0, hget⟩ := listGetInt_some hm
  have hlen : i.toNat < g.matchList.length := by
    rcases List.get?_eq_some.mp hget with ⟨h1, _⟩
    exact h1
  have hguard : ¬(i < 0 ∨ (g.matchList.length : Int) ≤ i) := by
    push_neg
    constructor
    · omega
    · omega
  have hr : tryMoveS m.chess move false = dropPieceS m.chess col ty sq false := by
    unfold tryMoveS moveS
    rw [hto, hfrom]
  have hsuccR : (tryMoveS m.chess move false).1.success = true := by
    rw [tryApplyMove_some g i move tNow m hguard hm] at hsucc
    dsimp only at hsucc
    by_cases hb : (tryMoveS m.chess move false).1.success = true
    · exact hb
    · rw [if_neg hb] at hsucc
      exact hsucc
  have hdsucc : (dropPieceS m.chess col ty sq false).1.success = true := by
    rw [← hr]
    exact hsuccR
  have hL : (isLegalDropS m.chess sq ty col).1 = true := by
    cases hx : (isLegalDropS m.chess sq ty col).1 with
    | false =>
      rw [dropPieceS_false_eq, if_pos hx] at hdsucc
      exact Bool.noConfusion hdsucc
    | true => rfl
  have hLne : ¬(isLegalDropS m.chess sq ty col).1 = false := by
    rw [hL]
    exact fun h => Bool.noConfusion h
  have hr1 : (tryMoveS m.chess move false).1 = { success := true, captured := none } := by
    rw [hr, dropPieceS_false_eq, if_neg hLne]
  have hcap : (tryMoveS m.chess move false).1.captured = none := by
    rw [hr1]
  have hCpock : ∀ col2, getPocket
      { (isLegalDropS m.chess sq ty col).2 with
        board := setCell (isLegalDropS m.chess sq ty col).2.board sq
          (Cell.occ ⟨ty, col⟩) } col2
      = getPocket m.chess col2 := by
    intro col2
    have h1 := isLegalDropS_norm m.chess sq ty col
    have hb := congrArg Chess.blackPocket h1
    have hw := congrArg Chess.whitePocket h1
    cases col2
    · exact hb
    · exact hw
  have hrpock : ∀ col2, getPocket (tryMoveS m.chess move false).2 col2
      = getPocket (removeFromPocket
          { (isLegalDropS m.chess sq ty col).2 with
            board := setCell (isLegalDropS m.chess sq ty col).2.board sq
              (Cell.occ ⟨ty, col⟩) } ty col).2 col2 := by
    intro col2
    rw [hr, dropPieceS_false_eq, if_neg hLne]
    cases col2 <;> rfl
  have hpock : ∀ col2 ty2,
      pocketGet (getPocket (tryMoveS m.chess move false).2 col2) ty2
        + (if col2 = col ∧ ty2 = ty then 1 else 0)
      = pocketGet (getPocket m.chess col2) ty2 := by
    intro col2 ty2
    rw [hrpock col2]
    have h2 := removeFromPocket_get
      { (isLegalDropS m.chess sq ty col).2 with
        board := setCell (isLegalDropS m.chess sq ty col).2.board sq
          (Cell.occ ⟨ty, col⟩) } ty col
      (by rw [hCpock col]; exact hwf)
      (by rw [hCpock col]; exact isLegalDropS_pos m.chess sq ty col hL)
      col2 ty2
    rw [hCpock col2] at h2
    exact h2
  have hg3 : (updateMatch (updateMatch g i.toNat
      (fun mm => { mm with chess := (tryMoveS m.chess move false).2 })) i.toNat
      (fun mm => mm.switchTurn tNow)).matchList.get? i.toNat
      = some (MatchT.switchTurn
          { m with chess := (tryMoveS m.chess move false).2 } tNow) := by
    rw [updateMatch_get?, updateMatch_get?, hget]
    simp
  have hlg : listGetInt (updateMatch (updateMatch g i.toNat
      (fun mm => { mm with chess := (tryMoveS m.chess move false).2 })) i.toNat
      (fun mm => mm.switchTurn tNow)).matchList (i.toNat : Int)
      = some (MatchT.switchTurn
          { m with chess := (tryMoveS m.chess move false).2 } tNow) := by
    unfold listGetInt
    rw [if_neg (by omega : ¬((i.toNat : Int) < 0))]
    have htn : ((i.toNat : Int)).toNat = i.toNat := by omega
    rw [htn]
    exact hg3
  have hprem : (MatchT.switchTurn
      { m with chess := (tryMoveS m.chess move false).2 } tNow).premoves = [] := by
    rw [switchTurn_premoves]
    exact hq
  have hmain : (tryApplyMove g i move tNow).2
      = updateMatch (updateMatch g i.toNat
          (fun mm => { mm with chess := (tryMoveS m.chess move false).2 })) i.toNat
          (fun mm => mm.switchTurn tNow) := by
    rw [tryApplyMove_some g i move tNow m hguard hm]
    dsimp only
    rw [if_pos hsuccR]
    rw [moveResultEffects_none _ _ _ hcap]
    rw [tryExecutePremoves_of_nil _ _ _ _ hlg hprem]
  refine ⟨?_, ?_⟩
  · intro j hj
    rw [hmain, updateMatch_get?, updateMatch_get?]
    cases hgj : g.matchList.get? j with
    | none => rfl
    | some a =>
      rw [Option.map_some', Option.map_some', if_neg hj, if_neg hj]
  · refine ⟨MatchT.switchTurn
      { m with chess := (tryMoveS m.chess move false).2 } tNow, ?_, ?_⟩
    · rw [hmain]
      exact hg3
    · intro col2 ty2
      have hc : (MatchT.switchTurn
          { m with chess := (tryMoveS m.chess move false).2 } tNow).chess
          = (tryMoveS m.chess move false).2 :=
        switchTurn_chess _ tNow
      rw [hc]
      exact hpock col2 ty2

/-- C5 amended witness: the drop of the pocketed white pawn onto (4,4) of
dropGame's match 0 succeeds, leaves match 1 untouched and takes exactly
the one white pawn out of match 0's pocket. -/
theorem drop_effects_local_witness :
    (tryApplyMove dropGame 0 dropMove 1000).1.success = true
    ∧ ((∀ j, j ≠ (0 : Int).toNat →
          (tryApplyMove dropGame 0 dropMove 1000).2.matchList.get? j
            = dropGame.matchList.get? j)
        ∧ ∃ m', (tryApplyMove dropGame 0 dropMove 1000).2.matchList.get?
              (0 : Int).toNat = some m'
            ∧ ∀ col2 ty2,
                pocketGet (getPocket m'.chess col2) ty2
                  + (if col2 = Color.WHITE ∧ ty2 = PieceType.PAWN then 1 else 0)
                = pocketGet
                    (getPocket (mkMatch dropReadyChess false 1 2).chess col2) ty2) :=
  ⟨by decide,
   drop_effects_local dropGame 0 dropMove 1000 (mkMatch dropReadyChess false 1 2)
     Color.WHITE PieceType.PAWN (4, 4) (by decide) rfl rfl rfl
     (by unfold pocketWF; decide) (by decide)⟩

/-- movePiece in strict mode factors through the legality gate and the
execution tail. -/
theorem movePieceS_eq_core (c : Chess) (f t : Sq) :
    movePieceS c f t false
      = (if (isLegalMoveS c f t).1 = false
         then ({ success := false, captured := none }, (isLegalMoveS c f t).2)
         else movePieceCore (isLegalMoveS c f t).2 f t) := rfl

/-- setPocket does not touch the castling flags. -/
theorem setPocket_flags (c : Chess) (col : Color) (p : Pocket) :
    (setPocket c col p).whiteCastleShort = c.whiteCastleShort
    ∧ (setPocket c col p).whiteCastleLong = c.whiteCastleLong
    ∧ (setPocket c col p).blackCastleShort = c.blackCastleShort
    ∧ (setPocket c col p).blackCastleLong = c.blackCastleLong := by
  unfold setPocket
  cases col
  · exact ⟨rfl, rfl, rfl, rfl⟩
  · exact ⟨rfl, rfl, rfl, rfl⟩

/-- removeFromPocket does not touch the castling flags. -/
theorem removeFromPocket_flags (c : Chess) (ty : PieceType) (col : Color) :
    (removeFromPocket c ty col).2.whiteCastleShort = c.whiteCastleShort
    ∧ (removeFromPocket c ty col).2.whiteCastleLong = c.whiteCastleLong
    ∧ (removeFromPocket c ty col).2.blackCastleShort = c.blackCastleShort
    ∧ (removeFromPocket c ty col).2.blackCastleLong = c.blackCastleLong := by
  unfold removeFromPocket
  dsimp only
  split
  · exact setPocket_flags c col _
  · exact ⟨rfl, rfl, rfl, rfl⟩

/-- dropPiece never touches the castling flags, whether the drop is
accepted or rejected. -/
theorem dropPieceS_flags (c : Chess) (col : Color) (ty : PieceType) (sq : Sq) :
    (dropPieceS c col ty sq false).2.whiteCastleShort = c.whiteCastleShort
    ∧ (dropPieceS c col ty sq false).2.whiteCastleLong = c.whiteCastleLong
    ∧ (dropPieceS c col ty sq false).2.blackCastleShort = c.blackCastleShort
    ∧ (dropPieceS c col ty sq false).2.blackCastleLong = c.blackCastleLong := by
  have hn := isLegalDropS_norm c sq ty col
  have g1 := congrArg Chess.whiteCastleShort hn
  have g2 := congrArg Chess.whiteCastleLong hn
  have g3 := congrArg Chess.blackCastleShort hn
  have g4 := congrArg Chess.blackCastleLong hn
  have h1 : (isLegalDropS c sq ty col).2.whiteCastleShort = c.whiteCastleShort := g1
  have h2 : (isLegalDropS c sq ty col).2.whiteCastleLong = c.whiteCastleLong := g2
  have h3 : (isLegalDropS c sq ty col).2.blackCastleShort = c.blackCastleShort := g3
  have h4 : (isLegalDropS c sq ty col).2.blackCastleLong = c.blackCastleLong := g4
  rw [dropPieceS_false_eq]
  by_cases hb : (isLegalDropS c sq ty col).1 = false
  · rw [if_pos hb]
    exact ⟨h1, h2, h3, h4⟩
  · rw [if_neg hb]
    obtain ⟨k1, k2, k3, k4⟩ := removeFromPocket_flags
      { (isLegalDropS c sq ty col).2 with
        board := setCell (isLegalDropS c sq ty col).2.board sq
          (Cell.occ ⟨ty, col⟩) } ty col
    exact ⟨k1.trans h1, k2.trans h2, k3.trans h3, k4.trans h4⟩

/-- A flag implication transported to the false direction. -/
theorem flag_down {x y : Bool} (mono : x = true → y = true) (h : y = false) :
    x = false := by
  cases hx : x
  · rfl
  · rw [mono hx] at h
    exact Bool.noConfusion h

/-- The king-move clearer never raises a flag. -/
theorem clearKingFlags_mono (c2 : Chess) (p : Piece) :
    ((clearKingFlags c2 p).whiteCastleShort = true → c2.whiteCastleShort = true)
    ∧ ((clearKingFlags c2 p).whiteCastleLong = true → c2.whiteCastleLong = true)
    ∧ ((clearKingFlags c2 p).blackCastleShort = true → c2.blackCastleShort = true)
    ∧ ((clearKingFlags c2 p).blackCastleLong = true → c2.blackCastleLong = true) := by
  unfold clearKingFlags
  repeat' split
  all_goals refine ⟨fun h => ?_, fun h => ?_, fun h => ?_, fun h => ?_⟩ <;>
    first | exact h | exact Bool.noConfusion h

/-- The rook-from clearer never raises a flag. -/
theorem clearRookFromFlags_mono (c3 : Chess) (p : Piece) (f : Sq) :
    ((clearRookFromFlags c3 p f).whiteCastleShort = true → c3.whiteCastleShort = true)
    ∧ ((clearRookFromFlags c3 p f).whiteCastleLong = true → c3.whiteCastleLong = true)
    ∧ ((clearRookFromFlags c3 p f).blackCastleShort = true → c3.blackCastleShort = true)
    ∧ ((clearRookFromFlags c3 p f).blackCastleLong = true → c3.blackCastleLong = true) := by
  unfold clearRookFromFlags
  repeat' split
  all_goals refine ⟨fun h => ?_, fun h => ?_, fun h => ?_, fun h => ?_⟩ <;>
    first | exact h | exact Bool.noConfusion h

/-- The captured-rook clearer never raises a flag. -/
theorem clearCapturedRookFlags_mono (c4 : Chess) (cap : Option Piece) (t : Sq) :
    ((clearCapturedRookFlags c4 cap t).whiteCastleShort = true → c4.whiteCastleShort = true)
    ∧ ((clearCapturedRookFlags c4 cap t).whiteCastleLong = true → c4.whiteCastleLong = true)
    ∧ ((clearCapturedRookFlags c4 cap t).blackCastleShort = true → c4.blackCastleShort = true)
    ∧ ((clearCapturedRookFlags c4 cap t).blackCastleLong = true → c4.blackCastleLong = true) := by
  unfold clearCapturedRookFlags
  repeat' split
  all_goals refine ⟨fun h => ?_, fun h => ?_, fun h => ?_, fun h => ?_⟩ <;>
    first | exact h | exact Bool.noConfusion h

/-- The post-move update chain never raises a flag. -/
theorem applyFlagUpdates_mono (c1 : Chess) (p : Piece) (f t : Sq) (b2 : BoardT)
    (ep1 : Option Sq) (cap : Option Piece) :
    ((applyFlagUpdates c1 p f t b2 ep1 cap).whiteCastleShort = true
      → c1.whiteCastleShort = true)
    ∧ ((applyFlagUpdates c1 p f t b2 ep1 cap).whiteCastleLong = true
      → c1.whiteCastleLong = true)
    ∧ ((applyFlagUpdates c1 p f t b2 ep1 cap).blackCastleShort = true
      → c1.blackCastleShort = true)
    ∧ ((applyFlagUpdates c1 p f t b2 ep1 cap).blackCastleLong = true
      → c1.blackCastleLong = true) := by
  obtain ⟨a1, a2, a3, a4⟩ :=
    clearKingFlags_mono { c1 with board := b2, enPassantTarget := ep1 } p
  obtain ⟨r1, r2, r3, r4⟩ := clearRookFromFlags_mono
    (clearKingFlags { c1 with board := b2, enPassantTarget := ep1 } p) p f
  obtain ⟨d1, d2, d3, d4⟩ := clearCapturedRookFlags_mono
    (clearRookFromFlags
      (clearKingFlags { c1 with board := b2, enPassantTarget := ep1 } p) p f) cap t
  exact ⟨fun h => a1 (r1 (d1 h)), fun h => a2 (r2 (d2 h)),
    fun h => a3 (r3 (d3 h)), fun h => a4 (r4 (d4 h))⟩

/-- The movePiece execution tail never raises a flag. -/
theorem movePieceCore_flags_mono (c1 : Chess) (f t : Sq) :
    ((movePieceCore c1 f t).2.whiteCastleShort = true → c1.whiteCastleShort = true)
    ∧ ((movePieceCore c1 f t).2.whiteCastleLong = true → c1.whiteCastleLong = true)
    ∧ ((movePieceCore c1 f t).2.blackCastleShort = true → c1.blackCastleShort = true)
    ∧ ((movePieceCore c1 f t).2.blackCastleLong = true → c1.blackCastleLong = true) := by
  unfold movePieceCore
  split
  · exact ⟨fun h => h, fun h => h, fun h => h, fun h => h⟩
  · exact ⟨fun h => h, fun h => h, fun h => h, fun h => h⟩
  · rename_i piece hbf
    dsimp only
    exact ⟨fun h => (applyFlagUpdates_mono _ _ _ _ _ _ _).1 h,
      fun h => (applyFlagUpdates_mono _ _ _ _ _ _ _).2.1 h,
      fun h => (applyFlagUpdates_mono _ _ _ _ _ _ _).2.2.1 h,
      fun h => (applyFlagUpdates_mono _ _ _ _ _ _ _).2.2.2 h⟩

/-- movePiece in strict mode never raises a castling flag. -/
theorem movePieceS_flags_mono (c : Chess) (f t : Sq) :
    ((movePieceS c f t false).2.whiteCastleShort = true → c.whiteCastleShort = true)
    ∧ ((movePieceS c f t false).2.whiteCastleLong = true → c.whiteCastleLong = true)
    ∧ ((movePieceS c f t false).2.blackCastleShort = true → c.blackCastleShort = true)
    ∧ ((movePieceS c f t false).2.blackCastleLong = true → c.blackCastleLong = true) := by
  have hn := isLegalMoveS_norm c f t
  have g1 := congrArg Chess.whiteCastleShort hn
  have g2 := congrArg Chess.whiteCastleLong hn
  have g3 := congrArg Chess.blackCastleShort hn
  have g4 := congrArg Chess.blackCastleLong hn
  have h1 : (isLegalMoveS c f t).2.whiteCastleShort = c.whiteCastleShort := g1
  have h2 : (isLegalMoveS c f t).2.whiteCastleLong = c.whiteCastleLong := g2
  have h3 : (isLegalMoveS c f t).2.blackCastleShort = c.blackCastleShort := g3
  have h4 : (isLegalMoveS c f t).2.blackCastleLong = c.blackCastleLong := g4
  rw [movePieceS_eq_core]
  by_cases hL : (isLegalMoveS c f t).1 = false
  · rw [if_pos hL]
    exact ⟨fun h => h1.symm.trans h, fun h => h2.symm.trans h,
      fun h => h3.symm.trans h, fun h => h4.symm.trans h⟩
  · rw [if_neg hL]
    obtain ⟨k1, k2, k3, k4⟩ := movePieceCore_flags_mono (isLegalMoveS c f t).2 f t
    exact ⟨fun h => h1.symm.trans (k1 h), fun h => h2.symm.trans (k2 h),
      fun h => h3.symm.trans (k3 h), fun h => h4.symm.trans (k4 h)⟩

/-- Chess.move in strict mode never raises a castling flag, whatever the
action and whether or not it succeeds. -/
theorem moveS_flags_mono (c : Chess) (a : Move) :
    ((moveS c a false).2.whiteCastleShort = true → c.whiteCastleShort = true)
    ∧ ((moveS c a false).2.whiteCastleLong = true → c.whiteCastleLong = true)
    ∧ ((moveS c a false).2.blackCastleShort = true → c.blackCastleShort = true)
    ∧ ((moveS c a false).2.blackCastleLong = true → c.blackCastleLong = true) := by
  rcases a with ⟨fp, tp⟩
  cases tp with
  | pocket pc pt => exact ⟨fun h => h, fun h => h, fun h => h, fun h => h⟩
  | board t =>
    cases fp with
    | pocket col ty =>
      obtain ⟨k1, k2, k3, k4⟩ := dropPieceS_flags c col ty t
      exact ⟨fun h => k1.symm.trans h, fun h => k2.symm.trans h,
        fun h => k3.symm.trans h, fun h => k4.symm.trans h⟩
    | board f =>
      obtain ⟨k1, k2, k3, k4⟩ := movePieceS_flags_mono c f t
      exact ⟨fun h => k1 h, fun h => k2 h, fun h => k3 h, fun h => k4 h⟩

/-- The king-move clearer touches neither board nor en-passant target. -/
theorem clearKingFlags_base (c2 : Chess) (p : Piece) :
    (clearKingFlags c2 p).board = c2.board
    ∧ (clearKingFlags c2 p).enPassantTarget = c2.enPassantTarget := by
  unfold clearKingFlags
  repeat' split
  all_goals exact ⟨rfl, rfl⟩

/-- The rook-from clearer touches neither board nor en-passant target. -/
theorem clearRookFromFlags_base (c3 : Chess) (p : Piece) (f : Sq) :
    (clearRookFromFlags c3 p f).board = c3.board
    ∧ (clearRookFromFlags c3 p f).enPassantTarget = c3.enPassantTarget := by
  unfold clearRookFromFlags
  repeat' split
  all_goals exact ⟨rfl, rfl⟩

/-- The captured-rook clearer touches neither board nor en-passant
target. -/
theorem clearCapturedRookFlags_base (c4 : Chess) (cap : Option Piece) (t : Sq) :
    (clearCapturedRookFlags c4 cap t).board = c4.board
    ∧ (clearCapturedRookFlags c4 cap t).enPassantTarget = c4.enPassantTarget := by
  unfold clearCapturedRookFlags
  repeat' split
  all_goals exact ⟨rfl, rfl⟩

/-- The post-move update chain installs exactly the given board and
en-passant target. -/
theorem applyFlagUpdates_base (c1 : Chess) (p : Piece) (f t : Sq) (b2 : BoardT)
    (ep1 : Option Sq) (cap : Option Piece) :
    (applyFlagUpdates c1 p f t b2 ep1 cap).board = b2
    ∧ (applyFlagUpdates c1 p f t b2 ep1 cap).enPassantTarget = ep1 := by
  unfold applyFlagUpdates
  dsimp only
  obtain ⟨k1, k2⟩ :=
    clearKingFlags_base { c1 with board := b2, enPassantTarget := ep1 } p
  obtain ⟨r1, r2⟩ := clearRookFromFlags_base
    (clearKingFlags { c1 with board := b2, enPassantTarget := ep1 } p) p f
  obtain ⟨d1, d2⟩ := clearCapturedRookFlags_base
    (clearRookFromFlags
      (clearKingFlags { c1 with board := b2, enPassantTarget := ep1 } p) p f) cap t
  exact ⟨d1.trans (r1.trans k1), d2.trans (r2.trans k2)⟩

/-- An occupied cell transfers along an equality of normalized states. -/
theorem board_occ_of_norm {c1 c : Chess} (h : normChess c1 = normChess c)
    {x : Sq} {q : Piece} (hb : c1.board x = Cell.occ q) : c.board x = Cell.occ q := by
  have hB := congrArg Chess.board h
  have hB2 : normBoard c1.board = normBoard c.board := hB
  have hcell0 := congrFun hB2 x
  have hcell : normCell (c1.board x) = normCell (c.board x) := hcell0
  rw [hb] at hcell
  cases hcs : c.board x
  · rw [hcs] at hcell
    exact Cell.noConfusion hcell
  · rw [hcs] at hcell
    exact Cell.noConfusion hcell
  · rw [hcs] at hcell
    exact hcell.symm

/-- A strictly null cell stays unoccupied along an equality of normalized
boards. -/
theorem not_occ_of_norm_nul {b1 b2 : BoardT} (h : normBoard b1 = normBoard b2)
    {s : Sq} (hs : b2 s = Cell.nul) (p : Piece) : b1 s ≠ Cell.occ p := by
  intro hocc
  have hc0 := congrFun h s
  have hc : normCell (b1 s) = normCell (b2 s) := hc0
  rw [hocc, hs] at hc
  exact Cell.noConfusion hc

/-- The en-passant invariant transfers along an equality of normalized
states. -/
theorem epInv_of_norm {c1 c : Chess} (h : normChess c1 = normChess c)
    (hi : epInv c) : epInv c1 := by
  intro s p hep hocc
  have hepEq := congrArg Chess.enPassantTarget h
  have hepEq2 : c1.enPassantTarget = c.enPassantTarget := hepEq
  have hep2 : c.enPassantTarget = some s := by
    rw [← hepEq2]
    exact hep
  exact hi s p hep2 (board_occ_of_norm h hocc)

/-- The reset state carries no en-passant target. -/
theorem epInv_resetChess : epInv resetChess := by
  intro s p hep
  exact Option.noConfusion hep

/-- The first square the isPathClear loop visits must hold a strict null
when the walk succeeds and that square is not yet the destination. -/
theorem isPathClearAux_first (b : BoardT) (toR toC rs cs : Int) (fuel : Nat)
    (curR curC : Int)
    (h : isPathClearAux b toR toC rs cs (fuel + 1) curR curC = true)
    (hne : ¬(curR = toR ∧ curC = toC))
    (hb : 0 ≤ curR ∧ curR < 8 ∧ 0 ≤ curC ∧ curC < 8) :
    b (⟨curR.toNat, by omega⟩, ⟨curC.toNat, by omega⟩) = Cell.nul := by
  unfold isPathClearAux at h
  rw [if_neg hne, dif_pos hb] at h
  cases hcell : b (⟨curR.toNat, by omega⟩, ⟨curC.toNat, by omega⟩) with
  | nul => rfl
  | undef =>
    rw [hcell] at h
    exact Bool.noConfusion h
  | occ p =>
    rw [hcell] at h
    exact Bool.noConfusion h

/-- For a straight two-row move whose path check succeeds, the passed-over
square holds a strict null. -/
theorem isPathClear_mid (b : BoardT) (f t s : Sq)
    (hcol : f.2 = t.2) (hrow : ((t.1 : Int) - (f.1 : Int)).natAbs = 2)
    (hs1 : s.1.val = (f.1.val + t.1.val) / 2) (hs2 : s.2 = t.2)
    (h : isPathClear b f t = true) :
    b s = Cell.nul := by
  have hfl := f.1.isLt
  have htl := t.1.isLt
  have hfc := f.2.isLt
  have hc2 : (f.2 : Int) = (t.2 : Int) := by rw [hcol]
  have hsv := congrArg Fin.val hs2
  unfold isPathClear at h
  dsimp only at h
  have hor : (t.1 : Int) - (f.1 : Int) = 2 ∨ (t.1 : Int) - (f.1 : Int) = -2 := by
    omega
  rcases s with ⟨s1, s2⟩
  dsimp only at hs1 hsv
  rcases hor with hpl | hmi
  · rw [if_pos (by omega : (t.1 : Int) > (f.1 : Int)),
      if_neg (by omega : ¬((t.2 : Int) > (f.2 : Int))),
      if_neg (by omega : ¬((t.2 : Int) < (f.2 : Int)))] at h
    have hres := isPathClearAux_first b (t.1 : Int) (t.2 : Int) 1 0 7
      ((f.1 : Int) + 1) ((f.2 : Int) + 0) h (by omega) (by omega)
    have hseq : ((s1, s2) : Sq)
        = (⟨((f.1 : Int) + 1).toNat, by omega⟩, ⟨((f.2 : Int) + 0).toNat, by omega⟩) := by
      rw [Prod.mk.injEq]
      constructor
      · apply Fin.ext
        show s1.val = ((f.1 : Int) + 1).toNat
        omega
      · apply Fin.ext
        show s2.val = ((f.2 : Int) + 0).toNat
        omega
    exact (congrArg b hseq).trans hres
  · rw [if_neg (by omega : ¬((t.1 : Int) > (f.1 : Int))),
      if_pos (by omega : (t.1 : Int) < (f.1 : Int)),
      if_neg (by omega : ¬((t.2 : Int) > (f.2 : Int))),
      if_neg (by omega : ¬((t.2 : Int) < (f.2 : Int)))] at h
    have hres := isPathClearAux_first b (t.1 : Int) (t.2 : Int) (-1) 0 7
      ((f.1 : Int) + -1) ((f.2 : Int) + 0) h (by omega) (by omega)
    have hseq : ((s1, s2) : Sq)
        = (⟨((f.1 : Int) + -1).toNat, by omega⟩, ⟨((f.2 : Int) + 0).toNat, by omega⟩) := by
      rw [Prod.mk.injEq]
      constructor
      · apply Fin.ext
        show s1.val = ((f.1 : Int) + -1).toNat
        omega
      · apply Fin.ext
        show s2.val = ((f.2 : Int) + 0).toNat
        omega
    exact (congrArg b hseq).trans hres

/-- A successful en-passant test pins the destination to the stored
target square. -/
theorem isEnPassantMove_some (c : Chess) (f t : Sq)
    (h : isEnPassantMove c f t = true) : c.enPassantTarget = some t := by
  unfold isEnPassantMove at h
  split at h
  · exact Bool.noConfusion h
  · rename_i ep hep
    split at h
    · rename_i p hbf
      simp only [Bool.and_eq_true, decide_eq_true_eq] at h
      have ht : t = ep := Prod.ext h.1.2 h.2
      rw [hep, ht]
    · exact Bool.noConfusion h

/-- A legal two-row pawn move is the straight double push, and its path
check passed. -/
theorem isLegalMoveS_pawn_double (c : Chess) (f t : Sq) (p : Piece)
    (hf : c.board f = Cell.occ p) (hty : p.type = PieceType.PAWN)
    (hrow : ((t.1 : Int) - (f.1 : Int)).natAbs = 2)
    (h : (isLegalMoveS c f t).1 = true) :
    f.2 = t.2 ∧ isPathClear c.board f t = true := by
  unfold isLegalMoveS at h
  split at h
  · exact Bool.noConfusion h
  · exact Bool.noConfusion h
  · rename_i piece hbf
    rw [hf] at hbf
    have hpp : p = piece := Cell.occ.inj hbf
    subst hpp
    rw [hty] at h
    dsimp only at h
    rw [if_neg (show ¬(PieceType.PAWN = PieceType.KING ∧ isCastlingMove c f t)
      from fun hc => (by decide : ¬(PieceType.PAWN = PieceType.KING)) hc.1)] at h
    repeat' split at h
    all_goals first
    | exact Bool.noConfusion h
    | (have hv := eq_true_of_ne_false (by assumption :
        ¬(decide (f.1 = (6 : Fin 8)) && isPathClear c.board f t) = false)
       rw [Bool.and_eq_true, decide_eq_true_eq] at hv
       exact ⟨by assumption, hv.2⟩)
    | (have hv := eq_true_of_ne_false (by assumption :
        ¬(decide (f.1 = (1 : Fin 8)) && isPathClear c.board f t) = false)
       rw [Bool.and_eq_true, decide_eq_true_eq] at hv
       exact ⟨by assumption, hv.2⟩)
    | exact absurd rfl (by assumption : ¬((false : Bool) = false))
    | (exfalso; omega)

/-- A pawn move never occupies a square off the from/to rows that was
unoccupied before the move. -/
theorem buildMoveBoard_mid (c1 : Chess) (piece : Piece) (f t : Sq) (ep : Bool)
    (s : Sq) (hty : piece.type = PieceType.PAWN)
    (hsf : s.1 ≠ f.1) (hst : s.1 ≠ t.1)
    (hns : ∀ q, c1.board s ≠ Cell.occ q) (p : Piece) :
    buildMoveBoard c1 piece f t ep s ≠ Cell.occ p := by
  unfold buildMoveBoard
  dsimp only
  rw [hty]
  rw [if_neg (show ¬(PieceType.PAWN = PieceType.KING ∧ isCastlingMove c1 f t)
    from fun hc => (by decide : ¬(PieceType.PAWN = PieceType.KING)) hc.1)]
  split
  · rw [setCell_other _ _ _ _ (fun he => hst (congrArg Prod.fst he)),
      setCell_other _ _ _ _ (fun he => hsf (congrArg Prod.fst he)),
      setCell_other _ _ _ _ (fun he => hst (congrArg Prod.fst he))]
    split
    · by_cases hse : s = (f.1, t.2)
      · exact absurd (congrArg Prod.fst hse) hsf
      · rw [setCell_other _ _ _ _ hse]
        exact hns p
    · exact hns p
  · rw [setCell_other _ _ _ _ (fun he => hsf (congrArg Prod.fst he)),
      setCell_other _ _ _ _ (fun he => hst (congrArg Prod.fst he))]
    split
    · by_cases hse : s = (f.1, t.2)
      · exact absurd (congrArg Prod.fst hse) hsf
      · rw [setCell_other _ _ _ _ hse]
        exact hns p
    · exact hns p

/-- The movePiece execution tail preserves the en-passant invariant when
the strict legality test passed. -/
theorem epInv_movePieceCore (c c1 : Chess) (f t : Sq)
    (hnorm : normChess c1 = normChess c)
    (hi : epInv c)
    (hL : (isLegalMoveS c f t).1 = true) :
    epInv (movePieceCore c1 f t).2 := by
  have hic1 : epInv c1 := epInv_of_norm hnorm hi
  unfold movePieceCore
  split
  · exact hic1
  · exact hic1
  · rename_i piece hbf
    dsimp only
    intro s p hep hocc
    rw [(applyFlagUpdates_base c1 piece f t _ _ _).2] at hep
    rw [(applyFlagUpdates_base c1 piece f t _ _ _).1] at hocc
    split at hep
    · rename_i hdp
      have hs := Option.some.inj hep
      have hs1v : s.1.val = (f.1.val + t.1.val) / 2 := by
        rw [← hs]
      have hs2v : s.2 = t.2 := by
        rw [← hs]
      have hcf : c.board f = Cell.occ piece := board_occ_of_norm hnorm hbf
      obtain ⟨hft2, hpath⟩ :=
        isLegalMoveS_pawn_double c f t piece hcf hdp.1 hdp.2 hL
      have hmid : c.board s = Cell.nul :=
        isPathClear_mid c.board f t s hft2 hdp.2 hs1v hs2v hpath
      have hB := congrArg Chess.board hnorm
      have hB2 : normBoard c1.board = normBoard c.board := hB
      have hsf : s.1 ≠ f.1 := by
        intro he
        have hv := congrArg Fin.val he
        omega
      have hst : s.1 ≠ t.1 := by
        intro he
        have hv := congrArg Fin.val he
        omega
      exact buildMoveBoard_mid c1 piece f t _ s hdp.1 hsf hst
        (fun q => not_occ_of_norm_nul hB2 hmid q) p hocc
    · exact Option.noConfusion hep

/-- Every strict-mode action of Chess.move preserves the en-passant
invariant. -/
theorem epInv_moveS (c : Chess) (a : Move) (hi : epInv c) :
    epInv (moveS c a false).2 := by
  rcases a with ⟨fp, tp⟩
  cases tp with
  | pocket pc pt => exact hi
  | board t =>
    cases fp with
    | pocket col ty =>
      show epInv (dropPieceS c col ty t false).2
      rw [dropPieceS_false_eq]
      by_cases hb : (isLegalDropS c t ty col).1 = false
      · rw [if_pos hb]
        exact epInv_of_norm (isLegalDropS_norm c t ty col) hi
      · rw [if_neg hb]
        intro s p hep
        exact Option.noConfusion hep
    | board f =>
      show epInv (movePieceS c f t false).2
      rw [movePieceS_eq_core]
      by_cases hL : (isLegalMoveS c f t).1 = false
      · rw [if_pos hL]
        exact epInv_of_norm (isLegalMoveS_norm c f t) hi
      · rw [if_neg hL]
        exact epInv_movePieceCore c (isLegalMoveS c f t).2 f t
          (isLegalMoveS_norm c f t) hi (eq_true_of_ne_false hL)

/-- The en-passant invariant holds in every state reachable by a sequence
of strict-mode actions. -/
theorem epInv_execMoves (l : List Move) (c : Chess) (hi : epInv c) :
    epInv (execMoves c l) := by
  induction l generalizing c with
  | nil => exact hi
  | cons a l ih => exact ih _ (epInv_moveS c a hi)

/-- When the destination holds a rook and the move does not read as en
passant, the reported capture is exactly that rook. -/
theorem capturedPiece_rook (c1 : Chess) (p : Piece) (f t : Sq) (q : Piece)
    (hbt1 : c1.board t = Cell.occ q) (hqty : q.type = PieceType.ROOK)
    (hep : isEnPassantMove c1 f t = false) :
    capturedPiece c1 p f t = some q := by
  unfold capturedPiece
  dsimp only
  rw [hep, Bool.and_false,
    if_neg (show ¬((false : Bool) = true) from by decide)]
  split
  · rename_i q' heq
    rw [hbt1] at heq
    have hqq : q = q' := Cell.occ.inj heq
    subst hqq
    rw [hqty, if_neg (by decide : ¬(PieceType.ROOK = PieceType.PROMOTED_QUEEN))]
  · rename_i hne
    exact absurd hbt1 (hne q)

/-- A king move clears both of the mover's castling flags. -/
theorem applyFlagUpdates_king_white (c1 : Chess) (p : Piece) (f t : Sq)
    (b2 : BoardT) (ep1 : Option Sq) (cap : Option Piece)
    (hk : p.type = PieceType.KING) (hw : p.color = true) :
    (applyFlagUpdates c1 p f t b2 ep1 cap).whiteCastleShort = false
    ∧ (applyFlagUpdates c1 p f t b2 ep1 cap).whiteCastleLong = false := by
  have h3 : (clearKingFlags { c1 with board := b2, enPassantTarget := ep1 } p).whiteCastleShort = false
      ∧ (clearKingFlags { c1 with board := b2, enPassantTarget := ep1 } p).whiteCastleLong = false := by
    unfold clearKingFlags
    rw [hk, if_pos rfl, hw, if_pos rfl]
    exact ⟨rfl, rfl⟩
  obtain ⟨r1, r2, _, _⟩ := clearRookFromFlags_mono
    (clearKingFlags { c1 with board := b2, enPassantTarget := ep1 } p) p f
  obtain ⟨d1, d2, _, _⟩ := clearCapturedRookFlags_mono
    (clearRookFromFlags
      (clearKingFlags { c1 with board := b2, enPassantTarget := ep1 } p) p f) cap t
  exact ⟨flag_down d1 (flag_down r1 h3.1), flag_down d2 (flag_down r2 h3.2)⟩

/-- A black king move clears both black castling flags. -/
theorem applyFlagUpdates_king_black (c1 : Chess) (p : Piece) (f t : Sq)
    (b2 : BoardT) (ep1 : Option Sq) (cap : Option Piece)
    (hk : p.type = PieceType.KING) (hb : p.color = false) :
    (applyFlagUpdates c1 p f t b2 ep1 cap).blackCastleShort = false
    ∧ (applyFlagUpdates c1 p f t b2 ep1 cap).blackCastleLong = false := by
  have h3 : (clearKingFlags { c1 with board := b2, enPassantTarget := ep1 } p).blackCastleShort = false
      ∧ (clearKingFlags { c1 with board := b2, enPassantTarget := ep1 } p).blackCastleLong = false := by
    unfold clearKingFlags
    rw [hk, if_pos rfl, hb, if_neg (by decide : ¬((false : Bool) = true))]
    exact ⟨rfl, rfl⟩
  obtain ⟨_, _, r3, r4⟩ := clearRookFromFlags_mono
    (clearKingFlags { c1 with board := b2, enPassantTarget := ep1 } p) p f
  obtain ⟨_, _, d3, d4⟩ := clearCapturedRookFlags_mono
    (clearRookFromFlags
      (clearKingFlags { c1 with board := b2, enPassantTarget := ep1 } p) p f) cap t
  exact ⟨flag_down d3 (flag_down r3 h3.1), flag_down d4 (flag_down r4 h3.2)⟩

/-- A rook moving off one of the four corner squares clears the matching
flag. -/
theorem applyFlagUpdates_rook (c1 : Chess) (p : Piece) (f t : Sq)
    (b2 : BoardT) (ep1 : Option Sq) (cap : Option Piece)
    (hk : p.type = PieceType.ROOK) :
    (p.color = true → f = ((7 : Fin 8), (7 : Fin 8)) →
      (applyFlagUpdates c1 p f t b2 ep1 cap).whiteCastleShort = false)
    ∧ (p.color = true → f = ((7 : Fin 8), (0 : Fin 8)) →
      (applyFlagUpdates c1 p f t b2 ep1 cap).whiteCastleLong = false)
    ∧ (p.color = false → f = ((0 : Fin 8), (7 : Fin 8)) →
      (applyFlagUpdates c1 p f t b2 ep1 cap).blackCastleShort = false)
    ∧ (p.color = false → f = ((0 : Fin 8), (0 : Fin 8)) →
      (applyFlagUpdates c1 p f t b2 ep1 cap).blackCastleLong = false) := by
  obtain ⟨d1, d2, d3, d4⟩ := clearCapturedRookFlags_mono
    (clearRookFromFlags
      (clearKingFlags { c1 with board := b2, enPassantTarget := ep1 } p) p f) cap t
  refine ⟨fun hw hf => ?_, fun hw hf => ?_, fun hb hf => ?_, fun hb hf => ?_⟩
  · refine flag_down d1 ?_
    unfold clearRookFromFlags
    rw [hk, if_pos rfl, hw, if_pos rfl, hf, if_pos rfl]
  · refine flag_down d2 ?_
    unfold clearRookFromFlags
    rw [hk, if_pos rfl, hw, if_pos rfl, hf,
      if_neg (by decide :
        ¬(((7 : Fin 8), (0 : Fin 8)) : Sq) = ((7 : Fin 8), (7 : Fin 8))),
      if_pos rfl]
  · refine flag_down d3 ?_
    unfold clearRookFromFlags
    rw [hk, if_pos rfl, hb, if_neg (by decide : ¬((false : Bool) = true)), hf,
      if_pos rfl]
  · refine flag_down d4 ?_
    unfold clearRookFromFlags
    rw [hk, if_pos rfl, hb, if_neg (by decide : ¬((false : Bool) = true)), hf,
      if_neg (by decide :
        ¬(((0 : Fin 8), (0 : Fin 8)) : Sq) = ((0 : Fin 8), (7 : Fin 8))),
      if_pos rfl]

/-- A reported capture of a rook on a corner square clears the matching
flag. -/
theorem applyFlagUpdates_cap (c1 : Chess) (p : Piece) (f t : Sq)
    (b2 : BoardT) (ep1 : Option Sq) (q : Piece)
    (hq : q.type = PieceType.ROOK) :
    (q.color = true → t = ((7 : Fin 8), (7 : Fin 8)) →
      (applyFlagUpdates c1 p f t b2 ep1 (some q)).whiteCastleShort = false)
    ∧ (q.color = true → t = ((7 : Fin 8), (0 : Fin 8)) →
      (applyFlagUpdates c1 p f t b2 ep1 (some q)).whiteCastleLong = false)
    ∧ (q.color = false → t = ((0 : Fin 8), (7 : Fin 8)) →
      (applyFlagUpdates c1 p f t b2 ep1 (some q)).blackCastleShort = false)
    ∧ (q.color = false → t = ((0 : Fin 8), (0 : Fin 8)) →
      (applyFlagUpdates c1 p f t b2 ep1 (some q)).blackCastleLong = false) := by
  refine ⟨fun hw ht => ?_, fun hw ht => ?_, fun hb ht => ?_, fun hb ht => ?_⟩
  · show (clearCapturedRookFlags
      (clearRookFromFlags
        (clearKingFlags { c1 with board := b2, enPassantTarget := ep1 } p) p f)
      (some q) t).whiteCastleShort = false
    unfold clearCapturedRookFlags
    dsimp only
    rw [hq, if_pos rfl, if_pos (show q.color = Color.WHITE from hw), ht,
      if_pos rfl]
  · show (clearCapturedRookFlags
      (clearRookFromFlags
        (clearKingFlags { c1 with board := b2, enPassantTarget := ep1 } p) p f)
      (some q) t).whiteCastleLong = false
    unfold clearCapturedRookFlags
    dsimp only
    rw [hq, if_pos rfl, if_pos (show q.color = Color.WHITE from hw), ht,
      if_neg (by decide :
        ¬(((7 : Fin 8), (0 : Fin 8)) : Sq) = ((7 : Fin 8), (7 : Fin 8))),
      if_pos rfl]
  · show (clearCapturedRookFlags
      (clearRookFromFlags
        (clearKingFlags { c1 with board := b2, enPassantTarget := ep1 } p) p f)
      (some q) t).blackCastleShort = false
    unfold clearCapturedRookFlags
    dsimp only
    rw [hq, if_pos rfl,
      if_neg (show ¬(q.color = Color.WHITE) from by rw [hb]; decide), ht,
      if_pos rfl]
  · show (clearCapturedRookFlags
      (clearRookFromFlags
        (clearKingFlags { c1 with board := b2, enPassantTarget := ep1 } p) p f)
      (some q) t).blackCastleLong = false
    unfold clearCapturedRookFlags
    dsimp only
    rw [hq, if_pos rfl,
      if_neg (show ¬(q.color = Color.WHITE) from by rw [hb]; decide), ht,
      if_neg (by decide :
        ¬(((0 : Fin 8), (0 : Fin 8)) : Sq) = ((0 : Fin 8), (7 : Fin 8))),
      if_pos rfl]

/-- The movePiece execution tail clears both of the mover's flags for a
king move. -/
theorem movePieceCore_king (c1 : Chess) (f t : Sq) (p : Piece)
    (hbf1 : c1.board f = Cell.occ p) (hk : p.type = PieceType.KING) :
    (p.color = true →
      (movePieceCore c1 f t).2.whiteCastleShort = false
      ∧ (movePieceCore c1 f t).2.whiteCastleLong = false)
    ∧ (p.color = false →
      (movePieceCore c1 f t).2.blackCastleShort = false
      ∧ (movePieceCore c1 f t).2.blackCastleLong = false) := by
  unfold movePieceCore
  split
  · rename_i heq
    rw [hbf1] at heq
    exact Cell.noConfusion heq
  · rename_i heq
    rw [hbf1] at heq
    exact Cell.noConfusion heq
  · rename_i piece heq
    rw [hbf1] at heq
    have hpp : p = piece := Cell.occ.inj heq
    subst hpp
    dsimp only
    exact ⟨fun hw => applyFlagUpdates_king_white c1 p f t _ _ _ hk hw,
      fun hb => applyFlagUpdates_king_black c1 p f t _ _ _ hk hb⟩

/-- The movePiece execution tail clears the matching flag for a rook
moving off its home corner. -/
theorem movePieceCore_rook (c1 : Chess) (f t : Sq) (p : Piece)
    (hbf1 : c1.board f = Cell.occ p) (hk : p.type = PieceType.ROOK) :
    (p.color = true → f = ((7 : Fin 8), (7 : Fin 8)) →
      (movePieceCore c1 f t).2.whiteCastleShort = false)
    ∧ (p.color = true → f = ((7 : Fin 8), (0 : Fin 8)) →
      (movePieceCore c1 f t).2.whiteCastleLong = false)
    ∧ (p.color = false → f = ((0 : Fin 8), (7 : Fin 8)) →
      (movePieceCore c1 f t).2.blackCastleShort = false)
    ∧ (p.color = false → f = ((0 : Fin 8), (0 : Fin 8)) →
      (movePieceCore c1 f t).2.blackCastleLong = false) := by
  unfold movePieceCore
  split
  · rename_i heq
    rw [hbf1] at heq
    exact Cell.noConfusion heq
  · rename_i heq
    rw [hbf1] at heq
    exact Cell.noConfusion heq
  · rename_i piece heq
    rw [hbf1] at heq
    have hpp : p = piece := Cell.occ.inj heq
    subst hpp
    dsimp only
    exact applyFlagUpdates_rook c1 p f t _ _ _ hk

/-- The movePiece execution tail clears the matching flag when it reports
the capture of a rook sitting on its home corner. -/
theorem movePieceCore_cap (c1 : Chess) (f t : Sq) (p q : Piece)
    (hbf1 : c1.board f = Cell.occ p)
    (hbt1 : c1.board t = Cell.occ q)
    (hqty : q.type = PieceType.ROOK)
    (hep : isEnPassantMove c1 f t = false) :
    (q.color = true → t = ((7 : Fin 8), (7 : Fin 8)) →
      (movePieceCore c1 f t).2.whiteCastleShort = false)
    ∧ (q.color = true → t = ((7 : Fin 8), (0 : Fin 8)) →
      (movePieceCore c1 f t).2.whiteCastleLong = false)
    ∧ (q.color = false → t = ((0 : Fin 8), (7 : Fin 8)) →
      (movePieceCore c1 f t).2.blackCastleShort = false)
    ∧ (q.color = false → t = ((0 : Fin 8), (0 : Fin 8)) →
      (movePieceCore c1 f t).2.blackCastleLong = false) := by
  unfold movePieceCore
  split
  · rename_i heq
    rw [hbf1] at heq
    exact Cell.noConfusion heq
  · rename_i heq
    rw [hbf1] at heq
    exact Cell.noConfusion heq
  · rename_i piece heq
    rw [hbf1] at heq
    have hpp : p = piece := Cell.occ.inj heq
    subst hpp
    dsimp only
    rw [capturedPiece_rook c1 p f t q hbt1 hqty hep]
    exact applyFlagUpdates_cap c1 p f t _ _ q hqty

/-- A successful strict movePiece passed the strict legality test. -/
theorem movePieceS_success_legal (c : Chess) (f t : Sq)
    (hs : (movePieceS c f t false).1.success = true) :
    (isLegalMoveS c f t).1 = true := by
  rw [movePieceS_eq_core] at hs
  by_cases hL : (isLegalMoveS c f t).1 = false
  · rw [if_pos hL] at hs
    exact Bool.noConfusion hs
  · exact eq_true_of_ne_false hL

/-- After a passed legality test, strict movePiece is the execution
tail on the probe-restored state. -/
theorem movePieceS_success_eq (c : Chess) (f t : Sq)
    (hL : (isLegalMoveS c f t).1 = true) :
    movePieceS c f t false = movePieceCore (isLegalMoveS c f t).2 f t := by
  rw [movePieceS_eq_core,
    if_neg (show ¬(isLegalMoveS c f t).1 = false from by
      rw [hL]; exact fun hc => Bool.noConfusion hc)]

/-- C10: along strict-mode play the four castling-right flags are
monotonically non-increasing (no action, successful or not, ever raises
one), and on any state reachable from reset a successful board move
forces the matching flags false when its piece is a king, when its piece
is a rook leaving its home corner, and when its destination captures a
rook on that rook's home corner. -/
theorem castling_rights_monotone :
    (∀ (c : Chess) (a : Move),
      ((moveS c a false).2.whiteCastleShort = true → c.whiteCastleShort = true)
      ∧ ((moveS c a false).2.whiteCastleLong = true → c.whiteCastleLong = true)
      ∧ ((moveS c a false).2.blackCastleShort = true → c.blackCastleShort = true)
      ∧ ((moveS c a false).2.blackCastleLong = true → c.blackCastleLong = true))
    ∧ (∀ (l : List Move) (f t : Sq) (p : Piece),
      (execMoves resetChess l).board f = Cell.occ p →
      (moveS (execMoves resetChess l)
          { fromPos := Position.board f, toPos := Position.board t } false).1.success
        = true →
      ((p.type = PieceType.KING → p.color = true →
        (moveS (execMoves resetChess l)
            { fromPos := Position.board f, toPos := Position.board t } false).2.whiteCastleShort
          = false
        ∧ (moveS (execMoves resetChess l)
            { fromPos := Position.board f, toPos := Position.board t } false).2.whiteCastleLong
          = false)
      ∧ (p.type = PieceType.KING → p.color = false →
        (moveS (execMoves resetChess l)
            { fromPos := Position.board f, toPos := Position.board t } false).2.blackCastleShort
          = false
        ∧ (moveS (execMoves resetChess l)
            { fromPos := Position.board f, toPos := Position.board t } false).2.blackCastleLong
          = false)
      ∧ (p.type = PieceType.ROOK → p.color = true → f = ((7 : Fin 8), (7 : Fin 8)) →
        (moveS (execMoves resetChess l)
            { fromPos := Position.board f, toPos := Position.board t } false).2.whiteCastleShort
          = false)
      ∧ (p.type = PieceType.ROOK → p.color = true → f = ((7 : Fin 8), (0 : Fin 8)) →
        (moveS (execMoves resetChess l)
            { fromPos := Position.board f, toPos := Position.board t } false).2.whiteCastleLong
          = false)
      ∧ (p.type = PieceType.ROOK → p.color = false → f = ((0 : Fin 8), (7 : Fin 8)) →
        (moveS (execMoves resetChess l)
            { fromPos := Position.board f, toPos := Position.board t } false).2.blackCastleShort
          = false)
      ∧ (p.type = PieceType.ROOK → p.color = false → f = ((0 : Fin 8), (0 : Fin 8)) →
        (moveS (execMoves resetChess l)
            { fromPos := Position.board f, toPos := Position.board t } false).2.blackCastleLong
          = false)
      ∧ (∀ q, (execMoves resetChess l).board t = Cell.occ q →
          q.type = PieceType.ROOK →
          (q.color = true → t = ((7 : Fin 8), (7 : Fin 8)) →
            (moveS (execMoves resetChess l)
                { fromPos := Position.board f, toPos := Position.board t } false).2.whiteCastleShort
              = false)
          ∧ (q.color = true → t = ((7 : Fin 8), (0 : Fin 8)) →
            (moveS (execMoves resetChess l)
                { fromPos := Position.board f, toPos := Position.board t } false).2.whiteCastleLong
              = false)
          ∧ (q.color = false → t = ((0 : Fin 8), (7 : Fin 8)) →
            (moveS (execMoves resetChess l)
                { fromPos := Position.board f, toPos := Position.board t } false).2.blackCastleShort
              = false)
          ∧ (q.color = false → t = ((0 : Fin 8), (0 : Fin 8)) →
            (moveS (execMoves resetChess l)
                { fromPos := Position.board f, toPos := Position.board t } false).2.blackCastleLong
              = false)))) := by
  constructor
  · exact moveS_flags_mono
  · intro l f t p hbf hsucc
    have hsucc2 :
        (movePieceS (execMoves resetChess l) f t false).1.success = true := hsucc
    have hL := movePieceS_success_legal _ f t hsucc2
    have heq := movePieceS_success_eq _ f t hL
    have heqM : moveS (execMoves resetChess l)
        { fromPos := Position.board f, toPos := Position.board t } false
        = movePieceCore (isLegalMoveS (execMoves resetChess l) f t).2 f t := heq
    have hnorm := isLegalMoveS_norm (execMoves resetChess l) f t
    have hbf1 : (isLegalMoveS (execMoves resetChess l) f t).2.board f
        = Cell.occ p := board_occ_of_norm hnorm.symm hbf
    refine ⟨?_, ?_, ?_, ?_, ?_, ?_, ?_⟩
    · intro hk hw
      rw [heqM]
      exact (movePieceCore_king _ f t p hbf1 hk).1 hw
    · intro hk hb
      rw [heqM]
      exact (movePieceCore_king _ f t p hbf1 hk).2 hb
    · intro hk hw hf
      rw [heqM]
      exact (movePieceCore_rook _ f t p hbf1 hk).1 hw hf
    · intro hk hw hf
      rw [heqM]
      exact (movePieceCore_rook _ f t p hbf1 hk).2.1 hw hf
    · intro hk hb hf
      rw [heqM]
      exact (movePieceCore_rook _ f t p hbf1 hk).2.2.1 hb hf
    · intro hk hb hf
      rw [heqM]
      exact (movePieceCore_rook _ f t p hbf1 hk).2.2.2 hb hf
    · intro q hbt hqty
      have hbt1 : (isLegalMoveS (execMoves resetChess l) f t).2.board t
          = Cell.occ q := board_occ_of_norm hnorm.symm hbt
      have hepF : isEnPassantMove (isLegalMoveS (execMoves resetChess l) f t).2 f t
          = false := by
        cases hx : isEnPassantMove (isLegalMoveS (execMoves resetChess l) f t).2 f t with
        | false => rfl
        | true =>
          exfalso
          have hepT := isEnPassantMove_some _ f t hx
          have hE := congrArg Chess.enPassantTarget hnorm
          have hE2 : (isLegalMoveS (execMoves resetChess l) f t).2.enPassantTarget
              = (execMoves resetChess l).enPassantTarget := hE
          have hepC : (execMoves resetChess l).enPassantTarget = some t := by
            rw [← hE2]
            exact hepT
          exact epInv_execMoves l resetChess epInv_resetChess t q hepC hbt
      obtain ⟨k1, k2, k3, k4⟩ :=
        movePieceCore_cap _ f t p q hbf1 hbt1 hqty hepF
      refine ⟨fun hw ht => ?_, fun hw ht => ?_, fun hb ht => ?_, fun hb ht => ?_⟩
      · rw [heqM]
        exact k1 hw ht
      · rw [heqM]
        exact k2 hw ht
      · rw [heqM]
        exact k3 hb ht
      · rw [heqM]
        exact k4 hb ht

/-- C10 witness: after the pawn pushes e2-e3 and a7-a6 the white king
still sits on e1 with both white flags raised; the king move e1-e2
succeeds and the theorem forces both white flags false afterwards. -/
theorem castling_rights_monotone_witness :
    (execMoves resetChess [pushE2E3, pushA7A6]).board ((7 : Fin 8), (4 : Fin 8))
      = Cell.occ ⟨PieceType.KING, Color.WHITE⟩
    ∧ (execMoves resetChess [pushE2E3, pushA7A6]).whiteCastleShort = true
    ∧ (moveS (execMoves resetChess [pushE2E3, pushA7A6])
        { fromPos := Position.board ((7 : Fin 8), (4 : Fin 8)),
          toPos := Position.board ((6 : Fin 8), (4 : Fin 8)) } false).1.success = true
    ∧ ((moveS (execMoves resetChess [pushE2E3, pushA7A6])
        { fromPos := Position.board ((7 : Fin 8), (4 : Fin 8)),
          toPos := Position.board ((6 : Fin 8), (4 : Fin 8)) } false).2.whiteCastleShort
        = false
      ∧ (moveS (execMoves resetChess [pushE2E3, pushA7A6])
        { fromPos := Position.board ((7 : Fin 8), (4 : Fin 8)),
          toPos := Position.board ((6 : Fin 8), (4 : Fin 8)) } false).2.whiteCastleLong
        = false) :=
  ⟨by decide, by decide, by decide,
   (castling_rights_monotone.2 [pushE2E3, pushA7A6]
      ((7 : Fin 8), (4 : Fin 8)) ((6 : Fin 8), (4 : Fin 8))
      ⟨PieceType.KING, Color.WHITE⟩ (by decide) (by decide)).1 rfl rfl⟩

/-- The path walk transfers to a board whose strict nulls include the
first board's strict nulls. -/
theorem isPathClearAux_mono (b2 b : BoardT)
    (hc : ∀ x, (b2 x).neNull = false → (b x).neNull = false)
    (toR toC rs cs : Int) :
    ∀ (fuel : Nat) (curR curC : Int),
      isPathClearAux b2 toR toC rs cs fuel curR curC = true →
      isPathClearAux b toR toC rs cs fuel curR curC = true := by
  intro fuel
  induction fuel with
  | zero =>
    intro curR curC h
    exact h
  | succ n ih =>
    intro curR curC h
    unfold isPathClearAux at h ⊢
    by_cases hend : curR = toR ∧ curC = toC
    · rw [if_pos hend]
    · rw [if_neg hend] at h ⊢
      by_cases hbound : 0 ≤ curR ∧ curR < 8 ∧ 0 ≤ curC ∧ curC < 8
      · rw [dif_pos hbound] at h ⊢
        dsimp only at h ⊢
        split at h
        · exact Bool.noConfusion h
        · rename_i hnn
          have hnn2 := Bool.eq_false_iff.mpr hnn
          have hnn3 := hc _ hnn2
          split
          · rename_i hgnn
            rw [hnn3] at hgnn
            exact Bool.noConfusion hgnn
          · exact ih _ _ h
      · rw [dif_neg hbound] at h
        dsimp only at h
        split at h
        · exact Bool.noConfusion h
        · rename_i hnn
          exact absurd rfl hnn

/-- isPathClear transfers along the same null inclusion. -/
theorem isPathClear_mono (b2 b : BoardT)
    (hc : ∀ x, (b2 x).neNull = false → (b x).neNull = false) (f t : Sq)
    (h : isPathClear b2 f t = true) : isPathClear b f t = true := by
  unfold isPathClear at h ⊢
  exact isPathClearAux_mono b2 b hc _ _ _ _ _ _ _ h

/-- isDiagonalPath transfers along the same null inclusion. -/
theorem isDiagonalPath_mono (b2 b : BoardT)
    (hc : ∀ x, (b2 x).neNull = false → (b x).neNull = false) (f t : Sq)
    (h : isDiagonalPath b2 f t = true) : isDiagonalPath b f t = true := by
  unfold isDiagonalPath at h ⊢
  split at h
  · exact Bool.noConfusion h
  · rename_i hcond
    rw [if_neg hcond]
    exact isPathClear_mono b2 b hc f t h

/-- isStraightPath transfers along the same null inclusion. -/
theorem isStraightPath_mono (b2 b : BoardT)
    (hc : ∀ x, (b2 x).neNull = false → (b x).neNull = false) (f t : Sq)
    (h : isStraightPath b2 f t = true) : isStraightPath b f t = true := by
  unfold isStraightPath at h ⊢
  split at h
  · exact Bool.noConfusion h
  · rename_i hcond
    rw [if_neg hcond]
    exact isPathClear_mono b2 b hc f t h

/-- A piece attack transfers to a board that holds the same attacker and
includes the first board's strict nulls. -/
theorem canPieceAttack_mono (b2 b : BoardT) (s pos : Sq) (q : Piece)
    (hs2 : b2 s = Cell.occ q) (hs : b s = Cell.occ q)
    (hc : ∀ x, (b2 x).neNull = false → (b x).neNull = false)
    (h : canPieceAttack b2 s pos = true) : canPieceAttack b s pos = true := by
  unfold canPieceAttack at h ⊢
  obtain ⟨qt, qc⟩ := q
  rw [hs2] at h
  rw [hs]
  cases qt with
  | PAWN => exact h
  | KNIGHT => exact h
  | KING => exact h
  | BISHOP =>
    have h2 : isDiagonalPath b2 s pos = true := h
    exact isDiagonalPath_mono b2 b hc s pos h2
  | ROOK =>
    have h2 : isStraightPath b2 s pos = true := h
    exact isStraightPath_mono b2 b hc s pos h2
  | PROMOTED_QUEEN =>
    have h2 : (isDiagonalPath b2 s pos || isStraightPath b2 s pos) = true := h
    rw [Bool.or_eq_true] at h2
    have h3 : (isDiagonalPath b s pos || isStraightPath b s pos) = true := by
      rw [Bool.or_eq_true]
      rcases h2 with h2 | h2
      · exact Or.inl (isDiagonalPath_mono b2 b hc s pos h2)
      · exact Or.inr (isStraightPath_mono b2 b hc s pos h2)
    exact h3
  | QUEEN =>
    have h2 : (isDiagonalPath b2 s pos || isStraightPath b2 s pos) = true := h
    rw [Bool.or_eq_true] at h2
    have h3 : (isDiagonalPath b s pos || isStraightPath b s pos) = true := by
      rw [Bool.or_eq_true]
      rcases h2 with h2 | h2
      · exact Or.inl (isDiagonalPath_mono b2 b hc s pos h2)
      · exact Or.inr (isStraightPath_mono b2 b hc s pos h2)
    exact h3

/-- Every square is scanned. -/
theorem mem_allSquares (s : Sq) : s ∈ allSquares := by
  rcases s with ⟨r, cc⟩
  unfold allSquares
  rw [List.mem_flatMap]
  exact ⟨r, List.mem_finRange r, List.mem_map.mpr ⟨cc, List.mem_finRange cc, rfl⟩⟩

/-- Decomposing a positive attack scan. -/
theorem isSquareAttacked_elim (b : BoardT) (pos : Sq) (ec : Color)
    (h : isSquareAttacked b pos ec = true) :
    ∃ s q, b s = Cell.occ q ∧ q.color = ec ∧ canPieceAttack b s pos = true := by
  unfold isSquareAttacked at h
  rw [List.any_eq_true] at h
  rcases h with ⟨s, hmem, hs⟩
  rcases hcs : b s with _ | _ | q
  · rw [hcs] at hs
    exact Bool.noConfusion hs
  · rw [hcs] at hs
    exact Bool.noConfusion hs
  · rw [hcs] at hs
    have hs2 : (decide (q.color = ec) && canPieceAttack b s pos) = true := hs
    rw [Bool.and_eq_true, decide_eq_true_eq] at hs2
    exact ⟨s, q, hcs, hs2.1, hs2.2⟩

/-- Building a positive attack scan. -/
theorem isSquareAttacked_intro (b : BoardT) (pos s : Sq) (q : Piece) (ec : Color)
    (hcs : b s = Cell.occ q) (hcol : q.color = ec)
    (hatt : canPieceAttack b s pos = true) :
    isSquareAttacked b pos ec = true := by
  unfold isSquareAttacked
  rw [List.any_eq_true]
  refine ⟨s, mem_allSquares s, ?_⟩
  rw [hcs]
  show (decide (q.color = ec) && canPieceAttack b s pos) = true
  rw [Bool.and_eq_true, decide_eq_true_eq]
  exact ⟨hcol, hatt⟩

/-- An attack on a square transfers to a board that keeps every enemy
attacker in place and includes the first board's strict nulls. -/
theorem isSquareAttacked_mono (b2 b : BoardT) (pos : Sq) (ec : Color)
    (hcell : ∀ s q, b2 s = Cell.occ q → q.color = ec → b s = Cell.occ q)
    (hc : ∀ x, (b2 x).neNull = false → (b x).neNull = false)
    (h : isSquareAttacked b2 pos ec = true) :
    isSquareAttacked b pos ec = true := by
  obtain ⟨s, q, hs2, hq, hatt⟩ := isSquareAttacked_elim b2 pos ec h
  have hsB := hcell s q hs2 hq
  exact isSquareAttacked_intro b pos s q ec hsB hq
    (canPieceAttack_mono b2 b s pos q hs2 hsB hc hatt)

/-- find? of a uniquely satisfied test returns its witness. -/
theorem find_unique {α : Type} (l : List α) (pred : α → Bool) (x : α)
    (hmem : x ∈ l) (hx : pred x = true)
    (huni : ∀ y ∈ l, pred y = true → y = x) :
    l.find? pred = some x := by
  induction l with
  | nil => exact absurd hmem (List.not_mem_nil x)
  | cons a l ih =>
    by_cases ha : pred a = true
    · have haa : a = x := huni a (List.mem_cons_self a l) ha
      subst haa
      rw [List.find?_cons_of_pos _ ha]
    · rw [List.find?_cons_of_neg _ ha]
      rcases List.mem_cons.mp hmem with rfl | hmem2
      · exact absurd hx ha
      · exact ih hmem2 (fun y hy hp => huni y (List.mem_cons_of_mem a hy) hp)

/-- findKing when the board holds exactly one matching king. -/
theorem findKing_unique (b : BoardT) (col : Color) (t : Sq)
    (ht : kingCell b col t = true)
    (huni : ∀ s, kingCell b col s = true → s = t) :
    findKing b col = some t := by
  unfold findKing
  exact find_unique allSquares (kingCell b col) t (mem_allSquares t) ht
    (fun y _ hy => huni y hy)

/-- Not-in-check transfers backwards along a king-position equality and an
attack transfer. -/
theorem isInCheck_false_transfer (b2 b : BoardT) (col : Color)
    (hfk : findKing b2 col = findKing b col)
    (hattack : ∀ kp,
      isSquareAttacked b2 kp (if col then Color.BLACK else Color.WHITE) = true →
      isSquareAttacked b kp (if col then Color.BLACK else Color.WHITE) = true)
    (h : isInCheck b col = false) : isInCheck b2 col = false := by
  unfold isInCheck at h ⊢
  rw [hfk]
  cases hkp : findKing b col with
  | none => rfl
  | some kp =>
    rw [hkp] at h
    have h2 : isSquareAttacked b kp (if col then Color.BLACK else Color.WHITE) = false := h
    have h3 : isSquareAttacked b2 kp (if col then Color.BLACK else Color.WHITE) = false := by
      cases hx : isSquareAttacked b2 kp (if col then Color.BLACK else Color.WHITE) with
      | false => rfl
      | true =>
        rw [hattack kp hx] at h2
        exact Bool.noConfusion h2
    exact h3

/-- Reading the destination square after the simulate step. -/
theorem setCell_move_t (b : BoardT) (f t : Sq) (p : Piece) (hft : f ≠ t) :
    (setCell (setCell b t (Cell.occ p)) f Cell.undef) t = Cell.occ p := by
  rw [setCell_other _ _ _ _ (Ne.symm hft), setCell_same]

/-- invertColor written as the conditional isInCheck uses. -/
theorem invertColor_eq (col : Color) :
    invertColor col = if col then Color.BLACK else Color.WHITE := rfl

/-- kingCell on a matching king. -/
theorem kingCell_true_of_king (b : BoardT) (col : Color) (x : Sq) (q : Piece)
    (hx : b x = Cell.occ q) (hqt : q.type = PieceType.KING) (hqc : q.color = col) :
    kingCell b col x = true := by
  unfold kingCell
  rw [hx]
  show (decide (q.type = PieceType.KING) && decide (q.color = col)) = true
  rw [decide_eq_true hqt, decide_eq_true hqc]
  rfl

/-- kingCell on a piece that is not a king. -/
theorem kingCell_false_of_nonking (b : BoardT) (col : Color) (x : Sq) (q : Piece)
    (hx : b x = Cell.occ q) (hq : q.type ≠ PieceType.KING) :
    kingCell b col x = false := by
  unfold kingCell
  rw [hx]
  show (decide (q.type = PieceType.KING) && decide (q.color = col)) = false
  rw [decide_eq_false hq]
  rfl

/-- kingCell on an empty cell. -/
theorem kingCell_false_of_empty (b : BoardT) (col : Color) (x : Sq)
    (hx : b x = Cell.undef ∨ b x = Cell.nul) :
    kingCell b col x = false := by
  unfold kingCell
  rcases hx with hx | hx <;> rw [hx]

/-- kingCell is determined by the cell. -/
theorem kingCell_eq_of_eq (b2 b : BoardT) (col : Color) (x : Sq)
    (h : b2 x = b x) : kingCell b2 col x = kingCell b col x := by
  unfold kingCell
  rw [h]

/-- A positive kingCell read decomposed. -/
theorem kingCell_elim (b : BoardT) (col : Color) (x : Sq)
    (h : kingCell b col x = true) :
    ∃ q, b x = Cell.occ q ∧ q.type = PieceType.KING ∧ q.color = col := by
  unfold kingCell at h
  rcases hx : b x with _ | _ | q
  · rw [hx] at h
    exact Bool.noConfusion h
  · rw [hx] at h
    exact Bool.noConfusion h
  · rw [hx] at h
    have h2 : (decide (q.type = PieceType.KING) && decide (q.color = col)) = true := h
    rw [Bool.and_eq_true, decide_eq_true_eq, decide_eq_true_eq] at h2
    exact ⟨q, rfl, h2.1, h2.2⟩

/-- findKing only depends on the pointwise king test. -/
theorem findKing_congr (b2 b : BoardT) (col : Color)
    (h : ∀ x, kingCell b2 col x = kingCell b col x) :
    findKing b2 col = findKing b col := by
  unfold findKing
  exact congrArg (fun g => List.find? g allSquares) (funext h)

/-- The en-passant test reads only the stored target and the from cell. -/
theorem isEnPassantMove_congr (c1 c : Chess) (f t : Sq)
    (hep : c1.enPassantTarget = c.enPassantTarget)
    (hf : c1.board f = c.board f) :
    isEnPassantMove c1 f t = isEnPassantMove c f t := by
  unfold isEnPassantMove
  rw [hep, hf]

/-- The castling-shape test reads only the from cell. -/
theorem isCastlingMove_congr (c1 c : Chess) (f t : Sq)
    (hf : c1.board f = c.board f) :
    isCastlingMove c1 f t = isCastlingMove c f t := by
  unfold isCastlingMove
  rw [hf]

/-- A positive castling-shape test pins the move to a two-column king
slide within one row. -/
theorem isCastlingMove_elim (c : Chess) (f t : Sq) (p : Piece)
    (hb : c.board f = Cell.occ p) (h : isCastlingMove c f t = true) :
    ((f.2 : Int) - (t.2 : Int)).natAbs = 2 ∧ f.1 = t.1 := by
  unfold isCastlingMove at h
  rw [hb] at h
  have h2 : (decide (p.type = PieceType.KING)
      && decide (((f.2 : Int) - (t.2 : Int)).natAbs = 2)
      && decide (f.1 = t.1)) = true := h
  simp only [Bool.and_eq_true, decide_eq_true_eq] at h2
  exact ⟨h2.1.2, h2.2⟩

/-- A legal move never targets its own from square (the same-color
target gate rejects it). -/
theorem isLegalMoveS_ne (c : Chess) (f t : Sq) (p : Piece)
    (hb : c.board f = Cell.occ p) (h : (isLegalMoveS c f t).1 = true) : f ≠ t := by
  intro hft
  subst hft
  unfold isLegalMoveS at h
  rw [hb] at h
  dsimp only at h
  by_cases hturn : c.turn ≠ p.color
  · rw [if_pos hturn] at h
    exact Bool.noConfusion h
  · rw [if_neg hturn] at h
    rw [if_pos (show (decide (p.color = p.color)) = true from decide_eq_true rfl)] at h
    exact Bool.noConfusion h

set_option maxHeartbeats 1000000 in
/-- The legality probe returns the original state with a board that
differs at most by rewriting strictly null cells to undefined. -/
theorem isLegalMoveS_state (c : Chess) (f t : Sq) :
    ∃ B, (isLegalMoveS c f t).2 = { c with board := B }
      ∧ ∀ x, B x = c.board x ∨ (B x = Cell.undef ∧ c.board x = Cell.nul) := by
  unfold isLegalMoveS
  split
  · exact ⟨c.board, rfl, fun x => Or.inl rfl⟩
  · exact ⟨c.board, rfl, fun x => Or.inl rfl⟩
  · rename_i piece hbf
    dsimp only
    repeat' split
    all_goals
      first
      | exact Bool.noConfusion (by assumption : Cell.truthy Cell.undef = true)
      | (refine ⟨c.board, ?_, fun x => Or.inl rfl⟩
         rw [restore_noEP_exact c.board f t piece hbf])
      | (refine ⟨c.board, ?_, fun x => Or.inl rfl⟩
         rw [restore_EP_exact c.board f t (f.1, t.2) piece hbf])
      | (rename_i hEP htr
         refine ⟨_, rfl, fun x => ?_⟩
         rw [restore_EP_skip c.board f t (f.1, t.2) piece hbf x]
         by_cases hcx : x = (f.1, t.2) ∧ x ≠ t ∧ x ≠ f
         · rw [if_pos hcx, hcx.1]
           rcases hcb : c.board (f.1, t.2) with _ | _ | q
           · exact Or.inl rfl
           · exact Or.inr ⟨rfl, rfl⟩
           · rw [hcb] at htr
             exact absurd rfl htr
         · rw [if_neg hcx]
           exact Or.inl rfl)
      | exact ⟨c.board, rfl, fun x => Or.inl rfl⟩

/-- On a castling-shaped king move the legality probe returns the state
untouched (the simulation never runs). -/
theorem isLegalMoveS_castle_state (c : Chess) (f t : Sq) (p : Piece)
    (hb : c.board f = Cell.occ p)
    (hcc : p.type = PieceType.KING ∧ isCastlingMove c f t) :
    (isLegalMoveS c f t).2 = c := by
  unfold isLegalMoveS
  rw [hb]
  dsimp only
  repeat' split
  all_goals first
  | rfl
  | exact absurd hcc (by assumption)

/-- A legal castling-shaped king move passed the canCastle test for the
side the column direction selects. -/
theorem isLegalMoveS_castle (c : Chess) (f t : Sq) (p : Piece)
    (hb : c.board f = Cell.occ p)
    (hcc : p.type = PieceType.KING ∧ isCastlingMove c f t)
    (h : (isLegalMoveS c f t).1 = true) :
    canCastle c p.color
      (if (t.2 : Int) > (f.2 : Int) then CastleMove.SHORT else CastleMove.LONG)
      = true := by
  unfold isLegalMoveS at h
  rw [hb] at h
  dsimp only at h
  repeat' split at h
  all_goals first
  | exact Bool.noConfusion h
  | exact absurd hcc (by assumption)
  | (rw [if_pos (by assumption : (t.2 : Int) > (f.2 : Int))]; exact h)
  | (rw [if_neg (by assumption : ¬((t.2 : Int) > (f.2 : Int)))]; exact h)
  | exact h

/-- A legal non-castling move passed the self-check simulation: the
board with the move applied (and the en-passant victim removed) does not
leave the mover in check. -/
theorem isLegalMoveS_noncastle_check (c : Chess) (f t : Sq) (p : Piece)
    (hb : c.board f = Cell.occ p)
    (hnc : ¬(p.type = PieceType.KING ∧ isCastlingMove c f t))
    (h : (isLegalMoveS c f t).1 = true) :
    isInCheck
      (setCell (setCell
        (if (p.type = PieceType.PAWN && isEnPassantMove c f t) = true then
          setCell c.board (f.1, t.2) Cell.undef else c.board)
        t (Cell.occ p)) f Cell.undef) p.color = false := by
  unfold isLegalMoveS at h
  rw [hb] at h
  dsimp only at h
  rw [if_neg hnc] at h
  by_cases hEP : (p.type = PieceType.PAWN && isEnPassantMove c f t) = true
  · rw [if_pos hEP]
    repeat rw [if_pos hEP] at h
    repeat' split at h
    all_goals first
    | exact Bool.noConfusion h
    | (refine Bool.eq_false_iff.mpr (fun hx => ?_)
       rw [hx] at h
       exact Bool.noConfusion h)
  · rw [if_neg hEP]
    repeat rw [if_neg hEP] at h
    repeat' split at h
    all_goals first
    | exact Bool.noConfusion h
    | (refine Bool.eq_false_iff.mpr (fun hx => ?_)
       rw [hx] at h
       exact Bool.noConfusion h)

/-- The board of the strict execution tail on an occupied from square is
the rebuilt move board. -/
theorem movePieceCore_board (c1 : Chess) (f t : Sq) (p : Piece)
    (hb1 : c1.board f = Cell.occ p) :
    (movePieceCore c1 f t).2.board
      = buildMoveBoard c1 p f t (p.type = PieceType.PAWN && isEnPassantMove c1 f t) := by
  unfold movePieceCore
  split
  · rename_i hu
    rw [hu] at hb1
    exact Cell.noConfusion hb1
  · rename_i hu
    rw [hu] at hb1
    exact Cell.noConfusion hb1
  · rename_i piece hbf
    rw [hb1] at hbf
    have hpp : p = piece := Cell.occ.inj hbf
    subst hpp
    dsimp only
    exact (applyFlagUpdates_base c1 p f t _ _ _).1

/-- A passed canCastle test pins a king and a rook to the canonical
home squares of the color and clears every transit square of enemy
attacks. -/
theorem canCastle_facts (c : Chess) (color : Color) (side : CastleMove)
    (h : canCastle c color side = true) :
    ∃ king rook : Piece,
      c.board ((if color then (7 : Fin 8) else 0), (4 : Fin 8)) = Cell.occ king
      ∧ king.type = PieceType.KING ∧ king.color = color
      ∧ c.board ((if color then (7 : Fin 8) else 0),
          (if side = CastleMove.SHORT then (7 : Fin 8) else 0)) = Cell.occ rook
      ∧ rook.type = PieceType.ROOK ∧ rook.color = color
      ∧ ∀ col ∈ (if side = CastleMove.SHORT then
            ([4, 5, 6] : List (Fin 8)) else [4, 3, 2]),
          isSquareAttacked c.board ((if color then (7 : Fin 8) else 0), col)
            (invertColor color) = false := by
  unfold canCastle at h
  dsimp only at h
  by_cases hc1 : color = true ∧ side = CastleMove.SHORT ∧ c.whiteCastleShort = false
  · rw [if_pos hc1] at h
    exact Bool.noConfusion h
  rw [if_neg hc1] at h
  by_cases hc2 : color = true ∧ side = CastleMove.LONG ∧ c.whiteCastleLong = false
  · rw [if_pos hc2] at h
    exact Bool.noConfusion h
  rw [if_neg hc2] at h
  by_cases hc3 : color = false ∧ side = CastleMove.SHORT ∧ c.blackCastleShort = false
  · rw [if_pos hc3] at h
    exact Bool.noConfusion h
  rw [if_neg hc3] at h
  by_cases hc4 : color = false ∧ side = CastleMove.LONG ∧ c.blackCastleLong = false
  · rw [if_pos hc4] at h
    exact Bool.noConfusion h
  rw [if_neg hc4] at h
  split at h
  · rename_i king rook hkc hrc
    by_cases hk1 : king.type ≠ PieceType.KING ∨ king.color ≠ color
    · rw [if_pos hk1] at h
      exact Bool.noConfusion h
    rw [if_neg hk1] at h
    by_cases hk2 : rook.type ≠ PieceType.ROOK ∨ rook.color ≠ color
    · rw [if_pos hk2] at h
      exact Bool.noConfusion h
    rw [if_neg hk2] at h
    by_cases hk3 : isInCheck c.board color = true
    · rw [if_pos hk3] at h
      exact Bool.noConfusion h
    rw [if_neg hk3] at h
    by_cases hk4 : ((if side = CastleMove.SHORT then ([5, 6] : List (Fin 8))
        else [1, 2, 3]).any fun col =>
          (c.board ((if color then (7 : Fin 8) else 0), col)).neNull) = true
    · rw [if_pos hk4] at h
      exact Bool.noConfusion h
    rw [if_neg hk4] at h
    by_cases hk5 : ((if side = CastleMove.SHORT then ([4, 5, 6] : List (Fin 8))
        else [4, 3, 2]).any fun col =>
          isSquareAttacked c.board ((if color then (7 : Fin 8) else 0), col)
            (invertColor color)) = true
    · rw [if_pos hk5] at h
      exact Bool.noConfusion h
    simp only [not_or, ne_eq, not_not] at hk1 hk2
    refine ⟨king, rook, hkc, hk1.1, hk1.2, hrc, hk2.1, hk2.2, fun col hm => ?_⟩
    cases hx : isSquareAttacked c.board ((if color then (7 : Fin 8) else 0), col)
        (invertColor color) with
    | false => rfl
    | true => exact absurd (List.any_eq_true.mpr ⟨col, hm, hx⟩) hk5
  all_goals exact Bool.noConfusion h

/-- A board rewritten by a castle-shaped relocation of a lone king and a
rook is not in check for the mover when the landing square was not
attacked on the original board. -/
theorem castle_board_safe (cb B : BoardT) (p rookP : Piece) (kt home rto rfrom : Sq)
    (hk : p.type = PieceType.KING)
    (hrt : rookP.type = PieceType.ROOK) (hrc : rookP.color = p.color)
    (hBt : B kt = Cell.occ p)
    (hBhome : B home = Cell.undef)
    (hBto : B rto = Cell.occ rookP)
    (hBfrom : B rfrom = Cell.undef)
    (hBelse : ∀ x, x ≠ kt → x ≠ home → x ≠ rto → x ≠ rfrom → B x = cb x)
    (huniq : ∀ s, kingCell cb p.color s = true → s = home)
    (hatt : isSquareAttacked cb kt
      (if p.color then Color.BLACK else Color.WHITE) = false) :
    isInCheck B p.color = false := by
  have hpne : ¬(p.color = (if p.color = true then Color.BLACK else Color.WHITE)) := by
    cases hpc : p.color <;> decide
  have hkt2 : kingCell B p.color kt = true :=
    kingCell_true_of_king B p.color kt p hBt hk rfl
  have hku : ∀ s, kingCell B p.color s = true → s = kt := by
    intro s hs
    by_cases h1 : s = kt
    · exact h1
    by_cases h2 : s = home
    · rw [h2] at hs
      rw [kingCell_false_of_empty B p.color home (Or.inl hBhome)] at hs
      exact Bool.noConfusion hs
    by_cases h3 : s = rto
    · rw [h3] at hs
      rw [kingCell_false_of_nonking B p.color rto rookP hBto
        (by rw [hrt]; decide)] at hs
      exact Bool.noConfusion hs
    by_cases h4 : s = rfrom
    · rw [h4] at hs
      rw [kingCell_false_of_empty B p.color rfrom (Or.inl hBfrom)] at hs
      exact Bool.noConfusion hs
    · have hcs : kingCell cb p.color s = true := by
        unfold kingCell at hs ⊢
        rw [← hBelse s h1 h2 h3 h4]
        exact hs
      exact absurd (huniq s hcs) h2
  have hfk : findKing B p.color = some kt :=
    findKing_unique B p.color kt hkt2 hku
  unfold isInCheck
  rw [hfk]
  have hres : isSquareAttacked B kt
      (if p.color then Color.BLACK else Color.WHITE) = false := by
    cases hx : isSquareAttacked B kt
        (if p.color then Color.BLACK else Color.WHITE) with
    | false => rfl
    | true =>
      exfalso
      have hcell : ∀ s q, B s = Cell.occ q →
          q.color = (if p.color then Color.BLACK else Color.WHITE) →
          cb s = Cell.occ q := by
        intro s q hBs hqc
        by_cases h1 : s = kt
        · rw [h1, hBt] at hBs
          have hqp : p = q := Cell.occ.inj hBs
          rw [← hqp] at hqc
          exact absurd hqc hpne
        by_cases h2 : s = home
        · rw [h2, hBhome] at hBs
          exact Cell.noConfusion hBs
        by_cases h3 : s = rto
        · rw [h3, hBto] at hBs
          have hqr : rookP = q := Cell.occ.inj hBs
          rw [← hqr] at hqc
          rw [hrc] at hqc
          exact absurd hqc hpne
        by_cases h4 : s = rfrom
        · rw [h4, hBfrom] at hBs
          exact Cell.noConfusion hBs
        · rw [hBelse s h1 h2 h3 h4] at hBs
          exact hBs
      have hcc : ∀ x, (B x).neNull = false → (cb x).neNull = false := by
        intro x hx2
        by_cases h1 : x = kt
        · rw [h1, hBt] at hx2
          exact Bool.noConfusion hx2
        by_cases h2 : x = home
        · rw [h2, hBhome] at hx2
          exact Bool.noConfusion hx2
        by_cases h3 : x = rto
        · rw [h3, hBto] at hx2
          exact Bool.noConfusion hx2
        by_cases h4 : x = rfrom
        · rw [h4, hBfrom] at hx2
          exact Bool.noConfusion hx2
        · rw [← hBelse x h1 h2 h3 h4]
          exact hx2
      have htr2 := isSquareAttacked_mono B cb kt
        (if p.color then Color.BLACK else Color.WHITE) hcell hcc hx
      rw [htr2] at hatt
      exact Bool.noConfusion hatt
  exact hres

/-- A legal castle-shaped king move executed on the probing state leaves
the mover out of check when that color has a unique king. -/
theorem castle_case_safe (c : Chess) (f t : Sq) (p : Piece)
    (hb : c.board f = Cell.occ p)
    (huniq : ∀ s1 s2 : Sq, kingCell c.board p.color s1 = true →
      kingCell c.board p.color s2 = true → s1 = s2)
    (hcc : p.type = PieceType.KING ∧ isCastlingMove c f t)
    (hcan : canCastle c p.color
      (if (t.2 : Int) > (f.2 : Int) then CastleMove.SHORT else CastleMove.LONG)
      = true) :
    isInCheck (buildMoveBoard c p f t false) p.color = false := by
  obtain ⟨hk, hcm⟩ := hcc
  obtain ⟨habs, hrows⟩ := isCastlingMove_elim c f t p hb hcm
  obtain ⟨king, rook, hkc, hkt, hkcol, hrc, hrt, hrcol, htrans⟩ :=
    canCastle_facts c p.color _ hcan
  have hkf : kingCell c.board p.color f = true :=
    kingCell_true_of_king c.board p.color f p hb hk rfl
  have hkh : kingCell c.board p.color
      ((if p.color then (7 : Fin 8) else 0), (4 : Fin 8)) = true :=
    kingCell_true_of_king c.board p.color _ king hkc hkt hkcol
  have hf4 : f = ((if p.color then (7 : Fin 8) else 0), (4 : Fin 8)) :=
    huniq f _ hkf hkh
  have hf1 : f.1 = (if p.color then (7 : Fin 8) else 0) := congrArg Prod.fst hf4
  have hf2 : f.2 = (4 : Fin 8) := congrArg Prod.snd hf4
  have habs2 : (((4 : Fin 8) : Int) - (t.2 : Int)).natAbs = 2 := by
    rw [hf2] at habs
    exact habs
  have ht2 : t.2 = (6 : Fin 8) ∨ t.2 = (2 : Fin 8) := by
    have hl := t.2.isLt
    have h4 : ((4 : Fin 8) : Int) = 4 := rfl
    rw [h4] at habs2
    rcases eq_or_ne t.2.val 6 with hx | hx
    · exact Or.inl (Fin.ext hx)
    · refine Or.inr (Fin.ext (show t.2.val = 2 from ?_))
      omega
  unfold buildMoveBoard
  dsimp only
  rw [if_neg (show ¬((false : Bool) = true) from Bool.false_ne_true)]
  rw [if_pos (show p.type = PieceType.KING ∧ isCastlingMove c f t from ⟨hk, hcm⟩)]
  rw [if_neg (show ¬(p.type = PieceType.PAWN ∧ (t.1 = (0 : Fin 8) ∨ t.1 = (7 : Fin 8)))
    from fun hpr => by rw [hk] at hpr; exact PieceType.noConfusion hpr.1)]
  rcases ht2 with h6 | h2
  · have hsideS : (if (t.2 : Int) > (f.2 : Int) then CastleMove.SHORT
        else CastleMove.LONG) = CastleMove.SHORT := by
      rw [h6, hf4]
      exact if_pos (show ((6 : Fin 8) : Int) > ((4 : Fin 8) : Int) from by decide)
    rw [hsideS] at htrans
    rw [hsideS] at hrc
    rw [if_pos (show CastleMove.SHORT = CastleMove.SHORT from rfl)] at hrc
    rw [if_pos (show CastleMove.SHORT = CastleMove.SHORT from rfl)] at htrans
    rw [hsideS]
    rw [if_pos (show CastleMove.SHORT = CastleMove.SHORT from rfl),
      if_pos (show CastleMove.SHORT = CastleMove.SHORT from rfl)]
    have hnetf : t ≠ f := fun he => by
      have hq := congrArg Prod.snd he
      rw [h6, hf2] at hq
      exact absurd hq (by decide)
    have hnet7 : t ≠ (f.1, (7 : Fin 8)) := fun he => by
      have hq := congrArg Prod.snd he
      rw [h6] at hq
      exact absurd hq (show ¬((6 : Fin 8) = (7 : Fin 8)) from by decide)
    have hnet5 : t ≠ (f.1, (5 : Fin 8)) := fun he => by
      have hq := congrArg Prod.snd he
      rw [h6] at hq
      exact absurd hq (show ¬((6 : Fin 8) = (5 : Fin 8)) from by decide)
    have hnef7 : f ≠ (f.1, (7 : Fin 8)) := fun he => by
      have hq := congrArg Prod.snd he
      rw [hf2] at hq
      exact absurd hq (show ¬((4 : Fin 8) = (7 : Fin 8)) from by decide)
    have hnef5 : f ≠ (f.1, (5 : Fin 8)) := fun he => by
      have hq := congrArg Prod.snd he
      rw [hf2] at hq
      exact absurd hq (show ¬((4 : Fin 8) = (5 : Fin 8)) from by decide)
    have hne57 : ((f.1, (5 : Fin 8)) : Sq) ≠ (f.1, (7 : Fin 8)) :=
      fun he => absurd (congrArg Prod.snd he)
        (show ¬((5 : Fin 8) = (7 : Fin 8)) from by decide)
    refine castle_board_safe c.board _ p rook t f (f.1, (5 : Fin 8)) (f.1, (7 : Fin 8))
      hk hrt hrcol ?_ ?_ ?_ ?_ ?_ (fun s hs => huniq s f hs hkf) ?_
    · rw [setCell_other _ _ _ _ hnet7, setCell_other _ _ _ _ hnet5]
      exact setCell_move_t c.board f t p (Ne.symm hnetf)
    · rw [setCell_other _ _ _ _ hnef7, setCell_other _ _ _ _ hnef5]
      exact setCell_same _ _ _
    · rw [setCell_other _ _ _ _ hne57, setCell_same]
      rw [setCell_other _ _ _ _ (Ne.symm hnef7), setCell_other _ _ _ _ (Ne.symm hnet7)]
      rw [hf1]
      exact hrc
    · exact setCell_same _ _ _
    · intro x hx1 hx2 hx3 hx4
      rw [setCell_other _ _ _ _ hx4, setCell_other _ _ _ _ hx3,
        setCell_other _ _ _ _ hx2, setCell_other _ _ _ _ hx1]
    · have hteq : t = ((if p.color then (7 : Fin 8) else 0), (6 : Fin 8)) :=
        Prod.ext (hrows.symm.trans hf1) h6
      have ha := htrans (6 : Fin 8) (by decide)
      rw [← hteq] at ha
      exact ha
  · have hsideL : (if (t.2 : Int) > (f.2 : Int) then CastleMove.SHORT
        else CastleMove.LONG) = CastleMove.LONG := by
      rw [h2, hf4]
      exact if_neg (show ¬(((2 : Fin 8) : Int) > ((4 : Fin 8) : Int)) from by decide)
    rw [hsideL] at htrans
    rw [hsideL] at hrc
    rw [if_neg (show ¬(CastleMove.LONG = CastleMove.SHORT) from by decide)] at hrc
    rw [if_neg (show ¬(CastleMove.LONG = CastleMove.SHORT) from by decide)] at htrans
    rw [hsideL]
    rw [if_neg (show ¬(CastleMove.LONG = CastleMove.SHORT) from by decide),
      if_neg (show ¬(CastleMove.LONG = CastleMove.SHORT) from by decide)]
    have hnetf : t ≠ f := fun he => by
      have hq := congrArg Prod.snd he
      rw [h2, hf2] at hq
      exact absurd hq (by decide)
    have hnet0 : t ≠ (f.1, (0 : Fin 8)) := fun he => by
      have hq := congrArg Prod.snd he
      rw [h2] at hq
      exact absurd hq (show ¬((2 : Fin 8) = (0 : Fin 8)) from by decide)
    have hnet3 : t ≠ (f.1, (3 : Fin 8)) := fun he => by
      have hq := congrArg Prod.snd he
      rw [h2] at hq
      exact absurd hq (show ¬((2 : Fin 8) = (3 : Fin 8)) from by decide)
    have hnef0 : f ≠ (f.1, (0 : Fin 8)) := fun he => by
      have hq := congrArg Prod.snd he
      rw [hf2] at hq
      exact absurd hq (show ¬((4 : Fin 8) = (0 : Fin 8)) from by decide)
    have hnef3 : f ≠ (f.1, (3 : Fin 8)) := fun he => by
      have hq := congrArg Prod.snd he
      rw [hf2] at hq
      exact absurd hq (show ¬((4 : Fin 8) = (3 : Fin 8)) from by decide)
    have hne30 : ((f.1, (3 : Fin 8)) : Sq) ≠ (f.1, (0 : Fin 8)) :=
      fun he => absurd (congrArg Prod.snd he)
        (show ¬((3 : Fin 8) = (0 : Fin 8)) from by decide)
    refine castle_board_safe c.board _ p rook t f (f.1, (3 : Fin 8)) (f.1, (0 : Fin 8))
      hk hrt hrcol ?_ ?_ ?_ ?_ ?_ (fun s hs => huniq s f hs hkf) ?_
    · rw [setCell_other _ _ _ _ hnet0, setCell_other _ _ _ _ hnet3]
      exact setCell_move_t c.board f t p (Ne.symm hnetf)
    · rw [setCell_other _ _ _ _ hnef0, setCell_other _ _ _ _ hnef3]
      exact setCell_same _ _ _
    · rw [setCell_other _ _ _ _ hne30, setCell_same]
      rw [setCell_other _ _ _ _ (Ne.symm hnef0), setCell_other _ _ _ _ (Ne.symm hnet0)]
      rw [hf1]
      exact hrc
    · exact setCell_same _ _ _
    · intro x hx1 hx2 hx3 hx4
      rw [setCell_other _ _ _ _ hx4, setCell_other _ _ _ _ hx3,
        setCell_other _ _ _ _ hx2, setCell_other _ _ _ _ hx1]
    · have hteq : t = ((if p.color then (7 : Fin 8) else 0), (2 : Fin 8)) :=
        Prod.ext (hrows.symm.trans hf1) h2
      have ha := htrans (2 : Fin 8) (by decide)
      rw [← hteq] at ha
      exact ha

/-- The simulated and the executed move board agree pointwise away from
the destination, up to the restore step rewriting strictly null cells of
the probed board to undefined. -/
theorem simBoard_rel (b1 b0 : BoardT) (f t : Sq) (p : Piece) (e : Bool)
    (hB : ∀ x, b1 x = b0 x ∨ (b1 x = Cell.undef ∧ b0 x = Cell.nul)) :
    ∀ x, x ≠ t →
      (setCell (setCell (if e = true then setCell b1 (f.1, t.2) Cell.undef else b1)
          t (Cell.occ p)) f Cell.undef) x
        = (setCell (setCell (if e = true then setCell b0 (f.1, t.2) Cell.undef else b0)
          t (Cell.occ p)) f Cell.undef) x
      ∨ ((setCell (setCell (if e = true then setCell b1 (f.1, t.2) Cell.undef else b1)
          t (Cell.occ p)) f Cell.undef) x = Cell.undef
        ∧ (setCell (setCell (if e = true then setCell b0 (f.1, t.2) Cell.undef else b0)
          t (Cell.occ p)) f Cell.undef) x = Cell.nul) := by
  intro x hxt
  by_cases hxf : x = f
  · rw [hxf, setCell_same, setCell_same]
    exact Or.inl rfl
  · rw [setCell_other _ _ _ _ hxf, setCell_other _ _ _ _ hxf,
      setCell_other _ _ _ _ hxt, setCell_other _ _ _ _ hxt]
    cases e with
    | false => exact hB x
    | true =>
      show setCell b1 (f.1, t.2) Cell.undef x = setCell b0 (f.1, t.2) Cell.undef x
        ∨ (setCell b1 (f.1, t.2) Cell.undef x = Cell.undef
          ∧ setCell b0 (f.1, t.2) Cell.undef x = Cell.nul)
      by_cases hxe : x = (f.1, t.2)
      · rw [hxe, setCell_same, setCell_same]
        exact Or.inl rfl
      · rw [setCell_other _ _ _ _ hxe, setCell_other _ _ _ _ hxe]
        exact hB x

/-- A non-castling execution on the probe-restored board stays out of
check when the simulation on the original board already passed. -/
theorem noncastle_exec_safe (c c1 : Chess) (f t : Sq) (p : Piece) (e : Bool)
    (hft : f ≠ t)
    (hB : ∀ x, c1.board x = c.board x
      ∨ (c1.board x = Cell.undef ∧ c.board x = Cell.nul))
    (hnc1 : ¬(p.type = PieceType.KING ∧ isCastlingMove c1 f t))
    (hsim : isInCheck (setCell (setCell
        (if e = true then setCell c.board (f.1, t.2) Cell.undef else c.board)
        t (Cell.occ p)) f Cell.undef) p.color = false) :
    isInCheck (buildMoveBoard c1 p f t e) p.color = false := by
  unfold buildMoveBoard
  dsimp only
  rw [if_neg hnc1]
  have hmid := simBoard_rel c1.board c.board f t p e hB
  have hEt : (setCell (setCell (if e = true then setCell c1.board (f.1, t.2) Cell.undef
      else c1.board) t (Cell.occ p)) f Cell.undef) t = Cell.occ p :=
    setCell_move_t _ f t p hft
  have hSt : (setCell (setCell (if e = true then setCell c.board (f.1, t.2) Cell.undef
      else c.board) t (Cell.occ p)) f Cell.undef) t = Cell.occ p :=
    setCell_move_t _ f t p hft
  have hpne : ¬(p.color = (if p.color = true then Color.BLACK else Color.WHITE)) := by
    cases hpc : p.color <;> decide
  split
  · rename_i hpr
    refine isInCheck_false_transfer _ _ p.color ?_ ?_ hsim
    · refine findKing_congr _ _ p.color (fun x => ?_)
      by_cases hxt : x = t
      · rw [hxt]
        rw [kingCell_false_of_nonking _ p.color t
            ⟨PieceType.PROMOTED_QUEEN, p.color⟩ (setCell_same _ _ _)
            (show ¬(PieceType.PROMOTED_QUEEN = PieceType.KING) from by decide),
          kingCell_false_of_nonking _ p.color t p hSt (by rw [hpr.1]; decide)]
      · rcases hmid x hxt with heq | ⟨hu, hn⟩
        · exact kingCell_eq_of_eq _ _ p.color x
            ((setCell_other _ _ _ _ hxt).trans heq)
        · rw [kingCell_false_of_empty _ p.color x
            (Or.inl ((setCell_other _ _ _ _ hxt).trans hu)),
            kingCell_false_of_empty _ p.color x (Or.inr hn)]
    · intro kp hx
      refine isSquareAttacked_mono _ _ kp _ (fun s q hBs hqc => ?_)
        (fun x hx2 => ?_) hx
      · by_cases hst : s = t
        · rw [hst] at hBs
          rw [setCell_same] at hBs
          exfalso
          have hq2 : (⟨PieceType.PROMOTED_QUEEN, p.color⟩ : Piece) = q :=
            Cell.occ.inj hBs
          rw [← hq2] at hqc
          exact hpne hqc
        · rw [setCell_other _ _ _ _ hst] at hBs
          rcases hmid s hst with heq | ⟨hu, hn⟩
          · rw [heq] at hBs
            exact hBs
          · rw [hu] at hBs
            exact Cell.noConfusion hBs
      · by_cases hxt : x = t
        · rw [hxt] at hx2
          rw [setCell_same] at hx2
          exact Bool.noConfusion hx2
        · rw [setCell_other _ _ _ _ hxt] at hx2
          rcases hmid x hxt with heq | ⟨hu, hn⟩
          · rw [heq] at hx2
            exact hx2
          · rw [hn]
            rfl
  · refine isInCheck_false_transfer _ _ p.color ?_ ?_ hsim
    · refine findKing_congr _ _ p.color (fun x => ?_)
      by_cases hxt : x = t
      · rw [hxt]
        exact kingCell_eq_of_eq _ _ p.color t (hEt.trans hSt.symm)
      · rcases hmid x hxt with heq | ⟨hu, hn⟩
        · exact kingCell_eq_of_eq _ _ p.color x heq
        · rw [kingCell_false_of_empty _ p.color x (Or.inl hu),
            kingCell_false_of_empty _ p.color x (Or.inr hn)]
    · intro kp hx
      refine isSquareAttacked_mono _ _ kp _ (fun s q hBs hqc => ?_)
        (fun x hx2 => ?_) hx
      · by_cases hst : s = t
        · rw [hst] at hBs ⊢
          rw [hEt] at hBs
          exact hSt.trans hBs
        · rcases hmid s hst with heq | ⟨hu, hn⟩
          · rw [heq] at hBs
            exact hBs
          · rw [hu] at hBs
            exact Cell.noConfusion hBs
      · by_cases hxt : x = t
        · rw [hxt] at hx2
          rw [hEt] at hx2
          exact Bool.noConfusion hx2
        · rcases hmid x hxt with heq | ⟨hu, hn⟩
          · rw [heq] at hx2
            exact hx2
          · rw [hn]
            rfl

/-- C1 amended: on a state whose board holds at most one king of the
moving piece's color, a true isLegalMove verdict guarantees that
executing the move (en-passant removal and castling rook relocation
included) leaves the moving side's king out of check. -/
theorem isLegalMove_safe_with_unique_king (c : Chess) (f t : Sq) (p : Piece)
    (hb : c.board f = Cell.occ p)
    (huniq : ∀ s1 s2 : Sq, kingCell c.board p.color s1 = true →
      kingCell c.board p.color s2 = true → s1 = s2)
    (h : isLegalMove c f t = true) :
    isInCheck (movePieceS c f t false).2.board p.color = false := by
  have hL : (isLegalMoveS c f t).1 = true := h
  rw [movePieceS_success_eq c f t hL]
  obtain ⟨B, hc1, hBx⟩ := isLegalMoveS_state c f t
  have hb1 : (isLegalMoveS c f t).2.board f = Cell.occ p := by
    rw [hc1]
    show B f = Cell.occ p
    rcases hBx f with hbf | ⟨hbu, hbn⟩
    · rw [hbf, hb]
    · rw [hb] at hbn
      exact Cell.noConfusion hbn
  have hepEq : (isLegalMoveS c f t).2.enPassantTarget = c.enPassantTarget := by
    rw [hc1]
  have hfEq : (isLegalMoveS c f t).2.board f = c.board f := by
    rw [hb1, hb]
  have hft : f ≠ t := isLegalMoveS_ne c f t p hb hL
  rw [movePieceCore_board (isLegalMoveS c f t).2 f t p hb1]
  rw [isEnPassantMove_congr (isLegalMoveS c f t).2 c f t hepEq hfEq]
  by_cases hcc : p.type = PieceType.KING ∧ isCastlingMove c f t
  · have hst : (isLegalMoveS c f t).2 = c := isLegalMoveS_castle_state c f t p hb hcc
    rw [hst]
    have hcan := isLegalMoveS_castle c f t p hb hcc hL
    have heF : (p.type = PieceType.PAWN && isEnPassantMove c f t) = false := by
      rw [hcc.1]
      rfl
    rw [heF]
    exact castle_case_safe c f t p hb huniq hcc hcan
  · have hnc1 : ¬(p.type = PieceType.KING
        ∧ isCastlingMove (isLegalMoveS c f t).2 f t) := by
      rw [isCastlingMove_congr (isLegalMoveS c f t).2 c f t hfEq]
      exact hcc
    have hsim := isLegalMoveS_noncastle_check c f t p hb hcc hL
    have hBall : ∀ x, (isLegalMoveS c f t).2.board x = c.board x
        ∨ ((isLegalMoveS c f t).2.board x = Cell.undef ∧ c.board x = Cell.nul) := by
      intro x
      rw [hc1]
      exact hBx x
    exact noncastle_exec_safe c (isLegalMoveS c f t).2 f t p
      (p.type = PieceType.PAWN && isEnPassantMove c f t) hft hBall hnc1 hsim

set_option maxRecDepth 100000 in
/-- C1 amended witness: the reset board has a unique white king, the
pawn push e2-e3 is legal, and the theorem forces the executed position
to leave White out of check. -/
theorem isLegalMove_safe_with_unique_king_witness :
    isInCheck (movePieceS resetChess ((6 : Fin 8), (4 : Fin 8))
      ((5 : Fin 8), (4 : Fin 8)) false).2.board Color.WHITE = false :=
  isLegalMove_safe_with_unique_king resetChess ((6 : Fin 8), (4 : Fin 8))
    ((5 : Fin 8), (4 : Fin 8)) ⟨PieceType.PAWN, Color.WHITE⟩
    (by decide) (by decide) (by decide)

/-- C7 amended witness: the single unflipped flagged match yields team
BLUE with player 1, the owner of the minimal clock -5. -/
theorem checkTimeout_amended_witness :
    ∃ team player, checkTimeout timeoutGame1 = some (team, player)
      ∧ ∃ m, m ∈ timeoutGame1.matchList
        ∧ ((team = Team.BLUE ∧ m.whitePlayer = some player ∧ m.whiteTime ≤ 0
            ∧ ∀ m2 ∈ timeoutGame1.matchList, m.whiteTime ≤ m2.whiteTime
                ∧ m.whiteTime ≤ m2.blackTime)
          ∨ (team = Team.RED ∧ m.blackPlayer = some player ∧ m.blackTime ≤ 0
            ∧ ∀ m2 ∈ timeoutGame1.matchList, m.blackTime ≤ m2.whiteTime
                ∧ m.blackTime ≤ m2.blackTime)) :=
  (checkTimeout_amended timeoutGame1).2 (by decide) (by decide)

end Bughouse
